import Mathlib

/-!
# Central free lists (`runtime/mcentral.go`)

A shallow embedding of the central free list of one size class: the two span
lists `nonempty` and `empty`, span acquisition (`mCentral_CacheSpan`), span
return (`mCentral_UncacheSpan`), bulk reclamation (`mCentral_FreeSpan`) and
growth (`mCentral_Grow`).

Pointers to spans are span identifiers (`Nat`), the span table maps an
identifier to the span's fields, and object memory maps an address to the link
word stored at that address.  The collaborators that live outside
`mcentral.go` (page heap, sweeper, pacer, heap bitmap, size-class table) are the
fields of `Env`.  Machine integers are `Nat`/`Int` with explicit wrap-around.
-/

namespace MCentral

/-! ## Machine integers -/

/-- Conversion to `uintptr` (64 bits). -/
def uintptr (x : Nat) : Nat := x % 2 ^ 64

/-- Conversion to `uint32`. -/
def uint32 (x : Int) : Nat := (x % 2 ^ 32).toNat

/-- Conversion to `uint16`. -/
def uint16 (x : Int) : Nat := (x % 2 ^ 16).toNat

/-- Conversion to `int32` (two's complement, low 32 bits). -/
def int32 (x : Int) : Int := (x + 2 ^ 31) % 2 ^ 32 - 2 ^ 31

/-! ## Data model -/

/-- Fields of `mspan` that `mcentral.go` reads or writes.  The list-membership
pointers `next`/`prev` are represented by the span lists of `Store`. -/
structure mspan where
  start : Nat
  npages : Nat
  elemsize : Nat
  ref : Nat
  freelist : Nat
  sweepgen : Nat
  incache : Bool
  needzero : Nat
  limit : Nat
deriving DecidableEq

/-- Everything the collaborators may read and write: the span table, object
memory (the link word at each address), the heap bitmap, the global sweep
generation `mheap_.sweepgen`, and the fields of the `mcentral` itself. -/
structure Store where
  spans : Nat → mspan
  mem : Nat → Nat
  heapBits : Nat → Nat
  sweepgen : Nat
  sizeclass : Nat
  nonempty : List Nat
  empty : List Nat

/-- Ghost record of the writes to a span's `ref`/`freelist` (with the lock state
and list membership at the time of the write) and of the calls of
`mHeap_Free`. -/
inductive Event where
  | writeRef (s : Nat) (lockHeld : Bool) (isLinked : Bool)
  | writeFreelist (s : Nat) (lockHeld : Bool) (isLinked : Bool)
  | heapFree (s : Nat)
deriving DecidableEq

/-- The store together with the state of `c.lock` and the ghost trace. -/
structure World extends Store where
  locked : Bool
  trace : List Event

/-- The two list heads of an `mcentral`. -/
inductive ListHead where
  | nonempty
  | empty
deriving DecidableEq

/-- Fatal errors: the `throw` calls of `mcentral.go` and the two run-time
panics its statements can raise. -/
inductive Fatal where
  | emptySpan
  | freelistEmpty
  | uncachingFullSpan
  | freespanIntoCachedSpan
  | cantPreserveUnlinkedSpan
  | freelistNotEmpty
  | divideByZero
  | nilDereference
deriving DecidableEq

/-- Outcome of an operation: normal return, fatal error (with the state at the
point of the abort), or no return within the given number of retries. -/
inductive Result (α : Type) where
  | ok (a : α) (w : World)
  | fatal (e : Fatal) (w : World)
  | diverge

/-- Constants, tables and collaborators declared outside `mcentral.go`:
`_PageShift`, `class_to_size`, `class_to_allocnpages`, `deductSweepCredit`,
`mSpan_Sweep`, `mHeap_Alloc`, `mHeap_Free` and
`heapBitsForSpan(s.base()).initSpan(s.layout())`. -/
structure Env where
  PageShift : Nat
  class_to_size : Nat → Nat
  class_to_allocnpages : Nat → Nat
  deductSweepCredit : Store → Nat → Store
  mSpan_Sweep : Store → Nat → Store
  mHeap_Alloc : Store → Nat → Nat → Option Nat × Store
  mHeap_Free : Store → Nat → Store
  initSpan : (Nat → Nat) → mspan → (Nat → Nat)

/-! ## Primitive steps -/

/-- Replace the store of a world by the result of a collaborator call. -/
def World.withStore (w : World) (st : Store) : World :=
  { w with toStore := st }

/-- Update the fields of span `s`. -/
def World.modify (w : World) (s : Nat) (f : mspan → mspan) : World :=
  { w with spans := Function.update w.spans s (f (w.spans s)) }

/-- Whether `s` is linked in one of the two lists (`s.next != nil`). -/
def World.linked (w : World) (s : Nat) : Bool :=
  decide (s ∈ w.nonempty) || decide (s ∈ w.empty)

/-- Ghost step: append an event to the trace. -/
def World.record (w : World) (e : Event) : World :=
  { w with trace := w.trace ++ [e] }

/-- The lock of the central list is taken. -/
def lock (w : World) : World := { w with locked := true }

/-- The lock of the central list is released. -/
def unlock (w : World) : World := { w with locked := false }

/-- Assignment `s.freelist = v`. -/
def setFreelist (w : World) (s v : Nat) : World :=
  (w.record (.writeFreelist s w.locked (w.linked s))).modify s
    (fun sp => { sp with freelist := v })

/-- Assignment `s.ref = v`. -/
def setRef (w : World) (s v : Nat) : World :=
  (w.record (.writeRef s w.locked (w.linked s))).modify s
    (fun sp => { sp with ref := v })

/-- Assignment `s.incache = b`. -/
def setIncache (w : World) (s : Nat) (b : Bool) : World :=
  w.modify s (fun sp => { sp with incache := b })

/-- The call `atomicstore(&s.sweepgen, v)`. -/
def atomicstore_sweepgen (w : World) (s v : Nat) : World :=
  w.modify s (fun sp => { sp with sweepgen := v })

/-- The call `cas(&s.sweepgen, old, new)`: compare and swap, reporting success. -/
def cas_sweepgen (w : World) (s old new : Nat) : Bool × World :=
  if (w.spans s).sweepgen = old then (true, atomicstore_sweepgen w s new)
  else (false, w)

/-- Store `v` in the link word at address `a` (`a.ptr().next = v`). -/
def storeLink (w : World) (a v : Nat) : World :=
  { w with mem := Function.update w.mem a v }

/-- Modelled from the spec: `mSpanList_Init` (declared outside `mcentral.go`)
makes a list empty. -/
def mSpanList_Init (w : World) (l : ListHead) : World :=
  match l with
  | .nonempty => { w with nonempty := [] }
  | .empty => { w with empty := [] }

/-- Modelled from the spec: `mSpanList_Remove` (declared outside `mcentral.go`)
unlinks the span from whichever list holds it. -/
def mSpanList_Remove (w : World) (s : Nat) : World :=
  { w with nonempty := w.nonempty.filter (fun x => x != s),
           empty := w.empty.filter (fun x => x != s) }

/-- Modelled from the spec: `mSpanList_Insert` (declared outside `mcentral.go`)
links the span at the front of the list. -/
def mSpanList_Insert (w : World) (l : ListHead) (s : Nat) : World :=
  match l with
  | .nonempty => { w with nonempty := s :: w.nonempty }
  | .empty => { w with empty := s :: w.empty }

/-- Modelled from the spec: `mSpanList_InsertBack` (declared outside
`mcentral.go`) links the span at the back of the list. -/
def mSpanList_InsertBack (w : World) (l : ListHead) (s : Nat) : World :=
  match l with
  | .nonempty => { w with nonempty := w.nonempty ++ [s] }
  | .empty => { w with empty := w.empty ++ [s] }

/-- The expression `int32((s.npages << _PageShift) / s.elemsize)`, for a span
whose `elemsize` is not zero. -/
def capacity (env : Env) (sp : mspan) : Int :=
  int32 ((uintptr (sp.npages * 2 ^ env.PageShift) / sp.elemsize : Nat) : Int)

/-- The expression `cap - int32(s.ref)`: the free-object count. -/
def freeCount (env : Env) (sp : mspan) : Int :=
  int32 (capacity env sp - int32 (sp.ref : Int))

/-! ## Operations -/

/-- `mCentral_Init`: set the size class and initialise both lists. -/
def mCentral_Init (w : World) (sizeclass : Nat) : World :=
  mSpanList_Init (mSpanList_Init { w with sizeclass := sizeclass } .nonempty) .empty

/-- The carving loop of `mCentral_Grow`,
`for i := 1; i < n; i++ { p += size; tail.ptr().next = p; tail = p }`,
with `k = n - i` iterations left.  Returns the final `tail` and the world, or
`none` when a nil `tail` is dereferenced. -/
def carve (size : Nat) : Nat → Nat → Nat → World → Option (Nat × World)
  | 0, _, tail, w => some (tail, w)
  | k + 1, p, tail, w =>
    let p1 := uintptr (p + size)
    if tail = 0 then none
    else carve size k p1 p1 (storeLink w tail p1)

/-- `mCentral_Grow`: fetch a span from the heap and carve it into a free list. -/
def mCentral_Grow (env : Env) (w : World) : Result (Option Nat) :=
  let npages := uintptr (env.class_to_allocnpages w.sizeclass)
  let size := uintptr (env.class_to_size w.sizeclass)
  if size = 0 then .fatal .divideByZero w
  else
    let n := uintptr (npages * 2 ^ env.PageShift) / size
    match env.mHeap_Alloc w.toStore npages w.sizeclass with
    | (none, st) => .ok none (w.withStore st)
    | (some s, st) =>
      let w1 := w.withStore st
      let p := uintptr ((w1.spans s).start * 2 ^ env.PageShift)
      let w2 := w1.modify s (fun sp => { sp with limit := uintptr (p + uintptr (size * n)) })
      match carve size (n - 1) p p w2 with
      | none => .fatal .nilDereference w2
      | some (tail, w3) =>
        if (w3.spans s).freelist ≠ 0 then .fatal .freelistNotEmpty w3
        else if tail = 0 then .fatal .nilDereference w3
        else
          let w4 := storeLink w3 tail 0
          let w5 := setFreelist w4 s p
          let w6 := { w5 with heapBits := env.initSpan w5.heapBits (w5.spans s) }
          .ok (some s) w6

/-- The label `havespan` of `mCentral_CacheSpan` (lines 111-122). -/
def havespan (env : Env) (w : World) (s : Nat) : Result (Option Nat) :=
  if (w.spans s).elemsize = 0 then .fatal .divideByZero w
  else
    let n := freeCount env (w.spans s)
    if n = 0 then .fatal .emptySpan w
    else if (w.spans s).freelist = 0 then .fatal .freelistEmpty w
    else .ok (some s) (setIncache w s true)

/-- The scan of `nonempty` (lines 41-63), over the spans still to visit.
`some (s, w)` is the jump to `havespan` with `s`; `none` is the end of the list
(the scan itself changes nothing unless it selects a span). -/
def scanNonempty (env : Env) (sg : Nat) : List Nat → World → Option (Nat × World)
  | [], _ => none
  | s :: rest, w =>
    if (w.spans s).sweepgen = uint32 (sg - 2) ∧
        (cas_sweepgen w s (uint32 (sg - 2)) (uint32 (sg - 1))).1 = true then
      let w1 := (cas_sweepgen w s (uint32 (sg - 2)) (uint32 (sg - 1))).2
      let w2 := mSpanList_Remove w1 s
      let w3 := mSpanList_InsertBack w2 .empty s
      let w4 := unlock w3
      let w5 := w4.withStore (env.mSpan_Sweep w4.toStore s)
      some (s, w5)
    else if (w.spans s).sweepgen = uint32 (sg - 1) then
      scanNonempty env sg rest w
    else
      let w2 := mSpanList_Remove w s
      let w3 := mSpanList_InsertBack w2 .empty s
      let w4 := unlock w3
      some (s, w4)

/-- Exits of the scan of `empty`. -/
inductive EmptyScan where
  | havespan (s : Nat) (w : World)
  | retry (w : World)
  | done

/-- The scan of `empty` (lines 65-95), over the spans still to visit.
`done` is the end of the list or the `break` (nothing changed). -/
def scanEmpty (env : Env) (sg : Nat) : List Nat → World → EmptyScan
  | [], _ => .done
  | s :: rest, w =>
    if (w.spans s).sweepgen = uint32 (sg - 2) ∧
        (cas_sweepgen w s (uint32 (sg - 2)) (uint32 (sg - 1))).1 = true then
      let w1 := (cas_sweepgen w s (uint32 (sg - 2)) (uint32 (sg - 1))).2
      let w2 := mSpanList_Remove w1 s
      let w3 := mSpanList_InsertBack w2 .empty s
      let w4 := unlock w3
      let w5 := w4.withStore (env.mSpan_Sweep w4.toStore s)
      if (w5.spans s).freelist ≠ 0 then .havespan s w5
      else .retry (lock w5)
    else if (w.spans s).sweepgen = uint32 (sg - 1) then
      scanEmpty env sg rest w
    else
      .done

/-- Exits of the two scans taken together (lines 38-96). -/
inductive Scan where
  | found (s : Nat) (w : World)
  | nothing (w : World)
  | diverge

/-- The code from the label `retry` to the `unlock` of line 96, with `fuel`
passes through `retry` allowed.  `found` is the jump to `havespan`, `nothing`
the fall through: neither list yielded a span and the lock is released. -/
def scanLists (env : Env) (sg : Nat) : Nat → World → Scan
  | 0, _ => .diverge
  | fuel + 1, w =>
    match scanNonempty env sg w.nonempty w with
    | some (s, w1) => .found s w1
    | none =>
      match scanEmpty env sg w.empty w with
      | .havespan s w1 => .found s w1
      | .retry w1 => scanLists env sg fuel w1
      | .done => .nothing (unlock w)

/-- Lines 31-110 of `mCentral_CacheSpan`: everything before the label
`havespan`.  `ok (some s)` is the arrival at `havespan` with the selected span
`s` (from `nonempty`, from `empty` after a sweep, or from `mCentral_Grow`),
`ok none` the `return nil` of line 102.  `fuel` bounds the number of passes
through the label `retry`. -/
def selectSpan (env : Env) (fuel : Nat) (w : World) : Result (Option Nat) :=
  let w0 := w.withStore
    (env.deductSweepCredit w.toStore (uintptr (env.class_to_size w.sizeclass)))
  let w1 := lock w0
  let sg := w1.sweepgen
  match scanLists env sg fuel w1 with
  | .diverge => .diverge
  | .found s w2 => .ok (some s) w2
  | .nothing w2 =>
    match mCentral_Grow env w2 with
    | .diverge => .diverge
    | .fatal e w3 => .fatal e w3
    | .ok none w3 => .ok none w3
    | .ok (some s) w3 =>
      let w4 := lock w3
      let w5 := mSpanList_InsertBack w4 .empty s
      let w6 := unlock w5
      .ok (some s) w6

/-- `mCentral_CacheSpan`: allocate a span to use in an MCache.  `fuel` bounds
the number of passes through the label `retry`. -/
def mCentral_CacheSpan (env : Env) (fuel : Nat) (w : World) : Result (Option Nat) :=
  match selectSpan env fuel w with
  | .ok (some s) w1 => havespan env w1 s
  | .ok none w1 => .ok none w1
  | .fatal e w1 => .fatal e w1
  | .diverge => .diverge

/-- `mCentral_UncacheSpan`: return a span from an MCache. -/
def mCentral_UncacheSpan (env : Env) (w : World) (s : Nat) : Result Unit :=
  let w1 := lock w
  let w2 := setIncache w1 s false
  if (w2.spans s).ref = 0 then .fatal .uncachingFullSpan w2
  else if (w2.spans s).elemsize = 0 then .fatal .divideByZero w2
  else
    let n := freeCount env (w2.spans s)
    let w3 := if n > 0 then mSpanList_Insert (mSpanList_Remove w2 s) .nonempty s else w2
    .ok () (unlock w3)

/-- `mCentral_FreeSpan`: free `n` objects, chained from `start` to `end`, from
span `s` back into the central free list. -/
def mCentral_FreeSpan (env : Env) (w : World) (s : Nat) (n : Int)
    (start end_ : Nat) (preserve : Bool) : Result Bool :=
  if (w.spans s).incache then .fatal .freespanIntoCachedSpan w
  else
    let wasempty := decide ((w.spans s).freelist = 0)
    if end_ = 0 then .fatal .nilDereference w
    else
      let w1 := storeLink w end_ (w.spans s).freelist
      let w2 := setFreelist w1 s start
      let w3 := setRef w2 s (uint16 ((w2.spans s).ref - uint16 n))
      if preserve then
        if w3.linked s = false then .fatal .cantPreserveUnlinkedSpan w3
        else .ok false (atomicstore_sweepgen w3 s w3.sweepgen)
      else
        let w4 := lock w3
        let w5 := if wasempty then mSpanList_Insert (mSpanList_Remove w4 s) .nonempty s else w4
        let w6 := atomicstore_sweepgen w5 s w5.sweepgen
        if (w6.spans s).ref ≠ 0 then .ok false (unlock w6)
        else
          let w7 := mSpanList_Remove w6 s
          let w8 := w7.modify s (fun sp => { sp with needzero := 1 })
          let w9 := setFreelist w8 s 0
          let w10 := unlock w9
          let w11 := { w10 with heapBits := env.initSpan w10.heapBits (w10.spans s) }
          let w12 := (w11.record (.heapFree s)).withStore (env.mHeap_Free w11.toStore s)
          .ok true w12

/-! ## Concrete collaborators and states used by the examples -/

/-- A span with all fields zero. -/
def span0 : mspan := mspan.mk 0 0 0 0 0 0 false 0 0

/-- A world with no spans linked, global sweep generation 4. -/
def world0 : World where
  spans := fun _ => span0
  mem := fun _ => 0
  heapBits := fun _ => 0
  sweepgen := 4
  sizeclass := 0
  nonempty := []
  empty := []
  locked := false
  trace := []

/-- Collaborators for a size class of objects of `size` bytes in runs of
`npages` pages of 4096 bytes; the heap hands out span 7 at page 1 and the other
collaborators do nothing. -/
def envOf (size npages : Nat) : Env where
  PageShift := 12
  class_to_size := fun _ => size
  class_to_allocnpages := fun _ => npages
  deductSweepCredit := fun st _ => st
  mSpan_Sweep := fun st _ => st
  mHeap_Alloc := fun st np _ =>
    (some 7, { st with spans := Function.update st.spans 7 (mspan.mk 1 np size 0 0 st.sweepgen false 0 0) })
  mHeap_Free := fun st _ => st
  initSpan := fun b _ => b

/-- A world whose `nonempty` list holds span 7, already swept, with capacity 1
(one 4096-byte object in one page), `ref = 2` and a non-empty free list. -/
def worldOver : World :=
  { world0 with
    spans := Function.update world0.spans 7 (mspan.mk 1 1 4096 2 4096 4 false 0 8192)
    nonempty := [7] }

/-- Collaborators like `envOf`, except that the page heap is exhausted:
`mHeap_Alloc` fails and leaves the store as it is. -/
def envNoMem (size npages : Nat) : Env :=
  { envOf size npages with mHeap_Alloc := fun st _ _ => (none, st) }

/-- List segment: following the links stored in `mem` from the pointer `h`
visits exactly the cells of `l`, in that order, each a non-nil address whose
link word is the next cell, and the link word of the last cell is `t` (for
the empty list, `h` itself is `t`). -/
def Seg (mem : Nat → Nat) : Nat → List Nat → Nat → Prop
  | h, [], t => h = t
  | h, a :: l, t => h = a ∧ a ≠ 0 ∧ Seg mem (mem a) l t

/-- The `n` object slots of a run at base address `p`:
`p, p + size, ..., p + (n - 1) * size`. -/
def slots (p size n : Nat) : List Nat :=
  (List.range n).map (fun i => p + i * size)

/-- A world whose `empty` list holds span 7, checked out to a cache
(`incache = true`): two 2048-byte objects in one page, one of them allocated,
the other (at address 6144) on the free list. -/
def worldCached : World :=
  { world0 with
    spans := Function.update world0.spans 7 (mspan.mk 1 1 2048 1 6144 4 true 0 8192)
    empty := [7] }

/-- A world whose `nonempty` list holds span 7, already swept: two 2048-byte
objects in one page, one of them allocated, the other (at address 6144) on the
free list. -/
def worldPartial : World :=
  { world0 with
    spans := Function.update world0.spans 7 (mspan.mk 1 1 2048 1 6144 4 false 0 8192)
    nonempty := [7] }

/-- The world after lines 158-160 of `mCentral_FreeSpan`: the batch is spliced
in front of the free list of `s` and `ref` is decremented by `uint16(n)`. -/
def spliced (w : World) (s : Nat) (n : Int) (start end_ : Nat) : World :=
  setRef (setFreelist (storeLink w end_ (w.spans s).freelist) s start) s
    (uint16 (((w.spans s).ref : Int) - (uint16 n : Nat)))

/-- The world after line 178 of `mCentral_FreeSpan` (not `preserve`): the lock
is held and the span has been moved to the front of `nonempty` if its free
list was empty on entry. -/
def relinked (w : World) (s : Nat) (n : Int) (start end_ : Nat) : World :=
  if (w.spans s).freelist = 0
  then mSpanList_Insert (mSpanList_Remove (lock (spliced w s n start end_)) s) .nonempty s
  else lock (spliced w s n start end_)

/-- The world after line 184 of `mCentral_FreeSpan` (not `preserve`): relinked
as above and the stamp of `s` set to the global sweep generation. -/
def restamped (w : World) (s : Nat) (n : Int) (start end_ : Nat) : World :=
  atomicstore_sweepgen (relinked w s n start end_) s (relinked w s n start end_).sweepgen

/-- Lines 192-195 of `mCentral_FreeSpan`, from the world `w` of line 190: the
fully freed span is unlinked, marked for zeroing, its free list cleared, and the
lock released.  This is the world in which the span is handed to the heap. -/
def unlinkedForHeap (w : World) (s : Nat) : World :=
  unlock (setFreelist ((mSpanList_Remove w s).modify s (fun sp => { sp with needzero := 1 }))
    s 0)

/-- Lines 196-197 of `mCentral_FreeSpan`, from the world `w` of line 195: the
heap bitmap of the span is reset and the span is handed to `mHeap_Free`. -/
def handedToHeap (env : Env) (w : World) (s : Nat) : World :=
  (({ w with heapBits := env.initSpan w.heapBits (w.spans s) } : World).record
    (.heapFree s)).withStore
    (env.mHeap_Free
      ({ w with heapBits := env.initSpan w.heapBits (w.spans s) } : World).toStore s)

/-- A world whose `empty` list holds span 7, not cached: 16-byte objects in two
pages (capacity 512), `ref = 500`, and a free list of the twelve slots
`4096, 4112, ..., 4272`; every other link word holds the next 16-byte slot. -/
def worldSweep : World :=
  { world0 with
    spans := Function.update world0.spans 7 (mspan.mk 1 2 16 500 4096 2 false 0 12288),
    mem := (fun a => if a = 4272 then 0 else a + 16),
    empty := [7] }

/-- A world whose `empty` list holds span 7, not cached: one 4096-byte object
in one page, allocated (`ref = 1`), and an empty free list. -/
def worldLast : World :=
  { world0 with
    spans := Function.update world0.spans 7 (mspan.mk 1 1 4096 1 0 2 false 0 8192)
    empty := [7] }

/-- Whether a list segment holds can be computed. -/
instance Seg.decidable (mem : Nat → Nat) :
    (h : Nat) → (l : List Nat) → (t : Nat) → Decidable (Seg mem h l t)
  | h, [], t => inferInstanceAs (Decidable (h = t))
  | h, a :: l, t =>
    have := Seg.decidable mem (mem a) l t
    inferInstanceAs (Decidable (h = a ∧ a ≠ 0 ∧ Seg mem (mem a) l t))

/-- Lines 45-47 and 59-61 (also 70-73) of `mCentral_CacheSpan`: the selected
span is unlinked, appended to the back of `empty`, and the lock is released. -/
def handOut (w : World) (s : Nat) : World :=
  unlock (mSpanList_InsertBack (mSpanList_Remove w s) .empty s)

/-- Lines 43-49 (also 67-74) of `mCentral_CacheSpan` for a span stamped
generation-2: the stamp is claimed (set to generation-1), the span is handed
out as above and then swept by `mSpan_Sweep`. -/
def sweptOut (env : Env) (sg : Nat) (w : World) (s : Nat) : World :=
  (handOut (atomicstore_sweepgen w s (uint32 (sg - 1))) s).withStore
    (env.mSpan_Sweep (handOut (atomicstore_sweepgen w s (uint32 (sg - 1))) s).toStore s)

/-- Lines 34-37 of `mCentral_CacheSpan`: the world on first arrival at the
label `retry`, after `deductSweepCredit` and with the lock held. -/
def entered (env : Env) (w : World) : World :=
  lock (w.withStore
    (env.deductSweepCredit w.toStore (uintptr (env.class_to_size w.sizeclass))))

/-- A world whose `nonempty` list holds span 5, being swept by another thread
(stamp generation-1), followed by span 7, already swept, with one of its two
2048-byte objects free. -/
def worldBusy : World :=
  { world0 with
    spans := Function.update (Function.update world0.spans 7
      (mspan.mk 1 1 2048 1 6144 4 false 0 8192)) 5 (mspan.mk 3 1 2048 1 14336 3 false 0 16384),
    nonempty := [5, 7] }

/-- The number of spans of the list `l` stamped generation-2 (not yet swept in
this cycle) in the world `w`. -/
def needSweep (sg : Nat) (w : World) (l : List Nat) : Nat :=
  l.countP (fun x => decide ((w.spans x).sweepgen = uint32 (sg - 2)))

/-- Assumption on the sweep routine within the sweep generation `sg`: it leaves
the global generation as it is, adds no span to either list, and resets no
stamp to generation-2. -/
def SweepSettles (env : Env) (sg : Nat) : Prop :=
  ∀ (st : Store) (s : Nat), st.sweepgen = sg →
    (env.mSpan_Sweep st s).sweepgen = sg ∧
    (env.mSpan_Sweep st s).nonempty.Sublist st.nonempty ∧
    (env.mSpan_Sweep st s).empty.Sublist st.empty ∧
    ∀ x, ((env.mSpan_Sweep st s).spans x).sweepgen = uint32 (sg - 2) →
      (st.spans x).sweepgen = uint32 (sg - 2)

/-- Collaborators like `envOf`, with a sweep routine that reclaims nothing and
stamps the span as swept. -/
def envSweeping (size npages : Nat) : Env :=
  { envOf size npages with
    mSpan_Sweep := fun st s =>
      { st with spans := Function.update st.spans s
                  { st.spans s with sweepgen := st.sweepgen } } }

/-- A world whose `empty` list holds span 7, not yet swept in this cycle
(stamp generation-2), fully allocated. -/
def worldStale : World :=
  { world0 with
    spans := Function.update world0.spans 7 (mspan.mk 1 1 4096 1 0 2 false 0 8192),
    empty := [7] }

/-- Where a caller of `mCentral_CacheSpan` stands, for one span `s`, in lines
43-62 (or 67-94): `scanning` before line 43, `tested` after reading
`s.sweepgen == sg-2` and before the `cas`, `sweeping` after winning the `cas`
(running `mSpan_Sweep`), `skipped` after the `continue` of line 55, `took`
after taking the span as already swept, `finished` once its sweep has stored
the global generation in the stamp. -/
inductive Claimer where
  | scanning
  | tested
  | sweeping
  | skipped
  | took
  | finished
deriving DecidableEq

/-- Concurrent callers racing for one span: the shared world and the position
of each caller. -/
structure Race where
  w : World
  pc : Nat → Claimer

/-- Line 53 and what follows it, for a caller that did not claim the span. -/
def Race.moveOn (sg s : Nat) (r : Race) (i : Nat) : Race :=
  if (r.w.spans s).sweepgen = uint32 (sg - 1)
  then { r with pc := Function.update r.pc i .skipped }
  else { r with pc := Function.update r.pc i .took }

/-- One atomic step of caller `i`: the read of line 43, the `cas` of line 43,
or the completion of its sweep (`atomicstore(&s.sweepgen, mheap_.sweepgen)`). -/
def Race.step (sg s : Nat) (r : Race) (i : Nat) : Race :=
  match r.pc i with
  | .scanning =>
    if (r.w.spans s).sweepgen = uint32 (sg - 2)
    then { r with pc := Function.update r.pc i .tested }
    else r.moveOn sg s i
  | .tested =>
    if (cas_sweepgen r.w s (uint32 (sg - 2)) (uint32 (sg - 1))).1 = true
    then { w := (cas_sweepgen r.w s (uint32 (sg - 2)) (uint32 (sg - 1))).2,
           pc := Function.update r.pc i .sweeping }
    else r.moveOn sg s i
  | .sweeping =>
    { w := atomicstore_sweepgen r.w s r.w.sweepgen,
      pc := Function.update r.pc i .finished }
  | .skipped => r
  | .took => r
  | .finished => r

/-- An interleaving: the callers take their atomic steps in the order of the
schedule. -/
def Race.run (sg s : Nat) (r : Race) (schedule : List Nat) : Race :=
  schedule.foldl (Race.step sg s) r

/-- Whether a caller has won the claim (it is sweeping or has swept). -/
def Claimer.won : Claimer → Prop
  | .sweeping => True
  | .finished => True
  | _ => False

/-- The invariant of the race for the generation `sg`. -/
def Race.Inv (sg s : Nat) (r : Race) : Prop :=
  r.w.sweepgen = sg ∧
  (∀ i j, (r.pc i).won → (r.pc j).won → i = j) ∧
  (∀ i, r.pc i = .sweeping → (r.w.spans s).sweepgen = uint32 (sg - 1)) ∧
  (∀ i, (r.pc i).won → (r.w.spans s).sweepgen ≠ uint32 (sg - 2))

/-- The start of a race: every caller is about to evaluate line 43. -/
def Race.start (w : World) : Race :=
  { w := w, pc := fun _ => .scanning }

/-- Assumption on the collaborators: the pacer, the sweep routine and the page
heap leave both lists of the central free list as they are, and the span the
heap supplies is linked in neither list. -/
def ListsKept (env : Env) : Prop :=
  (∀ st k, (env.deductSweepCredit st k).nonempty = st.nonempty ∧
    (env.deductSweepCredit st k).empty = st.empty) ∧
  (∀ st s, (env.mSpan_Sweep st s).nonempty = st.nonempty ∧
    (env.mSpan_Sweep st s).empty = st.empty) ∧
  (∀ st np sc, (env.mHeap_Alloc st np sc).2.nonempty = st.nonempty ∧
    (env.mHeap_Alloc st np sc).2.empty = st.empty ∧
    ∀ s, (env.mHeap_Alloc st np sc).1 = some s → s ∉ st.nonempty ∧ s ∉ st.empty) ∧
  (∀ st s, (env.mHeap_Free st s).nonempty = st.nonempty ∧
    (env.mHeap_Free st s).empty = st.empty)

/-- Every span is linked at most once, in at most one of the two lists. -/
def LinkedOnce (w : World) : Prop :=
  (w.nonempty ++ w.empty).Nodup

/-- The states reachable from `mCentral_Init` through completed calls of the
four operations. -/
inductive Reachable (env : Env) : World → Prop where
  | init (w : World) (sizeclass : Nat) : Reachable env (mCentral_Init w sizeclass)
  | cacheSpan {w : World} (fuel : Nat) (r : Option Nat) (w1 : World) :
      Reachable env w → mCentral_CacheSpan env fuel w = .ok r w1 → Reachable env w1
  | uncacheSpan {w : World} (s : Nat) (w1 : World) :
      Reachable env w → mCentral_UncacheSpan env w s = .ok () w1 → Reachable env w1
  | freeSpan {w : World} (s : Nat) (n : Int) (start end_ : Nat) (preserve r : Bool)
      (w1 : World) :
      Reachable env w → mCentral_FreeSpan env w s n start end_ preserve = .ok r w1 →
      Reachable env w1
  | grow {w : World} (r : Option Nat) (w1 : World) :
      Reachable env w → mCentral_Grow env w = .ok r w1 → Reachable env w1

/-- Collaborators like `envOf`, with a page heap that supplies span 7 while it
is linked in neither list and is exhausted otherwise. -/
def envOnce (size npages : Nat) : Env :=
  { envOf size npages with
    mHeap_Alloc := fun st np _ =>
      if 7 ∈ st.nonempty ∨ 7 ∈ st.empty then (none, st)
      else (envOf size npages).mHeap_Alloc st np 0 }

/-- The free-list invariant of a span: its free list is empty exactly when its
`ref` equals its capacity. -/
def FreeInv (env : Env) (sp : mspan) : Prop :=
  sp.freelist = 0 ↔ (sp.ref : Int) = capacity env sp

/-- Assumption on the collaborators: the pacer and the sweep routine leave the
free-list invariant true of every span it held of; the page heap, asked for a
run of the size class, does so for the spans it does not return, and the span
it returns has `ref = 0` and a non-zero capacity. -/
def KeepsFreeInv (env : Env) : Prop :=
  (∀ st k x, FreeInv env (st.spans x) →
    FreeInv env ((env.deductSweepCredit st k).spans x)) ∧
  (∀ st s x, FreeInv env (st.spans x) → FreeInv env ((env.mSpan_Sweep st s).spans x)) ∧
  (∀ st x,
    (env.mHeap_Alloc st (uintptr (env.class_to_allocnpages st.sizeclass)) st.sizeclass).1
      ≠ some x →
    FreeInv env (st.spans x) →
    FreeInv env ((env.mHeap_Alloc st (uintptr (env.class_to_allocnpages st.sizeclass))
      st.sizeclass).2.spans x)) ∧
  (∀ st s,
    (env.mHeap_Alloc st (uintptr (env.class_to_allocnpages st.sizeclass)) st.sizeclass).1
      = some s →
    ((env.mHeap_Alloc st (uintptr (env.class_to_allocnpages st.sizeclass))
      st.sizeclass).2.spans s).ref = 0 ∧
    capacity env ((env.mHeap_Alloc st (uintptr (env.class_to_allocnpages st.sizeclass))
      st.sizeclass).2.spans s) ≠ 0)

/-- Whether the free-list invariant holds of a span can be computed. -/
instance FreeInv.decidable (env : Env) (sp : mspan) : Decidable (FreeInv env sp) :=
  inferInstanceAs (Decidable (sp.freelist = 0 ↔ (sp.ref : Int) = capacity env sp))

/-- The list classification: every span linked in `nonempty` has a non-empty
free list, and every span linked in `empty` is cached or has an empty free
list. -/
def ListInv (w : World) : Prop :=
  (∀ x ∈ w.nonempty, (w.spans x).freelist ≠ 0) ∧
  (∀ x ∈ w.empty, (w.spans x).incache = true ∨ (w.spans x).freelist = 0)

/-- Whether the list classification holds can be computed. -/
instance ListInv.decidable (w : World) : Decidable (ListInv w) :=
  inferInstanceAs (Decidable ((∀ x ∈ w.nonempty, (w.spans x).freelist ≠ 0) ∧
    (∀ x ∈ w.empty, (w.spans x).incache = true ∨ (w.spans x).freelist = 0)))

/-- The list classification on arrival at the label `havespan` with the span
`s`: it holds of every linked span other than `s`, which is about to be marked
as cached. -/
def ListInvBut (w : World) (s : Nat) : Prop :=
  (∀ x ∈ w.nonempty, (w.spans x).freelist ≠ 0) ∧
  (∀ x ∈ w.empty, x ≠ s → ((w.spans x).incache = true ∨ (w.spans x).freelist = 0))

/-- Two span records agree on what the list classification looks at. -/
def SameClass (a b : mspan) : Prop :=
  a.freelist = b.freelist ∧ a.incache = b.incache

/-- Assumption on the collaborators: they leave the two lists alone and the
heap supplies unlinked spans (`ListsKept`); the pacer changes no free list and
no `incache` flag; the sweep routine changes no `incache` flag and the free
list of the swept span only; the page heap changes neither field of any span
other than the one it hands out or takes back. -/
def Tidy (env : Env) : Prop :=
  ListsKept env ∧
  (∀ st k x, SameClass ((env.deductSweepCredit st k).spans x) (st.spans x)) ∧
  (∀ st s x, ((env.mSpan_Sweep st s).spans x).incache = (st.spans x).incache ∧
    (x ≠ s → ((env.mSpan_Sweep st s).spans x).freelist = (st.spans x).freelist)) ∧
  (∀ st np sc x, (env.mHeap_Alloc st np sc).1 ≠ some x →
    SameClass ((env.mHeap_Alloc st np sc).2.spans x) (st.spans x)) ∧
  (∀ st s x, x ≠ s → SameClass ((env.mHeap_Free st s).spans x) (st.spans x))

/-- The order of `empty` that the early exit of the scan relies on: no span
stamped generation-2 comes after a span stamped with the current generation. -/
def SweptFirst (w : World) : Prop :=
  w.empty.Pairwise (fun a b => (w.spans a).sweepgen = w.sweepgen →
    (w.spans b).sweepgen ≠ uint32 (w.sweepgen - 2))

/-- Whether `empty` is in that order can be computed. -/
instance SweptFirst.decidable (w : World) : Decidable (SweptFirst w) :=
  inferInstanceAs (Decidable (w.empty.Pairwise (fun a b =>
    (w.spans a).sweepgen = w.sweepgen → (w.spans b).sweepgen ≠ uint32 (w.sweepgen - 2))))

/-- No span stamped generation-2 comes after the span `s` in `empty`: so when
`s` is the last span of `empty`, where the scans of `mCentral_CacheSpan` put
the span they sweep, and when `s` is not in `empty`. -/
def NoStaleAfter (w : World) (s : Nat) : Prop :=
  w.empty.Pairwise (fun a b => a = s → (w.spans b).sweepgen ≠ uint32 (w.sweepgen - 2))

/-- Whether a generation-2 span follows `s` in `empty` can be computed. -/
instance NoStaleAfter.decidable (w : World) (s : Nat) : Decidable (NoStaleAfter w s) :=
  inferInstanceAs (Decidable (w.empty.Pairwise (fun a b =>
    a = s → (w.spans b).sweepgen ≠ uint32 (w.sweepgen - 2))))

/-- Assumption on the collaborators within one sweep generation: they leave
the two lists alone and the heap supplies unlinked spans (`ListsKept`); none of
them changes the global generation; the pacer changes no stamp; the sweep
routine changes the stamp of the swept span only, and not to generation-2; the
page heap changes the stamp of the span it hands out or takes back only, and
the span it hands out is not stamped generation-2. -/
def StampsKept (env : Env) : Prop :=
  ListsKept env ∧
  (∀ st k, (env.deductSweepCredit st k).sweepgen = st.sweepgen ∧
    ∀ x, ((env.deductSweepCredit st k).spans x).sweepgen = (st.spans x).sweepgen) ∧
  (∀ st s, (env.mSpan_Sweep st s).sweepgen = st.sweepgen ∧
    (∀ x, x ≠ s → ((env.mSpan_Sweep st s).spans x).sweepgen = (st.spans x).sweepgen) ∧
    (((env.mSpan_Sweep st s).spans s).sweepgen = uint32 (st.sweepgen - 2) →
      (st.spans s).sweepgen = uint32 (st.sweepgen - 2))) ∧
  (∀ st np sc, (env.mHeap_Alloc st np sc).2.sweepgen = st.sweepgen ∧
    (∀ x, (env.mHeap_Alloc st np sc).1 ≠ some x →
      ((env.mHeap_Alloc st np sc).2.spans x).sweepgen = (st.spans x).sweepgen) ∧
    (∀ s, (env.mHeap_Alloc st np sc).1 = some s →
      ((env.mHeap_Alloc st np sc).2.spans s).sweepgen ≠ uint32 (st.sweepgen - 2))) ∧
  (∀ st s, (env.mHeap_Free st s).sweepgen = st.sweepgen ∧
    ∀ x, x ≠ s → ((env.mHeap_Free st s).spans x).sweepgen = (st.spans x).sweepgen)

/-- The states reached from `w0` within one sweep generation through completed
calls of the four operations, with `mCentral_FreeSpan` called as the sweeper
calls it: with `preserve = false` on a span that, if linked in `empty`, has an
empty free list, and with `preserve = true` on a span that no generation-2
span follows in `empty`. -/
inductive Within (env : Env) (w0 : World) : World → Prop where
  | start : Within env w0 w0
  | cacheSpan {w : World} (fuel : Nat) (r : Option Nat) (w1 : World) :
      Within env w0 w → mCentral_CacheSpan env fuel w = .ok r w1 → Within env w0 w1
  | uncacheSpan {w : World} (s : Nat) (w1 : World) :
      Within env w0 w → mCentral_UncacheSpan env w s = .ok () w1 → Within env w0 w1
  | grow {w : World} (r : Option Nat) (w1 : World) :
      Within env w0 w → mCentral_Grow env w = .ok r w1 → Within env w0 w1
  | freeSpan {w : World} (s : Nat) (n : Int) (start end_ : Nat) (r : Bool) (w1 : World) :
      Within env w0 w → mCentral_FreeSpan env w s n start end_ false = .ok r w1 →
      (s ∈ w.empty → (w.spans s).freelist = 0) → Within env w0 w1
  | freeSpanPreserve {w : World} (s : Nat) (n : Int) (start end_ : Nat) (r : Bool)
      (w1 : World) :
      Within env w0 w → mCentral_FreeSpan env w s n start end_ true = .ok r w1 →
      NoStaleAfter w s → Within env w0 w1

/-- Collaborators like `envOnce` (a page heap that supplies span 7 while it is
unlinked), with the sweep routine of `envSweeping`, which reclaims nothing and
stamps the span as swept. -/
def envOnceSweeping (size npages : Nat) : Env :=
  { envOnce size npages with
    mSpan_Sweep := (envSweeping size npages).mSpan_Sweep }

/-- A world at the start of a sweep generation: `empty` holds the spans 5 and
7, each one 4096-byte object in one page, allocated (`ref = 1`, empty free
list), not cached, and both stamped generation-2. -/
def worldTwoStale : World :=
  { world0 with
    spans := Function.update (Function.update world0.spans 7
      (mspan.mk 2 1 4096 1 0 2 false 0 12288)) 5 (mspan.mk 1 1 4096 1 0 2 false 0 8192),
    empty := [5, 7] }

/-! # Theorems -/

/-! ## Acquisition: the label `havespan` -/

theorem havespan_ok {env : Env} {w : World} {s : Nat} {r : Option Nat} {w1 : World}
    (h : havespan env w s = .ok r w1) :
    r = some s ∧ w1 = setIncache w s true ∧ (w.spans s).elemsize ≠ 0 ∧
      freeCount env (w.spans s) ≠ 0 ∧ (w.spans s).freelist ≠ 0 := by
  unfold havespan at h
  by_cases h1 : (w.spans s).elemsize = 0
  · simp [h1] at h
  by_cases h2 : freeCount env (w.spans s) = 0
  · simp [h1, h2] at h
  by_cases h3 : (w.spans s).freelist = 0
  · simp [h1, h2, h3] at h
  simp only [h1, h2, h3, if_false, Result.ok.injEq] at h
  exact ⟨h.1.symm, h.2.symm, h1, h2, h3⟩

theorem cacheSpan_ok {env : Env} {fuel : Nat} {w : World} {s : Nat} {w1 : World}
    (h : mCentral_CacheSpan env fuel w = .ok (some s) w1) :
    ∃ w0, selectSpan env fuel w = .ok (some s) w0 ∧ havespan env w0 s = .ok (some s) w1 := by
  unfold mCentral_CacheSpan at h
  split at h
  · rename_i s0 w0 hsel
    obtain ⟨hr, -⟩ := havespan_ok h
    cases hr
    exact ⟨w0, hsel, h⟩
  · cases h
  · cases h
  · cases h

@[simp] theorem setIncache_spans_same (w : World) (s : Nat) (b : Bool) :
    (setIncache w s b).spans s = { w.spans s with incache := b } := by
  simp [setIncache, World.modify]

/-- C1: whenever `mCentral_CacheSpan` returns a span, whatever the lists held
and whatever the sweep, pacer and heap calls did, the span has `incache = true`
and a non-empty free list. -/
theorem C1_cacheSpan_returns_cached_nonempty (env : Env) (fuel : Nat) (w : World)
    (s : Nat) (w1 : World) (h : mCentral_CacheSpan env fuel w = .ok (some s) w1) :
    (w1.spans s).incache = true ∧ (w1.spans s).freelist ≠ 0 := by
  obtain ⟨w0, -, hh⟩ := cacheSpan_ok h
  obtain ⟨-, hw, -, -, hf⟩ := havespan_ok hh
  subst hw
  simp [hf]

theorem C1_witness :
    ∃ w1, mCentral_CacheSpan (envOf 2048 1) 1 (mCentral_Init world0 3) = .ok (some 7) w1 ∧
      (w1.spans 7).incache = true ∧ (w1.spans 7).freelist ≠ 0 :=
  ⟨_, rfl, C1_cacheSpan_returns_cached_nonempty (envOf 2048 1) 1 (mCentral_Init world0 3) 7 _ rfl⟩

/-! ## Free-object count and the guard at `havespan` -/

theorem int32_bounds (x : Int) : -2 ^ 31 ≤ int32 x ∧ int32 x < 2 ^ 31 := by
  unfold int32; omega

theorem int32_of_range {x : Int} (h1 : -2 ^ 31 ≤ x) (h2 : x < 2 ^ 31) : int32 x = x := by
  unfold int32; omega

theorem freeCount_pos {env : Env} {sp : mspan} (h0 : freeCount env sp ≠ 0)
    (hle : (sp.ref : Int) ≤ capacity env sp) : 0 < freeCount env sp := by
  have hb := int32_bounds ((uintptr (sp.npages * 2 ^ env.PageShift) / sp.elemsize : Nat) : Int)
  unfold freeCount at h0 ⊢
  unfold capacity at hle h0 ⊢
  generalize int32 ((uintptr (sp.npages * 2 ^ env.PageShift) / sp.elemsize : Nat) : Int) = c at *
  have hr : int32 (sp.ref : Int) = sp.ref := int32_of_range (by omega) (by omega)
  rw [hr] at h0 ⊢
  rw [int32_of_range (by omega) (by omega)] at h0 ⊢
  omega

@[simp] theorem freeCount_incache (env : Env) (sp : mspan) (b : Bool) :
    freeCount env { sp with incache := b } = freeCount env sp := rfl

theorem havespan_fatal_iff (env : Env) (w : World) (s : Nat) :
    (∃ e, havespan env w s = .fatal e w) ↔
      ((w.spans s).elemsize = 0 ∨ freeCount env (w.spans s) = 0 ∨ (w.spans s).freelist = 0) := by
  unfold havespan
  by_cases h1 : (w.spans s).elemsize = 0
  · simp [h1]
  by_cases h2 : freeCount env (w.spans s) = 0
  · simp [h1, h2]
  by_cases h3 : (w.spans s).freelist = 0
  · simp [h1, h2, h3]
  simp [h1, h2, h3]

theorem havespan_returns {env : Env} {w : World} {s : Nat}
    (h1 : (w.spans s).elemsize ≠ 0) (h2 : freeCount env (w.spans s) ≠ 0)
    (h3 : (w.spans s).freelist ≠ 0) :
    havespan env w s = .ok (some s) (setIncache w s true) := by
  simp [havespan, h1, h2, h3]

theorem cacheSpan_of_select {env : Env} {fuel : Nat} {w : World} {s : Nat} {w0 : World}
    (h : selectSpan env fuel w = .ok (some s) w0) :
    mCentral_CacheSpan env fuel w = havespan env w0 s := by
  simp [mCentral_CacheSpan, h]

/-- C2 (as amended): for the span `s` that `mCentral_CacheSpan` selects, the
call aborts with a fatal error exactly when the free-object count
`capacity - ref` is zero (or cannot be computed because `elemsize` is zero) or
the free list is empty; otherwise it returns `s`.  On every normal return the
count is not zero and the free list is not empty, and the count is strictly
positive whenever `ref` does not exceed the capacity. -/
theorem C2_cacheSpan_guard (env : Env) (fuel : Nat) (w : World) (s : Nat) (w0 : World)
    (hsel : selectSpan env fuel w = .ok (some s) w0) :
    ((∃ e, mCentral_CacheSpan env fuel w = .fatal e w0) ↔
        ((w0.spans s).elemsize = 0 ∨ freeCount env (w0.spans s) = 0 ∨
          (w0.spans s).freelist = 0)) ∧
    (¬ ((w0.spans s).elemsize = 0 ∨ freeCount env (w0.spans s) = 0 ∨
          (w0.spans s).freelist = 0) →
        mCentral_CacheSpan env fuel w = .ok (some s) (setIncache w0 s true)) ∧
    (∀ r w1, mCentral_CacheSpan env fuel w = .ok r w1 →
        r = some s ∧ freeCount env (w1.spans s) ≠ 0 ∧ (w1.spans s).freelist ≠ 0 ∧
        (((w1.spans s).ref : Int) ≤ capacity env (w1.spans s) →
          0 < freeCount env (w1.spans s))) := by
  rw [cacheSpan_of_select hsel]
  refine ⟨havespan_fatal_iff env w0 s, ?_, ?_⟩
  · intro hn
    simp only [not_or] at hn
    exact havespan_returns hn.1 hn.2.1 hn.2.2
  · intro r w1 h
    obtain ⟨hr, hw, -, h2, h3⟩ := havespan_ok h
    subst hw
    have hfc : freeCount env ((setIncache w0 s true).spans s) = freeCount env (w0.spans s) := by
      simp
    refine ⟨hr, by rw [hfc]; exact h2, by simpa using h3, ?_⟩
    intro hle
    apply freeCount_pos (by rw [hfc]; exact h2) hle

theorem C2_witness :
    ∃ w0, selectSpan (envOf 2048 1) 1 (mCentral_Init world0 3) = .ok (some 7) w0 ∧
      mCentral_CacheSpan (envOf 2048 1) 1 (mCentral_Init world0 3)
        = .ok (some 7) (setIncache w0 7 true) :=
  ⟨_, rfl, (C2_cacheSpan_guard (envOf 2048 1) 1 (mCentral_Init world0 3) 7 _ rfl).2.1
    (by decide)⟩

/-- C2 (as stated) fails: span 7 has capacity 1 and `ref = 2`, so its free-object
count is -1, not strictly positive, yet `mCentral_CacheSpan` selects it and
returns it normally. -/
theorem C2_counterexample :
    ∃ w0 w1, selectSpan (envOf 4096 1) 1 worldOver = .ok (some 7) w0 ∧
      ¬ (0 < freeCount (envOf 4096 1) (w0.spans 7)) ∧
      mCentral_CacheSpan (envOf 4096 1) 1 worldOver = .ok (some 7) w1 ∧
      ¬ (0 < freeCount (envOf 4096 1) (w1.spans 7)) :=
  ⟨_, _, rfl, by decide, rfl, by decide⟩

/-! ## Failure of `mCentral_CacheSpan` -/

theorem grow_nil_iff (env : Env) (w w1 : World) :
    mCentral_Grow env w = .ok none w1 ↔
      uintptr (env.class_to_size w.sizeclass) ≠ 0 ∧
      (env.mHeap_Alloc w.toStore (uintptr (env.class_to_allocnpages w.sizeclass))
        w.sizeclass).1 = none ∧
      w1 = w.withStore (env.mHeap_Alloc w.toStore
        (uintptr (env.class_to_allocnpages w.sizeclass)) w.sizeclass).2 := by
  unfold mCentral_Grow
  by_cases hsz : uintptr (env.class_to_size w.sizeclass) = 0
  · simp [hsz]
  simp only [hsz, if_false, ne_eq, not_false_eq_true, true_and]
  rcases halloc : env.mHeap_Alloc w.toStore (uintptr (env.class_to_allocnpages w.sizeclass))
    w.sizeclass with ⟨_ | s, st⟩
  · simp only [Result.ok.injEq, true_and]
    exact eq_comm
  · simp only
    constructor
    · intro h
      split at h
      · cases h
      · split_ifs at h
        cases h
    · intro h
      simp at h

/-- C3: `mCentral_CacheSpan` returns nil exactly when the scans of `nonempty`
and `empty` end without a span (in the world `w2`, lock released) and the
page-heap allocation made by `mCentral_Grow` fails; the world returned is then
`w2` changed only by what the allocator itself did to the store: nothing was
carved and no span was inserted into either list. -/
theorem C3_cacheSpan_nil_iff (env : Env) (fuel : Nat) (w w1 : World) :
    mCentral_CacheSpan env fuel w = .ok none w1 ↔
      ∃ w2,
        scanLists env (env.deductSweepCredit w.toStore
            (uintptr (env.class_to_size w.sizeclass))).sweepgen fuel
          (lock (w.withStore (env.deductSweepCredit w.toStore
            (uintptr (env.class_to_size w.sizeclass))))) = .nothing w2 ∧
        uintptr (env.class_to_size w2.sizeclass) ≠ 0 ∧
        (env.mHeap_Alloc w2.toStore (uintptr (env.class_to_allocnpages w2.sizeclass))
          w2.sizeclass).1 = none ∧
        w1 = w2.withStore (env.mHeap_Alloc w2.toStore
          (uintptr (env.class_to_allocnpages w2.sizeclass)) w2.sizeclass).2 := by
  have hsel : selectSpan env fuel w = .ok none w1 ↔
      ∃ w2,
        scanLists env (env.deductSweepCredit w.toStore
            (uintptr (env.class_to_size w.sizeclass))).sweepgen fuel
          (lock (w.withStore (env.deductSweepCredit w.toStore
            (uintptr (env.class_to_size w.sizeclass))))) = .nothing w2 ∧
        mCentral_Grow env w2 = .ok none w1 := by
    unfold selectSpan
    simp only [lock, World.withStore]
    split
    · simp [*]
    · simp [*]
    · rename_i w2 hscan
      simp only [hscan, Scan.nothing.injEq, exists_eq_left']
      split <;> simp [*]
  have hcs : mCentral_CacheSpan env fuel w = .ok none w1 ↔
      selectSpan env fuel w = .ok none w1 := by
    unfold mCentral_CacheSpan
    split
    · rename_i s w0 hs
      rw [hs]
      constructor
      · intro h
        have := (havespan_ok h).1
        cases this
      · intro h
        cases h
    · rename_i w0 hs
      rw [hs]
    · rename_i e w0 hs
      rw [hs]
    · rename_i hs
      rw [hs]
  rw [hcs, hsel]
  constructor
  · rintro ⟨w2, h1, h2⟩
    exact ⟨w2, h1, (grow_nil_iff env w2 w1).1 h2⟩
  · rintro ⟨w2, h1, h2⟩
    exact ⟨w2, h1, (grow_nil_iff env w2 w1).2 h2⟩

theorem C3_witness :
    mCentral_CacheSpan (envNoMem 16 2) 1 (mCentral_Init world0 3)
      = .ok none (unlock (lock (mCentral_Init world0 3))) :=
  (C3_cacheSpan_nil_iff (envNoMem 16 2) 1 (mCentral_Init world0 3) _).2
    ⟨_, rfl, by decide, rfl, rfl⟩

/-! ## Growth: carving a fresh span -/

theorem carve_spec (size : Nat) (hsize : 0 < size) :
    ∀ (k p : Nat) (w : World), p ≠ 0 → p + k * size < 2 ^ 64 →
      ∃ m : Nat → Nat,
        carve size k p p w = some (p + k * size, { w with mem := m }) ∧
        (∀ i, i < k → m (p + i * size) = p + (i + 1) * size) ∧
        (∀ a, (∀ i, i < k → a ≠ p + i * size) → m a = w.mem a) := by
  intro k
  induction k with
  | zero =>
    intro p w _ _
    exact ⟨w.mem, by simp [carve], by simp, by simp⟩
  | succ k ih =>
    intro p w hp hfit
    have hp1 : uintptr (p + size) = p + size := by
      unfold uintptr
      apply Nat.mod_eq_of_lt
      nlinarith
    obtain ⟨m, hc, hlink, hframe⟩ :=
      ih (p + size) (storeLink w p (p + size)) (by omega) (by nlinarith)
    refine ⟨m, ?_, ?_, ?_⟩
    · simp only [carve, hp1, hp, if_false]
      rw [hc]
      simp only [storeLink, Option.some.injEq, Prod.mk.injEq, and_true]
      ring
    · intro i hi
      rcases Nat.eq_zero_or_pos i with h0 | hpos
      · subst h0
        have : m p = (storeLink w p (p + size)).mem p := by
          apply hframe
          intro j _
          nlinarith
        simp [this, storeLink]
      · obtain ⟨j, rfl⟩ : ∃ j, i = j + 1 := ⟨i - 1, by omega⟩
        have := hlink j (by omega)
        have e1 : p + (j + 1) * size = p + size + j * size := by ring
        have e2 : p + (j + 1 + 1) * size = p + size + (j + 1) * size := by ring
        rw [e1, e2]
        exact this
    · intro a ha
      have h1 : m a = (storeLink w p (p + size)).mem a := by
        apply hframe
        intro j hj
        have := ha (j + 1) (by omega)
        intro heq
        apply this
        rw [heq]
        ring
      have h2 : a ≠ p := by
        have := ha 0 (by omega)
        simpa using this
      rw [h1]
      simp [storeLink, Function.update_noteq h2]

theorem seg_of_links (mem : Nat → Nat) (size : Nat) :
    ∀ (k p : Nat), p ≠ 0 →
      (∀ i, i < k → mem (p + i * size) = p + (i + 1) * size) →
      mem (p + k * size) = 0 →
      Seg mem p (slots p size (k + 1)) 0 := by
  intro k
  induction k with
  | zero =>
    intro p hp _ hlast
    simp only [Nat.zero_mul, Nat.add_zero] at hlast
    simp [slots, Seg, hp, hlast]
  | succ k ih =>
    intro p hp hlink hlast
    have h0 := hlink 0 (by omega)
    simp only [Nat.zero_mul, Nat.add_zero, Nat.zero_add, Nat.one_mul] at h0
    have ih1 := ih (p + size) (by omega)
      (by
        intro i hi
        have := hlink (i + 1) (by omega)
        have e1 : p + (i + 1) * size = p + size + i * size := by ring
        have e2 : p + (i + 1 + 1) * size = p + size + (i + 1) * size := by ring
        rw [← e1, ← e2]
        exact this)
      (by
        have e1 : p + (k + 1) * size = p + size + k * size := by ring
        rw [← e1]
        exact hlast)
    have hs : slots p size (k + 1 + 1) = p :: slots (p + size) size (k + 1) := by
      unfold slots
      rw [List.range_succ_eq_map (k + 1)]
      simp only [List.map_cons, List.map_map, Nat.zero_mul, Nat.add_zero, List.cons.injEq,
        true_and]
      apply List.map_congr_left
      intro i _
      simp only [Function.comp, Nat.succ_eq_add_one]
      ring
    rw [hs]
    simp only [Seg, true_and]
    exact ⟨hp, by rw [h0]; exact ih1⟩

theorem grow_spec (env : Env) (w : World) (s : Nat) (st : Store)
    (size npages n p : Nat)
    (hsize : size = uintptr (env.class_to_size w.sizeclass))
    (hnpages : npages = uintptr (env.class_to_allocnpages w.sizeclass))
    (hn : n = uintptr (npages * 2 ^ env.PageShift) / size)
    (hn1 : 1 ≤ n)
    (halloc : env.mHeap_Alloc w.toStore npages w.sizeclass = (some s, st))
    (hfresh : (st.spans s).freelist = 0)
    (hp : p = (st.spans s).start * 2 ^ env.PageShift)
    (hp0 : 0 < p) (hfit : p + n * size < 2 ^ 64) :
    ∃ w1, mCentral_Grow env w = .ok (some s) w1 ∧
      w1.spans s = { st.spans s with limit := p + n * size, freelist := p } ∧
      Seg w1.mem p (slots p size n) 0 ∧
      w1.nonempty = st.nonempty ∧ w1.empty = st.empty ∧ w1.locked = w.locked := by
  have hsz : 0 < size := by
    rcases Nat.eq_zero_or_pos size with h0 | h0
    · rw [h0, Nat.div_zero] at hn
      omega
    · exact h0
  obtain ⟨k, rfl⟩ : ∃ k, n = k + 1 := ⟨n - 1, by omega⟩
  have hpu : uintptr ((st.spans s).start * 2 ^ env.PageShift) = p := by
    rw [← hp]
    unfold uintptr
    apply Nat.mod_eq_of_lt
    nlinarith
  have hlim : uintptr (p + uintptr (size * (k + 1))) = p + (k + 1) * size := by
    have e : size * (k + 1) = (k + 1) * size := by ring
    unfold uintptr
    rw [e, Nat.mod_eq_of_lt (a := (k + 1) * size) (by omega), Nat.mod_eq_of_lt hfit]
  obtain ⟨m, hc, hlink, hframe⟩ := carve_spec size hsz k p
    ((w.withStore st).modify s (fun sp => { sp with limit := p + (k + 1) * size }))
    (by omega) (by nlinarith)
  have htail : p + k * size ≠ 0 := by omega
  have hst : (w.withStore st).spans s = st.spans s := rfl
  unfold mCentral_Grow
  simp only [← hsize, ← hnpages, ← hn, halloc, hst, hpu, hlim, Nat.add_sub_cancel, hc]
  rw [if_neg (by omega), if_neg (by simp [World.modify, World.withStore, hfresh]),
    if_neg htail]
  refine ⟨_, rfl, ?_, ?_, rfl, rfl, rfl⟩
  · simp [setFreelist, World.modify, World.record, storeLink, World.withStore]
  · simp only [setFreelist, World.modify, World.record, storeLink]
    apply seg_of_links _ size k p (by omega)
    · intro i hi
      have hne : p + i * size ≠ p + k * size := by
        intro h
        have : i * size = k * size := by omega
        have := Nat.eq_of_mul_eq_mul_right hsz this
        omega
      rw [Function.update_noteq hne]
      exact hlink i hi
    · simp


/-- C5: for a size class with object size `size` and run length `npages` whose
object count `n = (npages << PageShift) / size` is at least 1, when the heap
supplies span `s` with base address `p` (a non-nil address whose run lies in
the 64-bit address space) and an empty free list, `mCentral_Grow` returns `s`
with free-list head `p`, the free list being exactly the `n` slots
`p, p + size, ..., p + (n - 1) * size` in that order, each linked to the next
and the last link nil, and with `limit = p + n * size`. -/
theorem C5_grow_carves (env : Env) (w : World) (s : Nat) (st : Store)
    (size npages n p : Nat)
    (hsize : size = uintptr (env.class_to_size w.sizeclass))
    (hnpages : npages = uintptr (env.class_to_allocnpages w.sizeclass))
    (hn : n = uintptr (npages * 2 ^ env.PageShift) / size)
    (hn1 : 1 ≤ n)
    (halloc : env.mHeap_Alloc w.toStore npages w.sizeclass = (some s, st))
    (hfresh : (st.spans s).freelist = 0)
    (hp : p = (st.spans s).start * 2 ^ env.PageShift)
    (hp0 : 0 < p) (hfit : p + n * size < 2 ^ 64) :
    ∃ w1, mCentral_Grow env w = .ok (some s) w1 ∧
      (w1.spans s).freelist = p ∧
      Seg w1.mem p (slots p size n) 0 ∧
      (w1.spans s).limit = p + n * size := by
  obtain ⟨w1, hg, hsp, hseg, -⟩ :=
    grow_spec env w s st size npages n p hsize hnpages hn hn1 halloc hfresh hp hp0 hfit
  exact ⟨w1, hg, by rw [hsp], hseg, by rw [hsp]⟩

theorem C5_witness :
    ∃ w1, mCentral_Grow (envOf 16 2) (mCentral_Init world0 3) = .ok (some 7) w1 ∧
      (w1.spans 7).freelist = 4096 ∧
      Seg w1.mem 4096 (slots 4096 16 512) 0 ∧
      (w1.spans 7).limit = 4096 + 512 * 16 :=
  C5_grow_carves (envOf 16 2) (mCentral_Init world0 3) 7 _ 16 2 512 4096
    (by decide) (by decide) (by decide) (by decide) rfl rfl (by decide) (by decide)
    (by decide)

/-! ## Growth followed by acquisition -/

theorem slots_length (p size n : Nat) : (slots p size n).length = n := by
  simp [slots]

/-- C6: when both lists yield no span and the heap supplies a fresh span `s`
(`ref = 0`, `npages` and `elemsize` those of the size class, empty free list;
the class holds at least one and fewer than 2^31 objects per run and the run
lies in the address space), `mCentral_CacheSpan` returns the span carved by
`mCentral_Grow`, linked at the back of `empty` with `incache = true`; its
free-object count `capacity - ref` equals its full capacity `n` and the length
of its free list. -/
theorem C6_grow_then_cache (env : Env) (fuel : Nat) (w w2 : World) (s : Nat) (st : Store)
    (size npages n p : Nat)
    (hscan : scanLists env (env.deductSweepCredit w.toStore
          (uintptr (env.class_to_size w.sizeclass))).sweepgen fuel
        (lock (w.withStore (env.deductSweepCredit w.toStore
          (uintptr (env.class_to_size w.sizeclass))))) = .nothing w2)
    (hsize : size = uintptr (env.class_to_size w2.sizeclass))
    (hnpages : npages = uintptr (env.class_to_allocnpages w2.sizeclass))
    (hn : n = uintptr (npages * 2 ^ env.PageShift) / size)
    (hn1 : 1 ≤ n) (hn31 : n < 2 ^ 31)
    (halloc : env.mHeap_Alloc w2.toStore npages w2.sizeclass = (some s, st))
    (href : (st.spans s).ref = 0)
    (hnp : (st.spans s).npages = npages)
    (helem : (st.spans s).elemsize = size)
    (hfresh : (st.spans s).freelist = 0)
    (hp : p = (st.spans s).start * 2 ^ env.PageShift)
    (hp0 : 0 < p) (hfit : p + n * size < 2 ^ 64) :
    ∃ w1 l, mCentral_CacheSpan env fuel w = .ok (some s) w1 ∧
      w1.empty = st.empty ++ [s] ∧ w1.nonempty = st.nonempty ∧
      (w1.spans s).incache = true ∧
      freeCount env (w1.spans s) = capacity env (w1.spans s) ∧
      capacity env (w1.spans s) = n ∧
      Seg w1.mem (w1.spans s).freelist l 0 ∧ (l.length : Int) = freeCount env (w1.spans s) := by
  obtain ⟨wg, hg, hsp, hseg, hne, hem, -⟩ :=
    grow_spec env w2 s st size npages n p hsize hnpages hn hn1 halloc hfresh hp hp0 hfit
  have hsz : size ≠ 0 := by
    intro h0
    rw [h0, Nat.div_zero] at hn
    omega
  have hlo : -2 ^ 31 ≤ (n : Int) := by omega
  have hhi : (n : Int) < 2 ^ 31 := by omega
  have hnz : (n : Int) ≠ 0 := by omega
  have hpz : p ≠ 0 := by omega
  have hcap : capacity env (wg.spans s) = n := by
    rw [hsp]
    simp only [capacity, hnp, helem, ← hn]
    exact int32_of_range hlo hhi
  have hfc : freeCount env (wg.spans s) = n := by
    have hr : (wg.spans s).ref = 0 := by
      rw [hsp]
      exact href
    have h0 : int32 ((0 : Nat) : Int) = 0 := by
      unfold int32
      norm_num
    unfold freeCount
    rw [hcap, hr, h0, sub_zero]
    exact int32_of_range hlo hhi
  have hsel : selectSpan env fuel w
      = .ok (some s) (unlock (mSpanList_InsertBack (lock wg) .empty s)) := by
    unfold selectSpan
    simp only [lock, World.withStore] at hscan ⊢
    rw [hscan]
    simp only [hg]
  have hspan : (unlock (mSpanList_InsertBack (lock wg) .empty s)).spans s = wg.spans s := rfl
  have hhave : havespan env (unlock (mSpanList_InsertBack (lock wg) .empty s)) s
      = .ok (some s) (setIncache (unlock (mSpanList_InsertBack (lock wg) .empty s)) s true) := by
    apply havespan_returns
    · rw [hspan, hsp]
      simpa [helem] using hsz
    · rw [hspan, hfc]
      exact hnz
    · rw [hspan, hsp]
      exact hpz
  refine ⟨setIncache (unlock (mSpanList_InsertBack (lock wg) .empty s)) s true,
    slots p size n, ?_, ?_, ?_, ?_, ?_, ?_, ?_, ?_⟩
  · rw [cacheSpan_of_select hsel, hhave]
  · simp [setIncache, World.modify, unlock, mSpanList_InsertBack, lock, hem]
  · simp [setIncache, World.modify, unlock, mSpanList_InsertBack, lock, hne]
  · simp
  · simp only [setIncache_spans_same, freeCount_incache, hspan, hfc]
    have : capacity env { wg.spans s with incache := true } = capacity env (wg.spans s) := rfl
    rw [this, hcap]
  · have : capacity env ((setIncache (unlock (mSpanList_InsertBack (lock wg) .empty s)) s
        true).spans s) = capacity env (wg.spans s) := by
      simp only [setIncache_spans_same, hspan]
      rfl
    rw [this, hcap]
  · have hm : (setIncache (unlock (mSpanList_InsertBack (lock wg) .empty s)) s true).mem
        = wg.mem := rfl
    rw [hm]
    simp only [setIncache_spans_same, hspan, hsp]
    exact hseg
  · simp only [setIncache_spans_same, freeCount_incache, hspan, hfc, slots_length]

theorem C6_witness :
    ∃ w1 l, mCentral_CacheSpan (envOf 16 2) 1 (mCentral_Init world0 3) = .ok (some 7) w1 ∧
      w1.empty = [] ++ [7] ∧ w1.nonempty = [] ∧
      (w1.spans 7).incache = true ∧
      freeCount (envOf 16 2) (w1.spans 7) = capacity (envOf 16 2) (w1.spans 7) ∧
      capacity (envOf 16 2) (w1.spans 7) = (512 : Nat) ∧
      Seg w1.mem (w1.spans 7).freelist l 0 ∧
      (l.length : Int) = freeCount (envOf 16 2) (w1.spans 7) :=
  C6_grow_then_cache (envOf 16 2) 1 (mCentral_Init world0 3) _ 7 _ 16 2 512 4096
    rfl (by decide) (by decide) (by decide) (by decide) (by decide) rfl rfl rfl rfl rfl
    (by decide) (by decide) (by decide)

/-! ## Return of a span: `mCentral_UncacheSpan` -/

theorem uncache_spec (env : Env) (w : World) (s : Nat)
    (href : (w.spans s).ref ≠ 0) (helem : (w.spans s).elemsize ≠ 0) :
    mCentral_UncacheSpan env w s = .ok ()
      (unlock (if freeCount env (w.spans s) > 0
        then mSpanList_Insert (mSpanList_Remove (setIncache (lock w) s false) s) .nonempty s
        else setIncache (lock w) s false)) := by
  unfold mCentral_UncacheSpan
  have h1 : (setIncache (lock w) s false).spans s = { w.spans s with incache := false } := by
    simp [lock]
  simp only [h1, href, helem, if_false, freeCount_incache]

theorem uncache_fatal (env : Env) (w : World) (s : Nat) (href : (w.spans s).ref = 0) :
    mCentral_UncacheSpan env w s = .fatal .uncachingFullSpan (setIncache (lock w) s false) := by
  unfold mCentral_UncacheSpan
  have h1 : (setIncache (lock w) s false).spans s = { w.spans s with incache := false } := by
    simp [lock]
  simp only [h1, href, if_true]

/-- C8: for a span `s` with `ref > 0` (and a non-zero `elemsize`, so that its
capacity is defined), `mCentral_UncacheSpan` returns normally, clears
`incache`, leaves `ref`, the free list and every other span unchanged, and: if
`capacity - ref > 0`, `s` becomes the first element of `nonempty` and occurs at
no other position of either list, the other spans keeping their order; if
`capacity - ref = 0`, both lists are exactly as before. -/
theorem C8_uncache_relinks (env : Env) (w : World) (s : Nat)
    (href : 0 < (w.spans s).ref) (helem : (w.spans s).elemsize ≠ 0) :
    ∃ w1, mCentral_UncacheSpan env w s = .ok () w1 ∧
      w1.spans s = { w.spans s with incache := false } ∧
      (∀ x, x ≠ s → w1.spans x = w.spans x) ∧ w1.mem = w.mem ∧
      (0 < freeCount env (w.spans s) →
        w1.nonempty = s :: w.nonempty.filter (fun x => x != s) ∧
        s ∉ w.nonempty.filter (fun x => x != s) ∧
        w1.empty = w.empty.filter (fun x => x != s) ∧ s ∉ w1.empty) ∧
      (freeCount env (w.spans s) = 0 → w1.nonempty = w.nonempty ∧ w1.empty = w.empty) := by
  refine ⟨_, uncache_spec env w s (by omega) helem, ?_, ?_, ?_, ?_, ?_⟩
  · split_ifs <;>
      simp [unlock, mSpanList_Insert, mSpanList_Remove, setIncache, World.modify, lock]
  · intro x hx
    split_ifs <;>
      simp [unlock, mSpanList_Insert, mSpanList_Remove, setIncache, World.modify, lock,
        Function.update_noteq hx]
  · split_ifs <;> rfl
  · intro hpos
    rw [if_pos hpos]
    simp [unlock, mSpanList_Insert, mSpanList_Remove, setIncache, World.modify, lock,
      List.mem_filter]
  · intro hz
    rw [if_neg (by omega)]
    exact ⟨rfl, rfl⟩

theorem C8_witness :
    ∃ w1, mCentral_UncacheSpan (envOf 2048 1) worldCached 7 = .ok () w1 ∧
      w1.spans 7 = { worldCached.spans 7 with incache := false } ∧
      (∀ x, x ≠ 7 → w1.spans x = worldCached.spans x) ∧ w1.mem = worldCached.mem ∧
      (0 < freeCount (envOf 2048 1) (worldCached.spans 7) →
        w1.nonempty = 7 :: worldCached.nonempty.filter (fun x => x != 7) ∧
        7 ∉ worldCached.nonempty.filter (fun x => x != 7) ∧
        w1.empty = worldCached.empty.filter (fun x => x != 7) ∧ 7 ∉ w1.empty) ∧
      (freeCount (envOf 2048 1) (worldCached.spans 7) = 0 →
        w1.nonempty = worldCached.nonempty ∧ w1.empty = worldCached.empty) :=
  C8_uncache_relinks (envOf 2048 1) worldCached 7 (by decide) (by decide)

/-- C9: `mCentral_UncacheSpan` aborts with the fatal error "uncaching full span"
exactly when the span it is given has `ref = 0`; for a span whose `elemsize` is
not zero this is its only fatal error; and for a span with `ref = 0` the abort
happens with both lists as they were: the span is not relinked into
`nonempty`. -/
theorem C9_uncache_fatal_iff (env : Env) (w : World) (s : Nat) :
    ((∃ w1, mCentral_UncacheSpan env w s = .fatal .uncachingFullSpan w1) ↔
        (w.spans s).ref = 0) ∧
    ((w.spans s).elemsize ≠ 0 →
      ((∃ e w1, mCentral_UncacheSpan env w s = .fatal e w1) ↔ (w.spans s).ref = 0)) ∧
    ((w.spans s).ref = 0 →
      ∃ w1, mCentral_UncacheSpan env w s = .fatal .uncachingFullSpan w1 ∧
        w1.nonempty = w.nonempty ∧ w1.empty = w.empty) := by
  have h1 : (setIncache (lock w) s false).spans s = { w.spans s with incache := false } := by
    simp [lock]
  refine ⟨?_, ?_, ?_⟩
  · constructor
    · rintro ⟨w1, h⟩
      by_contra href
      unfold mCentral_UncacheSpan at h
      simp only [h1, href, if_false] at h
      split_ifs at h
      cases h
    · intro href
      exact ⟨_, uncache_fatal env w s href⟩
  · intro helem
    constructor
    · rintro ⟨e, w1, h⟩
      by_contra href
      rw [uncache_spec env w s href helem] at h
      cases h
    · intro href
      exact ⟨_, _, uncache_fatal env w s href⟩
  · intro href
    exact ⟨_, uncache_fatal env w s href, rfl, rfl⟩

theorem C9_witness :
    ∃ w1, mCentral_UncacheSpan (envOf 2048 1) world0 7 = .fatal .uncachingFullSpan w1 ∧
      w1.nonempty = world0.nonempty ∧ w1.empty = world0.empty :=
  (C9_uncache_fatal_iff (envOf 2048 1) world0 7).2.2 (by decide)

/-! ## Round trip: acquisition followed by return -/

/-- C7 (as amended): for every span `s` that `mCentral_CacheSpan` returns with at
least one object allocated and `ref` not above its capacity, calling
`mCentral_UncacheSpan` on `s` with no modification in between returns normally
and leaves `s` as the first element of `nonempty` and in no other list
position, with `incache = false` and with the `ref`, the free list and the
free-object count it had when `mCentral_CacheSpan` returned it. -/
theorem C7_cache_uncache_roundtrip (env : Env) (fuel : Nat) (w w1 : World) (s : Nat)
    (hcs : mCentral_CacheSpan env fuel w = .ok (some s) w1)
    (href : 0 < (w1.spans s).ref)
    (hle : ((w1.spans s).ref : Int) ≤ capacity env (w1.spans s)) :
    ∃ w2, mCentral_UncacheSpan env w1 s = .ok () w2 ∧
      w2.nonempty = s :: w1.nonempty.filter (fun x => x != s) ∧
      s ∉ w1.nonempty.filter (fun x => x != s) ∧ s ∉ w2.empty ∧
      (w2.spans s).incache = false ∧
      (w2.spans s).ref = (w1.spans s).ref ∧
      (w2.spans s).freelist = (w1.spans s).freelist ∧ w2.mem = w1.mem ∧
      freeCount env (w2.spans s) = freeCount env (w1.spans s) := by
  obtain ⟨w0, -, hh⟩ := cacheSpan_ok hcs
  obtain ⟨-, hw, helem, hfc, -⟩ := havespan_ok hh
  have hsp : w1.spans s = { w0.spans s with incache := true } := by
    rw [hw]
    exact setIncache_spans_same w0 s true
  have helem1 : (w1.spans s).elemsize ≠ 0 := by
    rw [hsp]
    exact helem
  have hfc1 : freeCount env (w1.spans s) ≠ 0 := by
    rw [hsp]
    exact hfc
  have hpos : 0 < freeCount env (w1.spans s) := freeCount_pos hfc1 hle
  have hun := uncache_spec env w1 s (by omega) helem1
  rw [if_pos hpos] at hun
  refine ⟨_, hun, rfl, ?_, ?_, ?_, ?_, ?_, rfl, ?_⟩
  · simp [List.mem_filter]
  · simp [unlock, mSpanList_Insert, mSpanList_Remove, setIncache, World.modify, lock,
      List.mem_filter]
  · simp [unlock, mSpanList_Insert, mSpanList_Remove, setIncache, World.modify, lock]
  · simp [unlock, mSpanList_Insert, mSpanList_Remove, setIncache, World.modify, lock]
  · simp [unlock, mSpanList_Insert, mSpanList_Remove, setIncache, World.modify, lock]
  · have : (unlock (mSpanList_Insert (mSpanList_Remove (setIncache (lock w1) s false) s)
        .nonempty s)).spans s = { w1.spans s with incache := false } := by
      simp [unlock, mSpanList_Insert, mSpanList_Remove, setIncache, World.modify, lock]
    rw [this]
    rfl

theorem C7_witness :
    ∃ w1, mCentral_CacheSpan (envOf 2048 1) 1 worldPartial = .ok (some 7) w1 ∧
      ∃ w2, mCentral_UncacheSpan (envOf 2048 1) w1 7 = .ok () w2 ∧
      w2.nonempty = 7 :: w1.nonempty.filter (fun x => x != 7) ∧
      7 ∉ w1.nonempty.filter (fun x => x != 7) ∧ 7 ∉ w2.empty ∧
      (w2.spans 7).incache = false ∧
      (w2.spans 7).ref = (w1.spans 7).ref ∧
      (w2.spans 7).freelist = (w1.spans 7).freelist ∧ w2.mem = w1.mem ∧
      freeCount (envOf 2048 1) (w2.spans 7) = freeCount (envOf 2048 1) (w1.spans 7) :=
  ⟨_, rfl,
    C7_cache_uncache_roundtrip (envOf 2048 1) 1 worldPartial _ 7 rfl (by decide) (by decide)⟩

/-- C7 (as stated) fails: the span that `mCentral_CacheSpan` returns after
growing has `ref = 0`, and `mCentral_UncacheSpan` on it, with no modification
in between, aborts with "uncaching full span". -/
theorem C7_counterexample :
    ∃ w1 w2, mCentral_CacheSpan (envOf 2048 1) 1 (mCentral_Init world0 3) = .ok (some 7) w1 ∧
      mCentral_UncacheSpan (envOf 2048 1) w1 7 = .fatal .uncachingFullSpan w2 :=
  ⟨_, _, rfl, rfl⟩

/-! ## Reclamation: `mCentral_FreeSpan` -/

theorem spliced_spans_same (w : World) (s : Nat) (n : Int) (start end_ : Nat) :
    (spliced w s n start end_).spans s =
      { w.spans s with freelist := start,
                       ref := uint16 (((w.spans s).ref : Int) - (uint16 n : Nat)) } := by
  simp [spliced, setRef, setFreelist, storeLink, World.modify, World.record]

theorem spliced_spans_other (w : World) (s : Nat) (n : Int) (start end_ : Nat) (x : Nat)
    (hx : x ≠ s) : (spliced w s n start end_).spans x = w.spans x := by
  simp [spliced, setRef, setFreelist, storeLink, World.modify, World.record,
    Function.update_noteq hx]

theorem spliced_mem (w : World) (s : Nat) (n : Int) (start end_ : Nat) :
    (spliced w s n start end_).mem = Function.update w.mem end_ (w.spans s).freelist := rfl

theorem spliced_lists (w : World) (s : Nat) (n : Int) (start end_ : Nat) :
    (spliced w s n start end_).nonempty = w.nonempty ∧
      (spliced w s n start end_).empty = w.empty ∧
      (spliced w s n start end_).sweepgen = w.sweepgen ∧
      (spliced w s n start end_).locked = w.locked := ⟨rfl, rfl, rfl, rfl⟩

theorem spliced_linked (w : World) (s : Nat) (n : Int) (start end_ : Nat) :
    (spliced w s n start end_).linked s = w.linked s := rfl

theorem spliced_trace (w : World) (s : Nat) (n : Int) (start end_ : Nat) :
    (spliced w s n start end_).trace =
      w.trace ++ [.writeFreelist s w.locked (w.linked s), .writeRef s w.locked (w.linked s)] := by
  simp [spliced, setRef, setFreelist, storeLink, World.modify, World.record, World.linked]

theorem relinked_spans (w : World) (s : Nat) (n : Int) (start end_ : Nat) :
    (relinked w s n start end_).spans = (spliced w s n start end_).spans ∧
      (relinked w s n start end_).sweepgen = w.sweepgen ∧
      (relinked w s n start end_).mem = (spliced w s n start end_).mem ∧
      (relinked w s n start end_).trace = (spliced w s n start end_).trace := by
  unfold relinked
  split_ifs <;> exact ⟨rfl, rfl, rfl, rfl⟩

theorem restamped_spans_same (w : World) (s : Nat) (n : Int) (start end_ : Nat) :
    (restamped w s n start end_).spans s =
      { w.spans s with freelist := start,
                       ref := uint16 (((w.spans s).ref : Int) - (uint16 n : Nat)),
                       sweepgen := w.sweepgen } := by
  unfold restamped atomicstore_sweepgen World.modify
  simp only [Function.update_same, (relinked_spans w s n start end_).1,
    (relinked_spans w s n start end_).2.1, spliced_spans_same]

theorem freeSpan_unfold (env : Env) (w : World) (s : Nat) (n : Int) (start end_ : Nat)
    (preserve : Bool) (hcache : (w.spans s).incache = false) (hend : end_ ≠ 0) :
    mCentral_FreeSpan env w s n start end_ preserve =
      if preserve then
        if w.linked s = false then .fatal .cantPreserveUnlinkedSpan (spliced w s n start end_)
        else .ok false (atomicstore_sweepgen (spliced w s n start end_) s w.sweepgen)
      else
        if uint16 (((w.spans s).ref : Int) - (uint16 n : Nat)) ≠ 0 then
          .ok false (unlock (restamped w s n start end_))
        else
          .ok true (handedToHeap env (unlinkedForHeap (restamped w s n start end_) s) s) := by
  have hsp : setRef (setFreelist (storeLink w end_ (w.spans s).freelist) s start) s
      (uint16 ((((setFreelist (storeLink w end_ (w.spans s).freelist) s start).spans s).ref
        : Int) - (uint16 n : Nat))) = spliced w s n start end_ := by
    have : ((setFreelist (storeLink w end_ (w.spans s).freelist) s start).spans s).ref
        = (w.spans s).ref := by
      simp [setFreelist, storeLink, World.modify, World.record]
    rw [this]
    rfl
  unfold mCentral_FreeSpan
  simp only [hcache, hend, if_false, Bool.false_eq_true, hsp]
  cases preserve
  · simp only [Bool.false_eq_true, if_false]
    have hre : (if decide ((w.spans s).freelist = 0) = true
        then mSpanList_Insert (mSpanList_Remove (lock (spliced w s n start end_)) s) .nonempty s
        else lock (spliced w s n start end_)) = relinked w s n start end_ := by
      unfold relinked
      simp only [decide_eq_true_eq]
    rw [hre]
    have hst : atomicstore_sweepgen (relinked w s n start end_) s
        (relinked w s n start end_).sweepgen = restamped w s n start end_ := rfl
    rw [hst, restamped_spans_same]
    rfl
  · simp only [if_true]
    rfl

theorem freeSpan_ok_pre (env : Env) (w : World) (s : Nat) (n : Int) (start end_ : Nat)
    (preserve r : Bool) (w1 : World)
    (h : mCentral_FreeSpan env w s n start end_ preserve = .ok r w1) :
    (w.spans s).incache = false ∧ end_ ≠ 0 := by
  have hcache : (w.spans s).incache = false := by
    by_contra hc
    unfold mCentral_FreeSpan at h
    rw [if_pos (by simpa using hc)] at h
    cases h
  refine ⟨hcache, ?_⟩
  intro he
  unfold mCentral_FreeSpan at h
  rw [if_neg (by simp [hcache])] at h
  dsimp only at h
  rw [if_pos he] at h
  cases h

theorem seg_update {mem : Nat → Nat} {a v : Nat} :
    ∀ {l : List Nat} {h t : Nat}, Seg mem h l t → a ∉ l →
      Seg (Function.update mem a v) h l t := by
  intro l
  induction l with
  | nil =>
    intro h t hs _
    exact hs
  | cons b l ih =>
    intro h t hs hn
    simp only [List.mem_cons, not_or] at hn
    obtain ⟨h1, h2, h3⟩ := hs
    refine ⟨h1, h2, ?_⟩
    rw [Function.update_noteq (Ne.symm hn.1)]
    exact ih h3 hn.2

theorem seg_append {mem : Nat → Nat} :
    ∀ {l1 l2 : List Nat} {h m t : Nat}, Seg mem h l1 m → Seg mem m l2 t →
      Seg mem h (l1 ++ l2) t := by
  intro l1
  induction l1 with
  | nil =>
    intro l2 h m t h1 h2
    have : h = m := h1
    subst this
    exact h2
  | cons b l ih =>
    intro l2 h m t h1 h2
    obtain ⟨e1, e2, e3⟩ := h1
    exact ⟨e1, e2, ih e3 h2⟩

theorem seg_splice {mem : Nat → Nat} {start end_ fl : Nat} {B F : List Nat}
    (hB : Seg mem start B end_) (hend : end_ ≠ 0) (hendB : end_ ∉ B)
    (hF : Seg mem fl F 0) (hendF : end_ ∉ F) :
    Seg (Function.update mem end_ fl) start (B ++ end_ :: F) 0 := by
  apply seg_append (seg_update hB hendB)
  refine ⟨rfl, hend, ?_⟩
  rw [Function.update_same]
  exact seg_update hF hendF

theorem uint16_sub (r : Nat) (n : Int) (h1 : 0 ≤ n) (h2 : n ≤ r) (hr : r < 2 ^ 16) :
    ((uint16 ((r : Int) - (uint16 n : Nat)) : Nat) : Int) = r - n := by
  unfold uint16
  omega

theorem int32_sub_ref (c : Int) (r : Nat) (hc0 : 0 ≤ c) (hc1 : c < 2 ^ 31)
    (hr : r < 2 ^ 16) : int32 (c - int32 (r : Int)) = c - r := by
  unfold int32
  omega

theorem freeCount_after_free (env : Env) (sp : mspan) (n : Int) (start sg : Nat)
    (hn0 : 0 ≤ n) (hnref : n ≤ sp.ref) (href16 : sp.ref < 2 ^ 16)
    (hcap : 0 ≤ capacity env sp) :
    ((uint16 ((sp.ref : Int) - (uint16 n : Nat)) : Nat) : Int) = sp.ref - n ∧
    freeCount env { sp with freelist := start,
                            ref := uint16 ((sp.ref : Int) - (uint16 n : Nat)),
                            sweepgen := sg } = freeCount env sp + n := by
  have hu := uint16_sub sp.ref n hn0 hnref href16
  have hlt : uint16 ((sp.ref : Int) - (uint16 n : Nat)) < 2 ^ 16 := by omega
  have hc1 := (int32_bounds ((uintptr (sp.npages * 2 ^ env.PageShift) / sp.elemsize : Nat)
    : Int)).2
  refine ⟨hu, ?_⟩
  unfold freeCount
  change int32 (capacity env sp - _) = _
  unfold capacity at hcap ⊢
  generalize int32 ((uintptr (sp.npages * 2 ^ env.PageShift) / sp.elemsize : Nat) : Int) = c
    at hcap hc1 ⊢
  rw [int32_sub_ref c _ hcap hc1 hlt, int32_sub_ref c _ hcap hc1 href16, hu]
  ring

theorem preserved_spans_same (w : World) (s : Nat) (n : Int) (start end_ : Nat) :
    (atomicstore_sweepgen (spliced w s n start end_) s w.sweepgen).spans s =
      { w.spans s with freelist := start,
                       ref := uint16 (((w.spans s).ref : Int) - (uint16 n : Nat)),
                       sweepgen := w.sweepgen } := by
  unfold atomicstore_sweepgen World.modify
  simp only [Function.update_same, spliced_spans_same]

theorem restamped_mem (w : World) (s : Nat) (n : Int) (start end_ : Nat) :
    (restamped w s n start end_).mem = Function.update w.mem end_ (w.spans s).freelist := by
  unfold restamped atomicstore_sweepgen World.modify
  exact (relinked_spans w s n start end_).2.2.1

/-- C10 (as amended): for a non-cached span `s` with allocated count `ref` and
free list `F`, and a batch of `n` objects (`1 ≤ n ≤ ref`) chained from `start`
through the cells `B` to `end_`, when the span is not handed back to the heap
(`preserve` is set and the span is linked, or `n < ref`), `mCentral_FreeSpan`
returns false and afterwards the free list of `s` is the batch chain followed
by `F`, its `ref` is the old `ref` minus `n`, and its free-object count has
grown by exactly `n`. -/
theorem C10_freeSpan_splices (env : Env) (w : World) (s : Nat) (n : Int)
    (start end_ : Nat) (preserve : Bool) (B F : List Nat)
    (hcache : (w.spans s).incache = false)
    (hB : Seg w.mem start B end_) (hend : end_ ≠ 0) (hendB : end_ ∉ B)
    (hF : Seg w.mem (w.spans s).freelist F 0) (hendF : end_ ∉ F)
    (hn1 : 1 ≤ n) (hnref : n ≤ (w.spans s).ref) (href16 : (w.spans s).ref < 2 ^ 16)
    (hcap : 0 ≤ capacity env (w.spans s))
    (hpath : (preserve = true ∧ w.linked s = true) ∨
      (preserve = false ∧ n < (w.spans s).ref)) :
    ∃ w1, mCentral_FreeSpan env w s n start end_ preserve = .ok false w1 ∧
      (w1.spans s).freelist = start ∧ Seg w1.mem start (B ++ end_ :: F) 0 ∧
      ((w1.spans s).ref : Int) = (w.spans s).ref - n ∧
      freeCount env (w1.spans s) = freeCount env (w.spans s) + n := by
  obtain ⟨hu, hfc⟩ := freeCount_after_free env (w.spans s) n start w.sweepgen
    (le_trans zero_le_one hn1) hnref href16 hcap
  have hseg := seg_splice hB hend hendB hF hendF
  rw [freeSpan_unfold env w s n start end_ preserve hcache hend]
  rcases hpath with ⟨hp, hl⟩ | ⟨hp, hlt⟩
  · subst hp
    simp only [if_true, hl, Bool.true_eq_false, if_false]
    refine ⟨_, rfl, ?_, ?_, ?_, ?_⟩
    · rw [preserved_spans_same]
    · exact hseg
    · rw [preserved_spans_same]
      exact hu
    · rw [preserved_spans_same]
      exact hfc
  · subst hp
    have hne : uint16 (((w.spans s).ref : Int) - (uint16 n : Nat)) ≠ 0 := by
      clear hcap hfc hseg hB hF
      intro h0
      rw [h0] at hu
      have : (0 : Int) = ((w.spans s).ref : Int) - n := by exact_mod_cast hu
      omega
    simp only [Bool.false_eq_true, if_false, hne, ne_eq, not_false_eq_true, if_true]
    refine ⟨_, rfl, ?_, ?_, ?_, ?_⟩
    · change ((restamped w s n start end_).spans s).freelist = start
      rw [restamped_spans_same]
    · change Seg (restamped w s n start end_).mem start (B ++ end_ :: F) 0
      rw [restamped_mem]
      exact hseg
    · change ((((restamped w s n start end_).spans s).ref : Nat) : Int) = _
      rw [restamped_spans_same]
      exact hu
    · change freeCount env ((restamped w s n start end_).spans s) = _
      rw [restamped_spans_same]
      exact hfc

theorem C10_witness :
    (worldSweep.spans 7).ref = 500 ∧ capacity (envOf 16 2) (worldSweep.spans 7) = 512 ∧
    freeCount (envOf 16 2) (worldSweep.spans 7) = 12 ∧
    ∃ w1, mCentral_FreeSpan (envOf 16 2) worldSweep 7 12 6000 6176 true = .ok false w1 ∧
      (w1.spans 7).freelist = 6000 ∧
      Seg w1.mem 6000 (slots 6000 16 11 ++ 6176 :: slots 4096 16 12) 0 ∧
      ((w1.spans 7).ref : Int) = (worldSweep.spans 7).ref - 12 ∧
      freeCount (envOf 16 2) (w1.spans 7) = freeCount (envOf 16 2) (worldSweep.spans 7) + 12 :=
  ⟨by decide, by decide, by decide,
    C10_freeSpan_splices (envOf 16 2) worldSweep 7 12 6000 6176 true
      (slots 6000 16 11) (slots 4096 16 12)
      (by decide) (by decide) (by decide) (by decide) (by decide) (by decide)
      (by decide) (by decide) (by decide) (by decide) (Or.inl ⟨rfl, by decide⟩)⟩

/-- C10 (as stated) fails: span 7 has `ref = 1` and an empty free list, and the
batch is the single object at 4096 (`n = 1 ≤ ref`).  With `preserve` not set,
`mCentral_FreeSpan` hands the fully freed span to the heap and returns true
with the free list of the span cleared: it is not the batch chain. -/
theorem C10_counterexample :
    (worldLast.spans 7).incache = false ∧ Seg worldLast.mem 4096 [] 4096 ∧
    Seg worldLast.mem (worldLast.spans 7).freelist [] 0 ∧
    (1 : Int) ≤ (worldLast.spans 7).ref ∧
    ∃ w1, mCentral_FreeSpan (envOf 4096 1) worldLast 7 1 4096 4096 false = .ok true w1 ∧
      (w1.spans 7).freelist = 0 ∧
      ¬ Seg w1.mem (w1.spans 7).freelist ([] ++ 4096 :: []) 0 :=
  ⟨by decide, by decide, by decide, by decide, _, rfl, rfl, by decide⟩

theorem restamped_trace (w : World) (s : Nat) (n : Int) (start end_ : Nat) :
    (restamped w s n start end_).trace =
      w.trace ++ [.writeFreelist s w.locked (w.linked s), .writeRef s w.locked (w.linked s)] := by
  have h : (restamped w s n start end_).trace = (relinked w s n start end_).trace := rfl
  rw [h, (relinked_spans w s n start end_).2.2.2, spliced_trace]

theorem restamped_locked (w : World) (s : Nat) (n : Int) (start end_ : Nat) :
    (restamped w s n start end_).locked = true := by
  have h : (restamped w s n start end_).locked = (relinked w s n start end_).locked := rfl
  rw [h]
  unfold relinked
  split_ifs <;> rfl

theorem restamped_lists (w : World) (s : Nat) (n : Int) (start end_ : Nat) :
    ((w.spans s).freelist = 0 →
      (restamped w s n start end_).nonempty = s :: w.nonempty.filter (fun x => x != s) ∧
      (restamped w s n start end_).empty = w.empty.filter (fun x => x != s)) ∧
    ((w.spans s).freelist ≠ 0 →
      (restamped w s n start end_).nonempty = w.nonempty ∧
      (restamped w s n start end_).empty = w.empty) := by
  have h1 : (restamped w s n start end_).nonempty = (relinked w s n start end_).nonempty := rfl
  have h2 : (restamped w s n start end_).empty = (relinked w s n start end_).empty := rfl
  rw [h1, h2]
  unfold relinked
  constructor
  · intro h
    rw [if_pos h]
    exact ⟨rfl, rfl⟩
  · intro h
    rw [if_neg h]
    exact ⟨rfl, rfl⟩

theorem count_heapFree_writes (l : List Event) (s : Nat) (b1 b2 b3 b4 : Bool) :
    (l ++ [Event.writeFreelist s b1 b2, Event.writeRef s b3 b4]).count (Event.heapFree s)
      = l.count (Event.heapFree s) := by
  simp [List.count_append, List.count_cons]

theorem unlinkedForHeap_spec (w : World) (s : Nat) :
    s ∉ (unlinkedForHeap w s).nonempty ∧ s ∉ (unlinkedForHeap w s).empty ∧
    ((unlinkedForHeap w s).spans s).needzero = 1 ∧
    ((unlinkedForHeap w s).spans s).freelist = 0 ∧
    ((unlinkedForHeap w s).spans s).ref = (w.spans s).ref ∧
    (unlinkedForHeap w s).trace = w.trace ++ [.writeFreelist s w.locked false] ∧
    (unlinkedForHeap w s).locked = false := by
  simp [unlinkedForHeap, unlock, setFreelist, World.record, World.linked, World.modify,
    mSpanList_Remove, List.mem_filter]

/-- C11: for a non-cached span and a batch (with a non-nil `end`),
`mCentral_FreeSpan` with `preserve = false` returns normally, and returns true
exactly when the span's `ref` is 0 after the decrement.  When it returns true,
the span is handed to `mHeap_Free` in a world `wh` in which it is linked in
neither list, its `needzero` flag is set and its free list is cleared, and the
release is recorded exactly once; when it returns false, no release is
recorded and a span that was linked is still linked. -/
theorem C11_freeSpan_returns_to_heap (env : Env) (w : World) (s : Nat) (n : Int)
    (start end_ : Nat) (hcache : (w.spans s).incache = false) (hend : end_ ≠ 0) :
    ∃ r w1, mCentral_FreeSpan env w s n start end_ false = .ok r w1 ∧
      (r = true ↔ uint16 (((w.spans s).ref : Int) - (uint16 n : Nat)) = 0) ∧
      (r = true → ∃ wh, w1 = handedToHeap env wh s ∧
        s ∉ wh.nonempty ∧ s ∉ wh.empty ∧ (wh.spans s).needzero = 1 ∧
        (wh.spans s).freelist = 0 ∧ (wh.spans s).ref = 0 ∧
        w1.trace.count (.heapFree s) = w.trace.count (.heapFree s) + 1) ∧
      (r = false →
        (w1.spans s).ref = uint16 (((w.spans s).ref : Int) - (uint16 n : Nat)) ∧
        w1.trace.count (.heapFree s) = w.trace.count (.heapFree s) ∧
        (w.linked s = true → w1.linked s = true)) := by
  rw [freeSpan_unfold env w s n start end_ false hcache hend]
  simp only [Bool.false_eq_true, if_false]
  by_cases hr : uint16 (((w.spans s).ref : Int) - (uint16 n : Nat)) = 0
  · rw [if_neg (by simpa using hr)]
    refine ⟨true, _, rfl, by simp [hr], ?_, by simp⟩
    intro _
    obtain ⟨h1, h2, h3, h4, h5, h6, -⟩ := unlinkedForHeap_spec (restamped w s n start end_) s
    refine ⟨unlinkedForHeap (restamped w s n start end_) s, rfl, h1, h2, h3, h4, ?_, ?_⟩
    · rw [h5, restamped_spans_same]
      exact hr
    · have : (handedToHeap env (unlinkedForHeap (restamped w s n start end_) s) s).trace
          = (unlinkedForHeap (restamped w s n start end_) s).trace ++ [.heapFree s] := rfl
      rw [this, h6, restamped_trace]
      simp [List.count_append, List.count_cons]
  · rw [if_pos hr]
    refine ⟨false, _, rfl, by simp [hr], by simp, ?_⟩
    intro _
    refine ⟨?_, ?_, ?_⟩
    · change ((restamped w s n start end_).spans s).ref = _
      rw [restamped_spans_same]
    · change (restamped w s n start end_).trace.count _ = _
      rw [restamped_trace, count_heapFree_writes]
    · intro hl
      have hlists := restamped_lists w s n start end_
      change (decide (s ∈ (restamped w s n start end_).nonempty) ||
        decide (s ∈ (restamped w s n start end_).empty)) = true
      by_cases hfl : (w.spans s).freelist = 0
      · rw [(hlists.1 hfl).1]
        simp
      · rw [(hlists.2 hfl).1, (hlists.2 hfl).2]
        exact hl

theorem C11_witness :
    ∃ r w1, mCentral_FreeSpan (envOf 4096 1) worldLast 7 1 4096 4096 false = .ok r w1 ∧
      (r = true ↔ uint16 (((worldLast.spans 7).ref : Int) - (uint16 1 : Nat)) = 0) ∧
      (r = true → ∃ wh, w1 = handedToHeap (envOf 4096 1) wh 7 ∧
        7 ∉ wh.nonempty ∧ 7 ∉ wh.empty ∧ (wh.spans 7).needzero = 1 ∧
        (wh.spans 7).freelist = 0 ∧ (wh.spans 7).ref = 0 ∧
        w1.trace.count (.heapFree 7) = worldLast.trace.count (.heapFree 7) + 1) ∧
      (r = false →
        (w1.spans 7).ref = uint16 (((worldLast.spans 7).ref : Int) - (uint16 1 : Nat)) ∧
        w1.trace.count (.heapFree 7) = worldLast.trace.count (.heapFree 7) ∧
        (worldLast.linked 7 = true → w1.linked 7 = true)) :=
  C11_freeSpan_returns_to_heap (envOf 4096 1) worldLast 7 1 4096 4096 (by decide) (by decide)

/-- C12: for a linked, non-cached span and a batch (with a non-nil `end`),
`mCentral_FreeSpan` with `preserve = true` returns false, leaves the contents
and order of both lists exactly as they were, records no release of the span
to the page heap (even when the decrement brings `ref` to 0), and leaves the
span's sweep-generation stamp equal to the global generation. -/
theorem C12_freeSpan_preserve (env : Env) (w : World) (s : Nat) (n : Int)
    (start end_ : Nat) (hcache : (w.spans s).incache = false) (hend : end_ ≠ 0)
    (hlinked : w.linked s = true) :
    ∃ w1, mCentral_FreeSpan env w s n start end_ true = .ok false w1 ∧
      w1.nonempty = w.nonempty ∧ w1.empty = w.empty ∧
      (∀ x, w1.trace.count (.heapFree x) = w.trace.count (.heapFree x)) ∧
      (w1.spans s).ref = uint16 (((w.spans s).ref : Int) - (uint16 n : Nat)) ∧
      (w1.spans s).sweepgen = w1.sweepgen ∧ w1.sweepgen = w.sweepgen := by
  rw [freeSpan_unfold env w s n start end_ true hcache hend]
  simp only [if_true, hlinked, Bool.true_eq_false, if_false]
  refine ⟨_, rfl, rfl, rfl, ?_, ?_, ?_, rfl⟩
  · intro x
    change (spliced w s n start end_).trace.count _ = _
    rw [spliced_trace]
    simp [List.count_append, List.count_cons]
  · rw [preserved_spans_same]
  · rw [preserved_spans_same]
    rfl

theorem C12_witness :
    ∃ w1, mCentral_FreeSpan (envOf 4096 1) worldLast 7 1 4096 4096 true = .ok false w1 ∧
      w1.nonempty = worldLast.nonempty ∧ w1.empty = worldLast.empty ∧
      (∀ x, w1.trace.count (.heapFree x) = worldLast.trace.count (.heapFree x)) ∧
      (w1.spans 7).ref = uint16 (((worldLast.spans 7).ref : Int) - (uint16 1 : Nat)) ∧
      (w1.spans 7).sweepgen = w1.sweepgen ∧ w1.sweepgen = worldLast.sweepgen :=
  C12_freeSpan_preserve (envOf 4096 1) worldLast 7 1 4096 4096 (by decide) (by decide)
    (by decide)

/-- C13: for a non-cached span whose `ref` stays non-zero after reclamation,
`mCentral_FreeSpan` with `preserve = false` returns false; if the span's free
list was empty before the call the span is moved to the front of `nonempty`
(and is in no other list position), if it was not empty both lists are
exactly as before, so the span keeps its list and its position; in both cases
the span's stamp ends equal to the global generation. -/
theorem C13_freeSpan_relinks (env : Env) (w : World) (s : Nat) (n : Int)
    (start end_ : Nat) (hcache : (w.spans s).incache = false) (hend : end_ ≠ 0)
    (href : uint16 (((w.spans s).ref : Int) - (uint16 n : Nat)) ≠ 0) :
    ∃ w1, mCentral_FreeSpan env w s n start end_ false = .ok false w1 ∧
      ((w.spans s).freelist = 0 →
        w1.nonempty = s :: w.nonempty.filter (fun x => x != s) ∧
        s ∉ w.nonempty.filter (fun x => x != s) ∧
        w1.empty = w.empty.filter (fun x => x != s) ∧ s ∉ w1.empty) ∧
      ((w.spans s).freelist ≠ 0 → w1.nonempty = w.nonempty ∧ w1.empty = w.empty) ∧
      (w1.spans s).sweepgen = w1.sweepgen ∧ w1.sweepgen = w.sweepgen := by
  rw [freeSpan_unfold env w s n start end_ false hcache hend]
  simp only [Bool.false_eq_true, if_false, href, ne_eq, not_false_eq_true, if_true]
  have hlists := restamped_lists w s n start end_
  refine ⟨_, rfl, ?_, ?_, ?_, ?_⟩
  · intro hfl
    change (restamped w s n start end_).nonempty = _ ∧ _ ∧
      (restamped w s n start end_).empty = _ ∧ s ∉ (restamped w s n start end_).empty
    rw [(hlists.1 hfl).1, (hlists.1 hfl).2]
    simp [List.mem_filter]
  · intro hfl
    exact hlists.2 hfl
  · change ((restamped w s n start end_).spans s).sweepgen = (relinked w s n start end_).sweepgen
    rw [restamped_spans_same, (relinked_spans w s n start end_).2.1]
  · exact (relinked_spans w s n start end_).2.1

theorem C13_witness :
    ∃ w1, mCentral_FreeSpan (envOf 16 2) worldSweep 7 12 6000 6176 false = .ok false w1 ∧
      ((worldSweep.spans 7).freelist = 0 →
        w1.nonempty = 7 :: worldSweep.nonempty.filter (fun x => x != 7) ∧
        7 ∉ worldSweep.nonempty.filter (fun x => x != 7) ∧
        w1.empty = worldSweep.empty.filter (fun x => x != 7) ∧ 7 ∉ w1.empty) ∧
      ((worldSweep.spans 7).freelist ≠ 0 →
        w1.nonempty = worldSweep.nonempty ∧ w1.empty = worldSweep.empty) ∧
      (w1.spans 7).sweepgen = w1.sweepgen ∧ w1.sweepgen = worldSweep.sweepgen :=
  C13_freeSpan_relinks (envOf 16 2) worldSweep 7 12 6000 6176 (by decide) (by decide)
    (by decide)

/-! ## The scans of `mCentral_CacheSpan` -/

theorem uint32_pred_ne (sg : Nat) : uint32 (sg - 2) ≠ uint32 (sg - 1) := by
  unfold uint32
  omega

theorem scanNonempty_cons (env : Env) (sg : Nat) (x : Nat) (rest : List Nat) (w : World) :
    scanNonempty env sg (x :: rest) w =
      if (w.spans x).sweepgen = uint32 (sg - 2) then some (x, sweptOut env sg w x)
      else if (w.spans x).sweepgen = uint32 (sg - 1) then scanNonempty env sg rest w
      else some (x, handOut w x) := by
  by_cases h2 : (w.spans x).sweepgen = uint32 (sg - 2)
  · simp only [scanNonempty, cas_sweepgen, h2, if_true, and_self]
    rfl
  · simp only [scanNonempty, h2, false_and, if_false]
    rfl

theorem scanEmpty_cons (env : Env) (sg : Nat) (x : Nat) (rest : List Nat) (w : World) :
    scanEmpty env sg (x :: rest) w =
      if (w.spans x).sweepgen = uint32 (sg - 2) then
        if ((sweptOut env sg w x).spans x).freelist ≠ 0 then .havespan x (sweptOut env sg w x)
        else .retry (lock (sweptOut env sg w x))
      else if (w.spans x).sweepgen = uint32 (sg - 1) then scanEmpty env sg rest w
      else .done := by
  by_cases h2 : (w.spans x).sweepgen = uint32 (sg - 2)
  · simp only [scanEmpty, cas_sweepgen, h2, if_true, and_self]
    rfl
  · simp only [scanEmpty, h2, false_and, if_false]

theorem scanNonempty_skip (env : Env) (sg : Nat) (w : World) :
    ∀ (pre : List Nat) (l : List Nat),
      (∀ x ∈ pre, (w.spans x).sweepgen = uint32 (sg - 1)) →
      scanNonempty env sg (pre ++ l) w = scanNonempty env sg l w := by
  intro pre
  induction pre with
  | nil =>
    intro l _
    rfl
  | cons a pre ih =>
    intro l h
    have ha := h a (List.mem_cons_self a pre)
    have hne : (w.spans a).sweepgen ≠ uint32 (sg - 2) := by
      rw [ha]
      exact Ne.symm (uint32_pred_ne sg)
    rw [List.cons_append, scanNonempty_cons, if_neg hne, if_pos ha]
    exact ih l (fun x hx => h x (List.mem_cons_of_mem a hx))

theorem scanNonempty_none_iff (env : Env) (sg : Nat) (w : World) :
    ∀ l : List Nat, scanNonempty env sg l w = none ↔
      ∀ x ∈ l, (w.spans x).sweepgen = uint32 (sg - 1) := by
  intro l
  induction l with
  | nil => simp [scanNonempty]
  | cons a l ih =>
    rw [scanNonempty_cons]
    by_cases h2 : (w.spans a).sweepgen = uint32 (sg - 2)
    · have hne : (w.spans a).sweepgen ≠ uint32 (sg - 1) := by
        rw [h2]
        exact uint32_pred_ne sg
      rw [if_pos h2]
      constructor
      · intro h
        cases h
      · intro h
        exact absurd (h a (List.mem_cons_self a l)) hne
    · rw [if_neg h2]
      by_cases h1 : (w.spans a).sweepgen = uint32 (sg - 1)
      · rw [if_pos h1, ih]
        constructor
        · intro h x hx
          rcases List.mem_cons.1 hx with rfl | hx
          · exact h1
          · exact h x hx
        · intro h x hx
          exact h x (List.mem_cons_of_mem a hx)
      · rw [if_neg h1]
        constructor
        · intro h
          cases h
        · intro h
          exact absurd (h a (List.mem_cons_self a l)) h1

theorem selectSpan_eq (env : Env) (fuel : Nat) (w : World) :
    selectSpan env fuel w =
      match scanLists env (entered env w).sweepgen fuel (entered env w) with
      | .diverge => .diverge
      | .found s w2 => .ok (some s) w2
      | .nothing w2 =>
        match mCentral_Grow env w2 with
        | .diverge => .diverge
        | .fatal e w3 => .fatal e w3
        | .ok none w3 => .ok none w3
        | .ok (some s) w3 => .ok (some s) (unlock (mSpanList_InsertBack (lock w3) .empty s)) :=
  rfl

/-- C16: if `nonempty` (at the first scan, after the pacer call) is
`pre ++ s :: post` where every span of `pre` is stamped generation-1 and `s` is
not, `mCentral_CacheSpan` selects `s`, the first such span in list order: every
span of `pre` is skipped, `s` is unlinked and appended to the back of `empty`
in a world `w0` where all other spans keep their list, order and fields, `s` is
swept first exactly when its stamp was generation-2, and `s` is returned
(with `incache` set) once the checks at `havespan` pass. -/
theorem C16_cacheSpan_takes_first (env : Env) (f : Nat) (w : World)
    (pre post : List Nat) (s : Nat)
    (hlist : (entered env w).nonempty = pre ++ s :: post)
    (hpre : ∀ x ∈ pre,
      ((entered env w).spans x).sweepgen = uint32 ((entered env w).sweepgen - 1))
    (hs : ((entered env w).spans s).sweepgen ≠ uint32 ((entered env w).sweepgen - 1)) :
    ∃ w0 w2, selectSpan env (f + 1) w = .ok (some s) w2 ∧
      mCentral_CacheSpan env (f + 1) w = havespan env w2 s ∧
      w0.nonempty = (entered env w).nonempty.filter (fun x => x != s) ∧
      w0.empty = (entered env w).empty.filter (fun x => x != s) ++ [s] ∧
      (∀ x, x ≠ s → w0.spans x = (entered env w).spans x) ∧
      (((entered env w).spans s).sweepgen = uint32 ((entered env w).sweepgen - 2) →
        (w0.spans s).sweepgen = uint32 ((entered env w).sweepgen - 1) ∧
        w2 = w0.withStore (env.mSpan_Sweep w0.toStore s)) ∧
      (((entered env w).spans s).sweepgen ≠ uint32 ((entered env w).sweepgen - 2) →
        w0.spans s = (entered env w).spans s ∧ w2 = w0) ∧
      ((w2.spans s).elemsize ≠ 0 → freeCount env (w2.spans s) ≠ 0 →
        (w2.spans s).freelist ≠ 0 →
        mCentral_CacheSpan env (f + 1) w = .ok (some s) (setIncache w2 s true)) := by
  have hscan : scanNonempty env (entered env w).sweepgen (entered env w).nonempty (entered env w)
      = some (s, if ((entered env w).spans s).sweepgen = uint32 ((entered env w).sweepgen - 2)
          then sweptOut env (entered env w).sweepgen (entered env w) s
          else handOut (entered env w) s) := by
    rw [hlist, scanNonempty_skip env _ _ pre _ hpre, scanNonempty_cons]
    split_ifs <;> rfl
  by_cases h2 : ((entered env w).spans s).sweepgen = uint32 ((entered env w).sweepgen - 2)
  · rw [if_pos h2] at hscan
    have hsel : selectSpan env (f + 1) w
        = .ok (some s) (sweptOut env (entered env w).sweepgen (entered env w) s) := by
      rw [selectSpan_eq]
      simp only [scanLists, hscan]
    refine ⟨handOut (atomicstore_sweepgen (entered env w) s
      (uint32 ((entered env w).sweepgen - 1))) s, _, hsel, cacheSpan_of_select hsel, rfl, rfl,
      ?_, ?_, ?_, ?_⟩
    · intro x hx
      simp [handOut, unlock, mSpanList_InsertBack, mSpanList_Remove, atomicstore_sweepgen,
        World.modify, Function.update_noteq hx]
    · intro _
      refine ⟨?_, rfl⟩
      simp [handOut, unlock, mSpanList_InsertBack, mSpanList_Remove, atomicstore_sweepgen,
        World.modify]
    · intro h
      exact absurd h2 h
    · intro h1 h3 h4
      rw [cacheSpan_of_select hsel]
      exact havespan_returns h1 h3 h4
  · rw [if_neg h2] at hscan
    have hsel : selectSpan env (f + 1) w = .ok (some s) (handOut (entered env w) s) := by
      rw [selectSpan_eq]
      simp only [scanLists, hscan]
    refine ⟨handOut (entered env w) s, _, hsel, cacheSpan_of_select hsel, rfl, rfl,
      ?_, ?_, ?_, ?_⟩
    · intro x _
      rfl
    · intro h
      exact absurd h h2
    · intro _
      exact ⟨rfl, rfl⟩
    · intro h1 h3 h4
      rw [cacheSpan_of_select hsel]
      exact havespan_returns h1 h3 h4

theorem C16_witness :
    ∃ w0 w2, selectSpan (envOf 2048 1) 1 worldBusy = .ok (some 7) w2 ∧
      mCentral_CacheSpan (envOf 2048 1) 1 worldBusy = havespan (envOf 2048 1) w2 7 ∧
      w0.nonempty = (entered (envOf 2048 1) worldBusy).nonempty.filter (fun x => x != 7) ∧
      w0.empty = (entered (envOf 2048 1) worldBusy).empty.filter (fun x => x != 7) ++ [7] ∧
      (∀ x, x ≠ 7 → w0.spans x = (entered (envOf 2048 1) worldBusy).spans x) ∧
      (((entered (envOf 2048 1) worldBusy).spans 7).sweepgen
          = uint32 ((entered (envOf 2048 1) worldBusy).sweepgen - 2) →
        (w0.spans 7).sweepgen = uint32 ((entered (envOf 2048 1) worldBusy).sweepgen - 1) ∧
        w2 = w0.withStore ((envOf 2048 1).mSpan_Sweep w0.toStore 7)) ∧
      (((entered (envOf 2048 1) worldBusy).spans 7).sweepgen
          ≠ uint32 ((entered (envOf 2048 1) worldBusy).sweepgen - 2) →
        w0.spans 7 = (entered (envOf 2048 1) worldBusy).spans 7 ∧ w2 = w0) ∧
      ((w2.spans 7).elemsize ≠ 0 → freeCount (envOf 2048 1) (w2.spans 7) ≠ 0 →
        (w2.spans 7).freelist ≠ 0 →
        mCentral_CacheSpan (envOf 2048 1) 1 worldBusy = .ok (some 7) (setIncache w2 7 true)) :=
  C16_cacheSpan_takes_first (envOf 2048 1) 0 worldBusy [5] [] 7 rfl (by decide) (by decide)

/-! ## Termination of the retry loop -/

theorem countP_filter_lt (p : Nat → Bool) (s : Nat) :
    ∀ l : List Nat, s ∈ l → p s = true →
      (l.filter (fun x => x != s)).countP p < l.countP p := by
  intro l
  induction l with
  | nil =>
    intro h _
    cases h
  | cons a l ih =>
    intro hmem hp
    by_cases hs : a = s
    · subst hs
      have hle : (l.filter (fun x => x != a)).countP p ≤ l.countP p :=
        List.Sublist.countP_le p (List.filter_sublist l)
      simp only [List.filter_cons, bne_self_eq_false, Bool.false_eq_true, if_false,
        List.countP_cons, hp, if_true]
      omega
    · have hmem1 : s ∈ l := by
        rcases List.mem_cons.1 hmem with h | h
        · exact absurd h.symm hs
        · exact h
      have := ih hmem1 hp
      have hb : (a != s) = true := by simpa using hs
      simp only [List.filter_cons, hb, if_true, List.countP_cons]
      omega

theorem scanEmpty_retry (env : Env) (sg : Nat) (w : World) :
    ∀ (l : List Nat) (w1 : World), scanEmpty env sg l w = .retry w1 →
      ∃ s, s ∈ l ∧ (w.spans s).sweepgen = uint32 (sg - 2) ∧
        w1 = lock (sweptOut env sg w s) := by
  intro l
  induction l with
  | nil =>
    intro w1 h
    simp [scanEmpty] at h
  | cons a l ih =>
    intro w1 h
    rw [scanEmpty_cons] at h
    by_cases h2 : (w.spans a).sweepgen = uint32 (sg - 2)
    · rw [if_pos h2] at h
      split_ifs at h
      cases h
      exact ⟨a, List.mem_cons_self a l, h2, rfl⟩
    · rw [if_neg h2] at h
      split_ifs at h
      obtain ⟨s, hs, h3, h4⟩ := ih w1 h
      exact ⟨s, List.mem_cons_of_mem a hs, h3, h4⟩

theorem retry_decreases (env : Env) (sg : Nat) (hsweep : SweepSettles env sg)
    (w w1 : World) (hsg : w.sweepgen = sg)
    (h : scanEmpty env sg w.empty w = .retry w1) :
    w1.sweepgen = sg ∧ needSweep sg w1 w1.empty < needSweep sg w w.empty ∧
      needSweep sg w1 w1.nonempty ≤ needSweep sg w w.nonempty := by
  obtain ⟨s, hmem, hst, rfl⟩ := scanEmpty_retry env sg w w.empty w1 h
  obtain ⟨hg, hne, hem, hstamp⟩ := hsweep
    (handOut (atomicstore_sweepgen w s (uint32 (sg - 1))) s).toStore s hsg
  have hmono : ∀ x, ((lock (sweptOut env sg w s)).spans x).sweepgen = uint32 (sg - 2) →
      x ≠ s ∧ (w.spans x).sweepgen = uint32 (sg - 2) := by
    intro x hx
    have h1 := hstamp x hx
    by_cases hxs : x = s
    · subst hxs
      have : ((handOut (atomicstore_sweepgen w x (uint32 (sg - 1))) x).spans x).sweepgen
          = uint32 (sg - 1) := by
        simp [handOut, unlock, mSpanList_InsertBack, mSpanList_Remove, atomicstore_sweepgen,
          World.modify]
      rw [this] at h1
      exact absurd h1.symm (uint32_pred_ne sg)
    · refine ⟨hxs, ?_⟩
      have : (handOut (atomicstore_sweepgen w s (uint32 (sg - 1))) s).spans x = w.spans x := by
        simp [handOut, unlock, mSpanList_InsertBack, mSpanList_Remove, atomicstore_sweepgen,
          World.modify, Function.update_noteq hxs]
      rw [← this]
      exact h1
  refine ⟨hg, ?_, ?_⟩
  · have hsub : (lock (sweptOut env sg w s)).empty.Sublist
        (w.empty.filter (fun x => x != s) ++ [s]) := hem
    have h1 := List.Sublist.countP_le
      (fun x => decide (((lock (sweptOut env sg w s)).spans x).sweepgen = uint32 (sg - 2))) hsub
    have h2 : (w.empty.filter (fun x => x != s) ++ [s]).countP
        (fun x => decide (((lock (sweptOut env sg w s)).spans x).sweepgen = uint32 (sg - 2)))
        ≤ (w.empty.filter (fun x => x != s)).countP
          (fun x => decide ((w.spans x).sweepgen = uint32 (sg - 2))) := by
      rw [List.countP_append]
      have hs0 : [s].countP
          (fun x => decide (((lock (sweptOut env sg w s)).spans x).sweepgen = uint32 (sg - 2)))
          = 0 := by
        rw [List.countP_eq_zero]
        intro x hx
        rw [List.mem_singleton] at hx
        subst hx
        intro hd
        exact (hmono x (of_decide_eq_true hd)).1 rfl
      rw [hs0, Nat.add_zero]
      apply List.countP_mono_left
      intro x _ hd
      exact decide_eq_true (hmono x (of_decide_eq_true hd)).2
    have h3 := countP_filter_lt (fun x => decide ((w.spans x).sweepgen = uint32 (sg - 2))) s
      w.empty hmem (decide_eq_true hst)
    unfold needSweep
    omega
  · have hsub : (lock (sweptOut env sg w s)).nonempty.Sublist
        (w.nonempty.filter (fun x => x != s)) := hne
    have h1 := List.Sublist.countP_le
      (fun x => decide (((lock (sweptOut env sg w s)).spans x).sweepgen = uint32 (sg - 2))) hsub
    have h2 : (w.nonempty.filter (fun x => x != s)).countP
        (fun x => decide (((lock (sweptOut env sg w s)).spans x).sweepgen = uint32 (sg - 2)))
        ≤ (w.nonempty.filter (fun x => x != s)).countP
          (fun x => decide ((w.spans x).sweepgen = uint32 (sg - 2))) := by
      apply List.countP_mono_left
      intro x _ hd
      exact decide_eq_true (hmono x (of_decide_eq_true hd)).2
    have h3 := List.Sublist.countP_le
      (fun x => decide ((w.spans x).sweepgen = uint32 (sg - 2)))
      (List.filter_sublist (p := fun x => x != s) w.nonempty)
    unfold needSweep
    omega

theorem scanLists_terminates (env : Env) (sg : Nat) (hsweep : SweepSettles env sg) :
    ∀ (fuel : Nat) (w : World), w.sweepgen = sg → needSweep sg w w.empty < fuel →
      scanLists env sg fuel w ≠ .diverge := by
  intro fuel
  induction fuel with
  | zero =>
    intro w _ h
    omega
  | succ fuel ih =>
    intro w hsg hlt
    unfold scanLists
    split
    · simp
    · split
      · simp
      · rename_i w1 hre
        obtain ⟨h1, h2, -⟩ := retry_decreases env sg hsweep w w1 hsg hre
        exact ih w1 h1 (by omega)
      · simp

theorem grow_ne_diverge (env : Env) (w : World) : mCentral_Grow env w ≠ .diverge := by
  intro h
  unfold mCentral_Grow at h
  dsimp only at h
  split at h
  · cases h
  · split at h
    · cases h
    · split at h
      · cases h
      · split at h
        · cases h
        · split at h
          · cases h
          · cases h

theorem havespan_ne_diverge (env : Env) (w : World) (s : Nat) :
    havespan env w s ≠ .diverge := by
  intro h
  unfold havespan at h
  dsimp only at h
  split at h
  · cases h
  · split at h
    · cases h
    · split at h
      · cases h
      · cases h

theorem envSweeping_settles (size npages : Nat) : SweepSettles (envSweeping size npages) 4 := by
  intro st s hsg
  refine ⟨hsg, List.Sublist.refl _, List.Sublist.refl _, ?_⟩
  intro x hx
  by_cases hxs : x = s
  · subst hxs
    simp only [envSweeping, Function.update_same, hsg] at hx
    exact absurd hx (by decide)
  · simp only [envSweeping, Function.update_noteq hxs] at hx
    exact hx

/-- C20: provided the sweep routine adds no span to the lists and resets no
stamp to generation-2, each jump back to `retry` strictly decreases the number
of spans stamped generation-2 in `empty` and does not increase their number
in `nonempty`; hence the scans, and `mCentral_CacheSpan`, return whenever the
number of passes allowed exceeds the number of such spans in `empty` at entry:
the number of retries is at most that number. -/
theorem C20_cacheSpan_terminates (env : Env) (sg : Nat) (hsweep : SweepSettles env sg) :
    (∀ w w1, w.sweepgen = sg → scanEmpty env sg w.empty w = .retry w1 →
      w1.sweepgen = sg ∧ needSweep sg w1 w1.empty < needSweep sg w w.empty ∧
      needSweep sg w1 w1.nonempty ≤ needSweep sg w w.nonempty) ∧
    (∀ fuel w, w.sweepgen = sg → needSweep sg w w.empty < fuel →
      scanLists env sg fuel w ≠ .diverge) ∧
    (∀ fuel w, (entered env w).sweepgen = sg →
      needSweep sg (entered env w) (entered env w).empty < fuel →
      mCentral_CacheSpan env fuel w ≠ .diverge) := by
  refine ⟨fun w w1 hsg h => retry_decreases env sg hsweep w w1 hsg h,
    scanLists_terminates env sg hsweep, ?_⟩
  intro fuel w hsg hlt
  have hscan := scanLists_terminates env sg hsweep fuel (entered env w) hsg hlt
  unfold mCentral_CacheSpan
  rw [selectSpan_eq, hsg]
  split
  · exact havespan_ne_diverge env _ _
  · simp
  · simp
  · rename_i hsel
    split at hsel
    · rename_i hd
      exact absurd hd hscan
    · cases hsel
    · rename_i wn _
      have hg := grow_ne_diverge env wn
      split at hsel
      · rename_i hd
        exact absurd hd hg
      · cases hsel
      · cases hsel
      · cases hsel

theorem C20_witness :
    needSweep 4 (entered (envSweeping 4096 1) worldStale)
        (entered (envSweeping 4096 1) worldStale).empty = 1 ∧
      mCentral_CacheSpan (envSweeping 4096 1) 2 worldStale ≠ .diverge :=
  ⟨by decide,
    (C20_cacheSpan_terminates (envSweeping 4096 1) 4 (envSweeping_settles 4096 1)).2.2
      2 worldStale rfl (by decide)⟩

/-! ## Writes and the lock -/

theorem scanNonempty_trace (env : Env) (sg : Nat) (w : World) :
    ∀ (l : List Nat) (s : Nat) (w2 : World), scanNonempty env sg l w = some (s, w2) →
      w2.trace = w.trace ∧ w2.locked = false := by
  intro l
  induction l with
  | nil =>
    intro s w2 h
    simp [scanNonempty] at h
  | cons a l ih =>
    intro s w2 h
    rw [scanNonempty_cons] at h
    split_ifs at h
    · cases h
      exact ⟨rfl, rfl⟩
    · exact ih s w2 h
    · cases h
      exact ⟨rfl, rfl⟩

theorem scanEmpty_trace (env : Env) (sg : Nat) (w : World) :
    ∀ (l : List Nat),
      (∀ s w2, scanEmpty env sg l w = .havespan s w2 → w2.trace = w.trace ∧ w2.locked = false) ∧
      (∀ w2, scanEmpty env sg l w = .retry w2 → w2.trace = w.trace) := by
  intro l
  induction l with
  | nil =>
    constructor
    · intro s w2 h
      simp [scanEmpty] at h
    · intro w2 h
      simp [scanEmpty] at h
  | cons a l ih =>
    rw [scanEmpty_cons]
    constructor
    · intro s w2 h
      split_ifs at h
      · cases h
        exact ⟨rfl, rfl⟩
      · exact ih.1 s w2 h
    · intro w2 h
      split_ifs at h
      · cases h
        rfl
      · exact ih.2 w2 h

theorem scanLists_trace (env : Env) (sg : Nat) :
    ∀ (fuel : Nat) (w : World),
      (∀ s w2, scanLists env sg fuel w = .found s w2 →
        w2.trace = w.trace ∧ w2.locked = false) ∧
      (∀ w2, scanLists env sg fuel w = .nothing w2 →
        w2.trace = w.trace ∧ w2.locked = false) := by
  intro fuel
  induction fuel with
  | zero =>
    intro w
    constructor
    · intro s w2 h
      simp [scanLists] at h
    · intro w2 h
      simp [scanLists] at h
  | succ fuel ih =>
    intro w
    unfold scanLists
    split
    · rename_i s1 w1 hn
      constructor
      · intro s w2 h
        cases h
        exact scanNonempty_trace env sg w _ _ _ hn
      · intro w2 h
        cases h
    · split
      · rename_i s1 w1 he
        constructor
        · intro s w2 h
          cases h
          exact (scanEmpty_trace env sg w _).1 _ _ he
        · intro w2 h
          cases h
      · rename_i w1 he
        have ht := (scanEmpty_trace env sg w _).2 _ he
        constructor
        · intro s w2 h
          obtain ⟨h1, h2⟩ := (ih w1).1 s w2 h
          exact ⟨h1.trans ht, h2⟩
        · intro w2 h
          obtain ⟨h1, h2⟩ := (ih w1).2 w2 h
          exact ⟨h1.trans ht, h2⟩
      · constructor
        · intro s w2 h
          cases h
        · intro w2 h
          cases h
          exact ⟨rfl, rfl⟩

theorem carve_frame (size : Nat) :
    ∀ (k p tail : Nat) (w : World) (t : Nat) (w3 : World),
      carve size k p tail w = some (t, w3) →
      w3.trace = w.trace ∧ w3.locked = w.locked ∧ w3.nonempty = w.nonempty ∧
      w3.empty = w.empty ∧ w3.spans = w.spans := by
  intro k
  induction k with
  | zero =>
    intro p tail w t w3 h
    simp only [carve, Option.some.injEq, Prod.mk.injEq] at h
    rw [← h.2]
    exact ⟨rfl, rfl, rfl, rfl, rfl⟩
  | succ k ih =>
    intro p tail w t w3 h
    simp only [carve] at h
    split_ifs at h
    have h1 := ih _ _ _ _ _ h
    exact h1

theorem grow_trace (env : Env) (w : World) (r : Option Nat) (w1 : World)
    (h : mCentral_Grow env w = .ok r w1) :
    (r = none ∧ w1.trace = w.trace) ∨
    ∃ s k, r = some s ∧ w1.trace = w.trace ++ [.writeFreelist s w.locked k] := by
  unfold mCentral_Grow at h
  dsimp only at h
  split at h
  · cases h
  · split at h
    · cases h
      exact Or.inl ⟨rfl, rfl⟩
    · rename_i s st _
      split at h
      · cases h
      · rename_i t w3 hc
        obtain ⟨ht, hl, -⟩ := carve_frame _ _ _ _ _ _ _ hc
        split at h
        · cases h
        · split at h
          · cases h
          · cases h
            refine Or.inr ⟨s, (storeLink w3 t 0).linked s, rfl, ?_⟩
            simp only [setFreelist, World.modify, World.record, storeLink, ht, hl]
            rfl

theorem selectSpan_trace (env : Env) (fuel : Nat) (w : World) (r : Option Nat) (w1 : World)
    (h : selectSpan env fuel w = .ok r w1) :
    w1.trace = w.trace ∨
    ∃ s k, r = some s ∧ w1.trace = w.trace ++ [.writeFreelist s false k] := by
  rw [selectSpan_eq] at h
  split at h
  · cases h
  · rename_i s w2 hs
    cases h
    exact Or.inl ((scanLists_trace env _ fuel _).1 s _ hs).1
  · rename_i w2 hs
    obtain ⟨ht, hl⟩ := (scanLists_trace env _ fuel _).2 _ hs
    have ht2 : w2.trace = w.trace := ht
    split at h
    · cases h
    · cases h
    · rename_i w3 hg
      rcases grow_trace env w2 none w3 hg with ⟨-, h1⟩ | ⟨s, k, h1, -⟩
      · cases h
        exact Or.inl (h1.trans ht2)
      · cases h1
    · rename_i s w3 hg
      rcases grow_trace env w2 (some s) w3 hg with ⟨h1, -⟩ | ⟨s1, k, h1, h2⟩
      · cases h1
      · cases h1
        cases h
        refine Or.inr ⟨s, k, rfl, ?_⟩
        change w3.trace = _
        rw [h2, ht2, hl]

theorem freeSpan_trace (env : Env) (w : World) (s : Nat) (n : Int) (start end_ : Nat)
    (preserve r : Bool) (w1 : World)
    (h : mCentral_FreeSpan env w s n start end_ preserve = .ok r w1) :
    w1.trace = w.trace ++
      [.writeFreelist s w.locked (w.linked s), .writeRef s w.locked (w.linked s)] ++
      (if r = true then [.writeFreelist s true false, .heapFree s] else []) := by
  by_cases hcache : (w.spans s).incache = false
  · by_cases hend : end_ = 0
    · unfold mCentral_FreeSpan at h
      simp only [hcache, hend, if_true, Bool.false_eq_true, if_false] at h
      cases h
    · rw [freeSpan_unfold env w s n start end_ preserve hcache hend] at h
      split_ifs at h
      · cases h
        simp only [Bool.false_eq_true, if_false, List.append_nil]
        exact spliced_trace w s n start end_
      · cases h
        simp only [Bool.false_eq_true, if_false, List.append_nil]
        exact restamped_trace w s n start end_
      · cases h
        simp only [if_true]
        have : (handedToHeap env (unlinkedForHeap (restamped w s n start end_) s) s).trace
            = (unlinkedForHeap (restamped w s n start end_) s).trace ++ [.heapFree s] := rfl
        rw [this, (unlinkedForHeap_spec (restamped w s n start end_) s).2.2.2.2.2.1,
          restamped_locked, restamped_trace, List.append_assoc (w.trace ++ _)]
        rfl
  · unfold mCentral_FreeSpan at h
    have hc : (w.spans s).incache = true := by simpa using hcache
    simp only [hc, if_true] at h
    cases h

/-- C19 (as amended): with the list lock modelled as explicit state and every
write to a span's `ref` or free list recorded with the lock state and the list
membership at the time, `mCentral_UncacheSpan` records no such write;
`mCentral_CacheSpan` records none, or exactly one, the assignment of the free
list of the span fetched by `mCentral_Grow`, made with the lock released; and
`mCentral_FreeSpan` records its writes to the free list and `ref` of its span
(lines 158-160) with the lock state and the list membership it was entered
with: they are made before the lock is taken, whether or not the span is
linked.  Its only other such write is the clearing of the free list of a fully
freed span (line 194), made with the lock held and the span unlinked.  With
`preserve = true` the call ends in the lock state it was entered with. -/
theorem C19_writes_and_lock (env : Env) :
    (∀ w s w1, mCentral_UncacheSpan env w s = .ok () w1 → w1.trace = w.trace) ∧
    (∀ fuel w r w1, mCentral_CacheSpan env fuel w = .ok r w1 →
      w1.trace = w.trace ∨
      ∃ s k, r = some s ∧ w1.trace = w.trace ++ [.writeFreelist s false k]) ∧
    (∀ w s n start end_ preserve r w1,
      mCentral_FreeSpan env w s n start end_ preserve = .ok r w1 →
      w1.trace = w.trace ++
        [.writeFreelist s w.locked (w.linked s), .writeRef s w.locked (w.linked s)] ++
        (if r = true then [.writeFreelist s true false, .heapFree s] else [])) ∧
    (∀ w s n start end_ r w1,
      mCentral_FreeSpan env w s n start end_ true = .ok r w1 → w1.locked = w.locked) := by
  refine ⟨?_, ?_, ?_, ?_⟩
  · intro w s w1 h
    unfold mCentral_UncacheSpan at h
    dsimp only at h
    split at h
    · cases h
    · split at h
      · cases h
      · injection h with _ h2
        rw [← h2]
        split_ifs <;> rfl
  · intro fuel w r w1 h
    unfold mCentral_CacheSpan at h
    split at h
    · rename_i s w0 hsel
      obtain ⟨hr, hw, -⟩ := havespan_ok h
      have ht : w1.trace = w0.trace := by
        rw [hw]
        rfl
      rw [ht, hr]
      exact selectSpan_trace env fuel w (some s) w0 hsel
    · rename_i w0 hsel
      cases h
      exact selectSpan_trace env fuel w none _ hsel
    · cases h
    · cases h
  · intro w s n start end_ preserve r w1 h
    exact freeSpan_trace env w s n start end_ preserve r w1 h
  · intro w s n start end_ r w1 h
    obtain ⟨hcache, hend⟩ := freeSpan_ok_pre env w s n start end_ true r w1 h
    rw [freeSpan_unfold env w s n start end_ true hcache hend] at h
    simp only [if_true] at h
    split at h
    · cases h
    · injection h with _ h2
      rw [← h2]
      rfl

/-- C19 (as stated) fails: span 7 is linked in `empty` and the lock is not held
when `mCentral_FreeSpan` is entered; it writes the span's free list and `ref`
(lines 158-160) before `lock` (line 172). -/
theorem C19_counterexample :
    worldSweep.linked 7 = true ∧ worldSweep.locked = false ∧
    ∃ w1, mCentral_FreeSpan (envOf 16 2) worldSweep 7 12 6000 6176 false = .ok false w1 ∧
      w1.trace = [.writeFreelist 7 false true, .writeRef 7 false true] := by
  refine ⟨by decide, rfl, ?_⟩
  have h := freeSpan_unfold (envOf 16 2) worldSweep 7 12 6000 6176 false (by decide)
    (by decide)
  simp only [Bool.false_eq_true, if_false] at h
  rw [if_pos (by decide)] at h
  refine ⟨_, h, ?_⟩
  change (restamped worldSweep 7 12 6000 6176).trace = _
  rw [restamped_trace]
  rfl

/-! ## Exclusive claim of a span needing sweep -/

theorem uint32_pred2_ne_self (sg : Nat) (h : sg < 2 ^ 32) : (sg : Nat) ≠ uint32 (sg - 2) := by
  unfold uint32
  omega

theorem moveOn_inv (sg s : Nat) (r : Race) (i : Nat) (hi : ¬ (r.pc i).won)
    (h : r.Inv sg s) : (r.moveOn sg s i).Inv sg s := by
  obtain ⟨h1, h2, h3, h4⟩ := h
  have key : ∀ (c : Claimer), ¬ c.won → c ≠ .sweeping →
      Race.Inv sg s { r with pc := Function.update r.pc i c } := by
    intro c hc hcs
    refine ⟨h1, ?_, ?_, ?_⟩
    · intro a b ha hb
      by_cases hai : a = i
      · subst hai
        simp only [Function.update_same] at ha
        exact absurd ha hc
      · by_cases hbi : b = i
        · subst hbi
          simp only [Function.update_same] at hb
          exact absurd hb hc
        · simp only [Function.update_noteq hai] at ha
          simp only [Function.update_noteq hbi] at hb
          exact h2 a b ha hb
    · intro a ha
      by_cases hai : a = i
      · subst hai
        simp only [Function.update_same] at ha
        exact absurd ha hcs
      · simp only [Function.update_noteq hai] at ha
        exact h3 a ha
    · intro a ha
      by_cases hai : a = i
      · subst hai
        simp only [Function.update_same] at ha
        exact absurd ha hc
      · simp only [Function.update_noteq hai] at ha
        exact h4 a ha
  unfold Race.moveOn
  split_ifs
  · exact key .skipped (fun h => h) (by simp)
  · exact key .took (fun h => h) (by simp)

theorem step_inv (sg s : Nat) (hsg : sg < 2 ^ 32) (r : Race) (i : Nat) (h : r.Inv sg s) :
    (r.step sg s i).Inv sg s := by
  unfold Race.step
  split
  · rename_i hpc
    have hnw : ¬ (r.pc i).won := by
      rw [hpc]
      exact fun h => h
    split_ifs
    · obtain ⟨h1, h2, h3, h4⟩ := h
      refine ⟨h1, ?_, ?_, ?_⟩
      · intro a b ha hb
        by_cases hai : a = i
        · subst hai
          simp only [Function.update_same] at ha
          exact absurd ha (fun h => h)
        · by_cases hbi : b = i
          · subst hbi
            simp only [Function.update_same] at hb
            exact absurd hb (fun h => h)
          · simp only [Function.update_noteq hai] at ha
            simp only [Function.update_noteq hbi] at hb
            exact h2 a b ha hb
      · intro a ha
        by_cases hai : a = i
        · subst hai
          simp only [Function.update_same] at ha
          cases ha
        · simp only [Function.update_noteq hai] at ha
          exact h3 a ha
      · intro a ha
        by_cases hai : a = i
        · subst hai
          simp only [Function.update_same] at ha
          exact absurd ha (fun h => h)
        · simp only [Function.update_noteq hai] at ha
          exact h4 a ha
    · exact moveOn_inv sg s r i hnw h
  · rename_i hpc
    have hnw : ¬ (r.pc i).won := by
      rw [hpc]
      exact fun h => h
    by_cases hst : (r.w.spans s).sweepgen = uint32 (sg - 2)
    · obtain ⟨h1, h2, h3, h4⟩ := h
      have hnone : ∀ a, ¬ (r.pc a).won := fun a ha => h4 a ha hst
      have hcas : cas_sweepgen r.w s (uint32 (sg - 2)) (uint32 (sg - 1))
          = (true, atomicstore_sweepgen r.w s (uint32 (sg - 1))) := by
        simp [cas_sweepgen, hst]
      have hnew : ((atomicstore_sweepgen r.w s (uint32 (sg - 1))).spans s).sweepgen
          = uint32 (sg - 1) := by
        simp [atomicstore_sweepgen, World.modify]
      rw [hcas]
      simp only [if_true]
      refine ⟨h1, ?_, ?_, ?_⟩
      · intro a b ha hb
        by_cases hai : a = i
        · by_cases hbi : b = i
          · rw [hai, hbi]
          · simp only [Function.update_noteq hbi] at hb
            exact absurd hb (hnone b)
        · simp only [Function.update_noteq hai] at ha
          exact absurd ha (hnone a)
      · intro a _
        exact hnew
      · intro a _
        rw [hnew]
        exact Ne.symm (uint32_pred_ne sg)
    · have hcas : cas_sweepgen r.w s (uint32 (sg - 2)) (uint32 (sg - 1)) = (false, r.w) := by
        simp [cas_sweepgen, hst]
      rw [hcas]
      simp only [Bool.false_eq_true, if_false]
      exact moveOn_inv sg s r i hnw h
  · rename_i hpc
    obtain ⟨h1, h2, h3, h4⟩ := h
    have hwi : (r.pc i).won := by
      rw [hpc]
      trivial
    have hnew : ((atomicstore_sweepgen r.w s r.w.sweepgen).spans s).sweepgen = sg := by
      simp [atomicstore_sweepgen, World.modify, h1]
    refine ⟨h1, ?_, ?_, ?_⟩
    · intro a b ha hb
      have ha1 : (r.pc a).won := by
        by_cases hai : a = i
        · rw [hai]
          exact hwi
        · simpa only [Function.update_noteq hai] using ha
      have hb1 : (r.pc b).won := by
        by_cases hbi : b = i
        · rw [hbi]
          exact hwi
        · simpa only [Function.update_noteq hbi] using hb
      exact h2 a b ha1 hb1
    · intro a ha
      by_cases hai : a = i
      · subst hai
        simp only [Function.update_same] at ha
        cases ha
      · simp only [Function.update_noteq hai] at ha
        have hwa : (r.pc a).won := by
          rw [ha]
          trivial
        exact absurd (h2 a i hwa hwi) hai
    · intro a _
      rw [hnew]
      exact uint32_pred2_ne_self sg hsg
  · exact h
  · exact h
  · exact h

theorem run_inv (sg s : Nat) (hsg : sg < 2 ^ 32) :
    ∀ (schedule : List Nat) (r : Race), r.Inv sg s → (r.run sg s schedule).Inv sg s := by
  intro schedule
  induction schedule with
  | nil =>
    intro r h
    exact h
  | cons i rest ih =>
    intro r h
    exact ih (r.step sg s i) (step_inv sg s hsg r i h)

theorem start_inv (w : World) (s : Nat) : (Race.start w).Inv w.sweepgen s := by
  refine ⟨rfl, ?_, ?_, ?_⟩
  · intro i j hi _
    exact absurd hi (fun h => h)
  · intro i hi
    have : Claimer.scanning = Claimer.sweeping := hi
    cases this
  · intro i hi
    exact absurd hi (fun h => h)

/-- C15: for every span `s` and every interleaving (schedule) of the atomic
steps of concurrent callers that read the same global generation `sg`, at most
one caller wins the compare-and-swap that moves the stamp of `s` from `sg-2`
to `sg-1`, so no two callers are sweeping `s` at once; and while one caller is
sweeping, any other caller still at line 43 sees `sg-1` and skips the span at
its next step. -/
theorem C15_claim_exclusive (w : World) (s : Nat) (schedule : List Nat)
    (hsg : w.sweepgen < 2 ^ 32) :
    (∀ i j, ((Race.start w).run w.sweepgen s schedule).pc i = .sweeping →
      ((Race.start w).run w.sweepgen s schedule).pc j = .sweeping → i = j) ∧
    (∀ i j, (((Race.start w).run w.sweepgen s schedule).pc i).won →
      (((Race.start w).run w.sweepgen s schedule).pc j).won → i = j) ∧
    (∀ i j, ((Race.start w).run w.sweepgen s schedule).pc i = .sweeping →
      (((Race.start w).run w.sweepgen s schedule).pc j = .scanning ∨
        ((Race.start w).run w.sweepgen s schedule).pc j = .tested) →
      ((((Race.start w).run w.sweepgen s schedule).w.spans s).sweepgen
          = uint32 (w.sweepgen - 1) ∧
        ((((Race.start w).run w.sweepgen s schedule).step w.sweepgen s j).pc j
          = .skipped))) := by
  obtain ⟨h1, h2, h3, h4⟩ := run_inv w.sweepgen s hsg schedule (Race.start w) (start_inv w s)
  refine ⟨?_, h2, ?_⟩
  · intro i j hi hj
    apply h2 i j
    · rw [hi]
      trivial
    · rw [hj]
      trivial
  · intro i j hi hj
    have hst := h3 i hi
    refine ⟨hst, ?_⟩
    have hne : (((Race.start w).run w.sweepgen s schedule).w.spans s).sweepgen
        ≠ uint32 (w.sweepgen - 2) := by
      rw [hst]
      exact Ne.symm (uint32_pred_ne w.sweepgen)
    have hmove : (((Race.start w).run w.sweepgen s schedule).moveOn w.sweepgen s j).pc j
        = .skipped := by
      unfold Race.moveOn
      rw [if_pos hst]
      exact Function.update_same _ _ _
    rcases hj with hj | hj
    · unfold Race.step
      rw [hj]
      simp only [hne, if_false]
      exact hmove
    · unfold Race.step
      rw [hj]
      simp only [cas_sweepgen, hne, if_false, Bool.false_eq_true]
      exact hmove

theorem C15_witness :
    ((Race.start worldStale).run 4 7 [0, 1, 0, 1]).pc 0 = .sweeping ∧
    ((Race.start worldStale).run 4 7 [0, 1, 0, 1]).pc 1 = .skipped ∧
    (∀ i j, (((Race.start worldStale).run worldStale.sweepgen 7 [0, 1, 0, 1]).pc i).won →
      (((Race.start worldStale).run worldStale.sweepgen 7 [0, 1, 0, 1]).pc j).won → i = j) :=
  ⟨by decide, by decide,
    (C15_claim_exclusive worldStale 7 [0, 1, 0, 1] (by decide)).2.1⟩

/-! ## List membership -/

theorem nodup_handOut {ne em : List Nat} (s : Nat) (h : (ne ++ em).Nodup) :
    (ne.filter (fun x => x != s) ++ (em.filter (fun x => x != s) ++ [s])).Nodup := by
  rw [← List.append_assoc, ← List.filter_append]
  apply List.Nodup.append (h.filter _) (List.nodup_singleton s)
  intro x hx hs
  rw [List.mem_singleton] at hs
  subst hs
  simp [List.mem_filter] at hx

theorem nodup_toFront {ne em : List Nat} (s : Nat) (h : (ne ++ em).Nodup) :
    ((s :: ne.filter (fun x => x != s)) ++ em.filter (fun x => x != s)).Nodup := by
  rw [List.cons_append, ← List.filter_append, List.nodup_cons]
  refine ⟨?_, h.filter _⟩
  simp [List.mem_filter]

theorem nodup_removed {ne em : List Nat} (s : Nat) (h : (ne ++ em).Nodup) :
    (ne.filter (fun x => x != s) ++ em.filter (fun x => x != s)).Nodup := by
  rw [← List.filter_append]
  exact h.filter _

theorem nodup_toBack {ne em : List Nat} (s : Nat) (h : (ne ++ em).Nodup)
    (h1 : s ∉ ne) (h2 : s ∉ em) : (ne ++ (em ++ [s])).Nodup := by
  rw [← List.append_assoc]
  apply List.Nodup.append h (List.nodup_singleton s)
  intro x hx hs
  rw [List.mem_singleton] at hs
  subst hs
  rcases List.mem_append.1 hx with h | h
  · exact h1 h
  · exact h2 h

theorem scanNonempty_some (env : Env) (sg : Nat) (w : World) :
    ∀ (l : List Nat) (s : Nat) (w2 : World), scanNonempty env sg l w = some (s, w2) →
      s ∈ l ∧ (w.spans s).sweepgen ≠ uint32 (sg - 1) ∧
      (((w.spans s).sweepgen = uint32 (sg - 2) ∧ w2 = sweptOut env sg w s) ∨
        ((w.spans s).sweepgen ≠ uint32 (sg - 2) ∧ w2 = handOut w s)) := by
  intro l
  induction l with
  | nil =>
    intro s w2 h
    simp [scanNonempty] at h
  | cons a l ih =>
    intro s w2 h
    rw [scanNonempty_cons] at h
    by_cases h2 : (w.spans a).sweepgen = uint32 (sg - 2)
    · rw [if_pos h2] at h
      injection h with h
      injection h with ha hw
      subst ha
      refine ⟨List.mem_cons_self _ _, ?_, Or.inl ⟨h2, hw.symm⟩⟩
      rw [h2]
      exact uint32_pred_ne sg
    · rw [if_neg h2] at h
      by_cases h1 : (w.spans a).sweepgen = uint32 (sg - 1)
      · rw [if_pos h1] at h
        obtain ⟨hm, hr⟩ := ih s w2 h
        exact ⟨List.mem_cons_of_mem a hm, hr⟩
      · rw [if_neg h1] at h
        injection h with h
        injection h with ha hw
        subst ha
        exact ⟨List.mem_cons_self _ _, h1, Or.inr ⟨h2, hw.symm⟩⟩

theorem scanEmpty_havespan (env : Env) (sg : Nat) (w : World) :
    ∀ (l : List Nat) (s : Nat) (w2 : World), scanEmpty env sg l w = .havespan s w2 →
      s ∈ l ∧ (w.spans s).sweepgen = uint32 (sg - 2) ∧ w2 = sweptOut env sg w s ∧
      (w2.spans s).freelist ≠ 0 := by
  intro l
  induction l with
  | nil =>
    intro s w2 h
    simp [scanEmpty] at h
  | cons a l ih =>
    intro s w2 h
    rw [scanEmpty_cons] at h
    by_cases h2 : (w.spans a).sweepgen = uint32 (sg - 2)
    · rw [if_pos h2] at h
      split_ifs at h with hf
      injection h with ha hw
      subst ha
      subst hw
      exact ⟨List.mem_cons_self _ _, h2, rfl, hf⟩
    · rw [if_neg h2] at h
      split_ifs at h
      obtain ⟨hm, hr⟩ := ih s w2 h
      exact ⟨List.mem_cons_of_mem a hm, hr⟩

theorem handOut_lists (w : World) (s : Nat) :
    (handOut w s).nonempty = w.nonempty.filter (fun x => x != s) ∧
    (handOut w s).empty = w.empty.filter (fun x => x != s) ++ [s] := ⟨rfl, rfl⟩

theorem sweptOut_lists (env : Env) (hk : ListsKept env) (sg : Nat) (w : World) (s : Nat) :
    (sweptOut env sg w s).nonempty = w.nonempty.filter (fun x => x != s) ∧
    (sweptOut env sg w s).empty = w.empty.filter (fun x => x != s) ++ [s] := by
  obtain ⟨h1, h2⟩ := hk.2.1 (handOut (atomicstore_sweepgen w s (uint32 (sg - 1))) s).toStore s
  exact ⟨h1, h2⟩

theorem linked_of_out {w w2 : World} {s : Nat} (h : LinkedOnce w)
    (h1 : w2.nonempty = w.nonempty.filter (fun x => x != s))
    (h2 : w2.empty = w.empty.filter (fun x => x != s) ++ [s]) :
    LinkedOnce w2 ∧ s ∈ w2.empty ∧ s ∉ w2.nonempty := by
  unfold LinkedOnce
  rw [h1, h2]
  refine ⟨nodup_handOut s h, by simp, by simp [List.mem_filter]⟩

theorem scanLists_linked (env : Env) (hk : ListsKept env) (sg : Nat) :
    ∀ (fuel : Nat) (w : World), LinkedOnce w →
      (∀ s w2, scanLists env sg fuel w = .found s w2 →
        LinkedOnce w2 ∧ s ∈ w2.empty ∧ s ∉ w2.nonempty) ∧
      (∀ w2, scanLists env sg fuel w = .nothing w2 →
        w2.nonempty = w.nonempty ∧ LinkedOnce w2) := by
  intro fuel
  induction fuel with
  | zero =>
    intro w _
    constructor
    · intro s w2 h
      simp [scanLists] at h
    · intro w2 h
      simp [scanLists] at h
  | succ fuel ih =>
    intro w hw
    unfold scanLists
    split
    · rename_i s1 w1 hn
      constructor
      · intro s w2 h
        injection h with hs hw2
        subst hs
        subst hw2
        obtain ⟨-, -, ⟨-, rfl⟩ | ⟨-, rfl⟩⟩ := scanNonempty_some env sg w _ _ _ hn
        · exact linked_of_out hw (sweptOut_lists env hk sg w s1).1
            (sweptOut_lists env hk sg w s1).2
        · exact linked_of_out hw rfl rfl
      · intro w2 h
        cases h
    · rename_i hn
      split
      · rename_i s1 w1 he
        constructor
        · intro s w2 h
          injection h with hs hw2
          subst hs
          subst hw2
          obtain ⟨-, -, rfl, -⟩ := scanEmpty_havespan env sg w _ _ _ he
          exact linked_of_out hw (sweptOut_lists env hk sg w s1).1
            (sweptOut_lists env hk sg w s1).2
        · intro w2 h
          cases h
      · rename_i w1 he
        obtain ⟨s1, hmem, hst, rfl⟩ := scanEmpty_retry env sg w _ _ he
        have hl : LinkedOnce (lock (sweptOut env sg w s1)) ∧
            s1 ∈ (lock (sweptOut env sg w s1)).empty ∧
            s1 ∉ (lock (sweptOut env sg w s1)).nonempty :=
          linked_of_out hw (sweptOut_lists env hk sg w s1).1 (sweptOut_lists env hk sg w s1).2
        have hnotin : s1 ∉ w.nonempty := by
          intro hin
          have h1 := (scanNonempty_none_iff env sg w w.nonempty).1 hn s1 hin
          rw [hst] at h1
          exact uint32_pred_ne sg h1
        have hne : (lock (sweptOut env sg w s1)).nonempty = w.nonempty := by
          have := (sweptOut_lists env hk sg w s1).1
          change (sweptOut env sg w s1).nonempty = w.nonempty
          rw [this, List.filter_eq_self]
          intro x hx
          have : x ≠ s1 := fun h => hnotin (h ▸ hx)
          simpa using this
        constructor
        · intro s w2 h
          exact (ih _ hl.1).1 s w2 h
        · intro w2 h
          obtain ⟨h1, h2⟩ := (ih _ hl.1).2 w2 h
          exact ⟨h1.trans hne, h2⟩
      · constructor
        · intro s w2 h
          cases h
        · intro w2 h
          injection h with h
          subst h
          exact ⟨rfl, hw⟩

theorem grow_lists (env : Env) (hk : ListsKept env) (w : World) (r : Option Nat) (w1 : World)
    (h : mCentral_Grow env w = .ok r w1) :
    w1.nonempty = w.nonempty ∧ w1.empty = w.empty ∧ w1.locked = w.locked ∧
    ∀ s, r = some s → s ∉ w.nonempty ∧ s ∉ w.empty := by
  unfold mCentral_Grow at h
  dsimp only at h
  split at h
  · cases h
  · split at h
    · rename_i st halloc
      injection h with hr hw
      subst hr
      subst hw
      have := hk.2.2.1 w.toStore (uintptr (env.class_to_allocnpages w.sizeclass)) w.sizeclass
      rw [halloc] at this
      exact ⟨this.1, this.2.1, rfl, fun s hs => by cases hs⟩
    · rename_i s st halloc
      have hal := hk.2.2.1 w.toStore (uintptr (env.class_to_allocnpages w.sizeclass))
        w.sizeclass
      rw [halloc] at hal
      split at h
      · cases h
      · rename_i t w3 hc
        obtain ⟨-, hl, h1, h2, -⟩ := carve_frame _ _ _ _ _ _ _ hc
        split at h
        · cases h
        · split at h
          · cases h
          · injection h with hr hw
            subst hr
            subst hw
            refine ⟨?_, ?_, ?_, ?_⟩
            · change w3.nonempty = _
              rw [h1]
              exact hal.1
            · change w3.empty = _
              rw [h2]
              exact hal.2.1
            · change w3.locked = _
              rw [hl]
              rfl
            · intro s1 hs1
              injection hs1 with hs1
              subst hs1
              exact hal.2.2 s rfl

theorem selectSpan_linked (env : Env) (hk : ListsKept env) (fuel : Nat) (w : World)
    (r : Option Nat) (w1 : World) (hw : LinkedOnce w)
    (h : selectSpan env fuel w = .ok r w1) :
    LinkedOnce w1 ∧ ∀ s, r = some s → s ∈ w1.empty ∧ s ∉ w1.nonempty := by
  have hent : LinkedOnce (entered env w) := by
    obtain ⟨h1, h2⟩ := hk.1 w.toStore (uintptr (env.class_to_size w.sizeclass))
    unfold LinkedOnce
    change ((env.deductSweepCredit w.toStore _).nonempty ++
      (env.deductSweepCredit w.toStore _).empty).Nodup
    rw [h1, h2]
    exact hw
  rw [selectSpan_eq] at h
  split at h
  · cases h
  · rename_i s w2 hs
    injection h with hr hw1
    subst hr
    subst hw1
    obtain ⟨h1, h2, h3⟩ := (scanLists_linked env hk _ fuel _ hent).1 s w2 hs
    refine ⟨h1, ?_⟩
    intro s1 hs1
    injection hs1 with hs1
    subst hs1
    exact ⟨h2, h3⟩
  · rename_i w2 hs
    obtain ⟨-, hl2⟩ := (scanLists_linked env hk _ fuel _ hent).2 w2 hs
    split at h
    · cases h
    · cases h
    · rename_i w3 hg
      obtain ⟨g1, g2, -, -⟩ := grow_lists env hk w2 none w3 hg
      injection h with hr hw1
      subst hr
      subst hw1
      refine ⟨?_, fun s hs1 => by cases hs1⟩
      unfold LinkedOnce
      rw [g1, g2]
      exact hl2
    · rename_i s w3 hg
      obtain ⟨g1, g2, -, g4⟩ := grow_lists env hk w2 (some s) w3 hg
      obtain ⟨n1, n2⟩ := g4 s rfl
      injection h with hr hw1
      subst hr
      subst hw1
      have e1 : (unlock (mSpanList_InsertBack (lock w3) .empty s)).nonempty = w2.nonempty := g1
      have e2 : (unlock (mSpanList_InsertBack (lock w3) .empty s)).empty = w2.empty ++ [s] := by
        change w3.empty ++ [s] = _
        rw [g2]
      refine ⟨?_, ?_⟩
      · unfold LinkedOnce
        rw [e1, e2]
        exact nodup_toBack s hl2 n1 n2
      · intro s1 hs1
        injection hs1 with hs1
        subst hs1
        rw [e1, e2]
        exact ⟨by simp, n1⟩

theorem cacheSpan_linked (env : Env) (hk : ListsKept env) (fuel : Nat) (w : World)
    (r : Option Nat) (w1 : World) (hw : LinkedOnce w)
    (h : mCentral_CacheSpan env fuel w = .ok r w1) :
    LinkedOnce w1 ∧
      ∀ s, r = some s → (w1.spans s).incache = true ∧ s ∈ w1.empty ∧ s ∉ w1.nonempty := by
  unfold mCentral_CacheSpan at h
  split at h
  · rename_i s w0 hsel
    obtain ⟨hr, hw1, -⟩ := havespan_ok h
    obtain ⟨h1, h2⟩ := selectSpan_linked env hk fuel w (some s) w0 hw hsel
    subst hr
    subst hw1
    refine ⟨h1, ?_⟩
    intro s1 hs1
    injection hs1 with hs1
    subst hs1
    exact ⟨by simp, h2 s rfl⟩
  · rename_i w0 hsel
    injection h with hr hw1
    subst hr
    subst hw1
    exact ⟨(selectSpan_linked env hk fuel w none _ hw hsel).1, fun s hs => by cases hs⟩
  · cases h
  · cases h

theorem uncacheSpan_linked (env : Env) (w : World) (s : Nat) (w1 : World)
    (hw : LinkedOnce w) (h : mCentral_UncacheSpan env w s = .ok () w1) : LinkedOnce w1 := by
  unfold mCentral_UncacheSpan at h
  dsimp only at h
  split at h
  · cases h
  · split at h
    · cases h
    · injection h with _ h2
      rw [← h2]
      split_ifs
      · exact nodup_toFront s hw
      · exact hw

theorem freeSpan_linked (env : Env) (hk : ListsKept env) (w : World) (s : Nat) (n : Int)
    (start end_ : Nat) (preserve r : Bool) (w1 : World) (hw : LinkedOnce w)
    (h : mCentral_FreeSpan env w s n start end_ preserve = .ok r w1) : LinkedOnce w1 := by
  by_cases hcache : (w.spans s).incache = false
  · by_cases hend : end_ = 0
    · unfold mCentral_FreeSpan at h
      simp only [hcache, hend, if_true, Bool.false_eq_true, if_false] at h
      cases h
    · rw [freeSpan_unfold env w s n start end_ preserve hcache hend] at h
      have hre : LinkedOnce (restamped w s n start end_) := by
        have hl := restamped_lists w s n start end_
        unfold LinkedOnce
        by_cases hfl : (w.spans s).freelist = 0
        · rw [(hl.1 hfl).1, (hl.1 hfl).2]
          exact nodup_toFront s hw
        · rw [(hl.2 hfl).1, (hl.2 hfl).2]
          exact hw
      split_ifs at h
      · injection h with _ h2
        rw [← h2]
        exact hw
      · injection h with _ h2
        rw [← h2]
        exact hre
      · injection h with _ h2
        rw [← h2]
        obtain ⟨f1, f2⟩ := hk.2.2.2
          ({ unlinkedForHeap (restamped w s n start end_) s with
             heapBits := env.initSpan (unlinkedForHeap (restamped w s n start end_) s).heapBits
               ((unlinkedForHeap (restamped w s n start end_) s).spans s) } : World).toStore s
        unfold LinkedOnce
        change ((env.mHeap_Free _ s).nonempty ++ (env.mHeap_Free _ s).empty).Nodup
        rw [f1, f2]
        exact nodup_removed s hre
  · unfold mCentral_FreeSpan at h
    have hc : (w.spans s).incache = true := by simpa using hcache
    simp only [hc, if_true] at h
    cases h

theorem reachable_linked (env : Env) (hk : ListsKept env) (w : World)
    (h : Reachable env w) : LinkedOnce w := by
  induction h with
  | init w sc => exact List.nodup_nil
  | cacheSpan fuel r w1 _ hc ih => exact (cacheSpan_linked env hk fuel _ r w1 ih hc).1
  | uncacheSpan s w1 _ hc ih => exact uncacheSpan_linked env _ s w1 ih hc
  | freeSpan s n start end_ preserve r w1 _ hc ih =>
    exact freeSpan_linked env hk _ s n start end_ preserve r w1 ih hc
  | grow r w1 _ hc ih =>
    obtain ⟨g1, g2, -⟩ := grow_lists env hk _ r w1 hc
    unfold LinkedOnce
    rw [g1, g2]
    exact ih

theorem envOnce_listsKept (size npages : Nat) : ListsKept (envOnce size npages) := by
  refine ⟨fun _ _ => ⟨rfl, rfl⟩, fun _ _ => ⟨rfl, rfl⟩, ?_, fun _ _ => ⟨rfl, rfl⟩⟩
  intro st np sc
  by_cases h : 7 ∈ st.nonempty ∨ 7 ∈ st.empty
  · have e : (envOnce size npages).mHeap_Alloc st np sc = (none, st) := if_pos h
    rw [e]
    exact ⟨rfl, rfl, fun s hs => by cases hs⟩
  · have e : (envOnce size npages).mHeap_Alloc st np sc
        = (envOf size npages).mHeap_Alloc st np 0 := if_neg h
    rw [e]
    refine ⟨rfl, rfl, ?_⟩
    intro s hs
    have hs7 : some 7 = some s := hs
    injection hs7 with hs7
    subst hs7
    exact ⟨fun h1 => h (Or.inl h1), fun h1 => h (Or.inr h1)⟩

/-- C4 (as amended): when the collaborators leave the lists alone and the heap
supplies unlinked spans, in every state reachable from `mCentral_Init` through
the four operations every span is linked at most once and in at most one of
the two lists: it is in `nonempty` only, in `empty` only, or in neither.  A span
checked out to a cache stays linked: a span returned by `mCentral_CacheSpan`
has `incache = true` and is linked in `empty`, and not in `nonempty`. -/
theorem C4_membership (env : Env) (hk : ListsKept env) :
    (∀ w, Reachable env w →
      LinkedOnce w ∧ ∀ x, ¬ (x ∈ w.nonempty ∧ x ∈ w.empty)) ∧
    (∀ w fuel s w1, Reachable env w → mCentral_CacheSpan env fuel w = .ok (some s) w1 →
      (w1.spans s).incache = true ∧ s ∈ w1.empty ∧ s ∉ w1.nonempty) := by
  constructor
  · intro w hw
    have h := reachable_linked env hk w hw
    refine ⟨h, ?_⟩
    intro x hx
    exact (List.nodup_append.1 h).2.2 hx.1 hx.2
  · intro w fuel s w1 hw hc
    exact (cacheSpan_linked env hk fuel w (some s) w1 (reachable_linked env hk w hw) hc).2 s rfl

theorem C4_witness :
    ∃ w1, mCentral_CacheSpan (envOnce 2048 1) 1 (mCentral_Init world0 3) = .ok (some 7) w1 ∧
      (w1.spans 7).incache = true ∧ 7 ∈ w1.empty ∧ 7 ∉ w1.nonempty :=
  ⟨_, rfl, (C4_membership (envOnce 2048 1) (envOnce_listsKept 2048 1)).2
    (mCentral_Init world0 3) 1 7 _ (Reachable.init world0 3) rfl⟩

/-- C4 (as stated) fails: the span that `mCentral_CacheSpan` returns from the
initial state has `incache = true` and is linked in `empty`; it is not
unlinked from both lists. -/
theorem C4_counterexample :
    ∃ w1, mCentral_CacheSpan (envOnce 2048 1) 1 (mCentral_Init world0 3) = .ok (some 7) w1 ∧
      Reachable (envOnce 2048 1) w1 ∧ (w1.spans 7).incache = true ∧ w1.empty = [7] :=
  ⟨_, rfl, Reachable.cacheSpan 1 (some 7) _ (Reachable.init world0 3) rfl, rfl, rfl⟩

/-! ## The free-list invariant -/

theorem carve_tail (size : Nat) :
    ∀ (k p tail : Nat) (w : World) (t : Nat) (w3 : World),
      carve size k p tail w = some (t, w3) → (k = 0 → t = tail) ∧ (k ≠ 0 → tail ≠ 0) := by
  intro k
  cases k with
  | zero =>
    intro p tail w t w3 h
    simp only [carve, Option.some.injEq, Prod.mk.injEq] at h
    exact ⟨fun _ => h.1.symm, fun h0 => absurd rfl h0⟩
  | succ k =>
    intro p tail w t w3 h
    simp only [carve] at h
    split_ifs at h with ht
    exact ⟨fun h0 => (by cases h0), fun _ => ht⟩

theorem grow_spans (env : Env) (w : World) (s : Nat) (w1 : World)
    (h : mCentral_Grow env w = .ok (some s) w1) :
    (env.mHeap_Alloc w.toStore (uintptr (env.class_to_allocnpages w.sizeclass))
      w.sizeclass).1 = some s ∧
    (w1.spans s).freelist ≠ 0 ∧
    ((w1.spans s).ref =
        ((env.mHeap_Alloc w.toStore (uintptr (env.class_to_allocnpages w.sizeclass))
          w.sizeclass).2.spans s).ref ∧
      (w1.spans s).npages =
        ((env.mHeap_Alloc w.toStore (uintptr (env.class_to_allocnpages w.sizeclass))
          w.sizeclass).2.spans s).npages ∧
      (w1.spans s).elemsize =
        ((env.mHeap_Alloc w.toStore (uintptr (env.class_to_allocnpages w.sizeclass))
          w.sizeclass).2.spans s).elemsize) ∧
    (∀ x, x ≠ s → w1.spans x =
      (env.mHeap_Alloc w.toStore (uintptr (env.class_to_allocnpages w.sizeclass))
        w.sizeclass).2.spans x) := by
  unfold mCentral_Grow at h
  dsimp only at h
  split at h
  · cases h
  · split at h
    · cases h
    · rename_i s0 st halloc
      rw [halloc]
      split at h
      · cases h
      · rename_i t w3 hc
        obtain ⟨-, -, -, -, hsp⟩ := carve_frame _ _ _ _ _ _ _ hc
        obtain ⟨ht0, htk⟩ := carve_tail _ _ _ _ _ _ _ hc
        split at h
        · cases h
        · rename_i hfl
          split at h
          · cases h
          · rename_i htail
            injection h with hr hw
            injection hr with hr
            subst hr
            subst hw
            have hp : uintptr (((w.withStore st).spans s0).start * 2 ^ env.PageShift) ≠ 0 := by
              by_cases hk : uintptr (uintptr (env.class_to_allocnpages w.sizeclass) *
                  2 ^ env.PageShift) / uintptr (env.class_to_size w.sizeclass) - 1 = 0
              · rw [← ht0 hk]
                exact htail
              · exact htk hk
            refine ⟨rfl, ?_, ?_, ?_⟩
            · simp only [setFreelist, World.modify, World.record, storeLink,
                Function.update_same]
              exact hp
            · simp only [setFreelist, World.modify, World.record, storeLink,
                Function.update_same, hsp, World.withStore, and_self]
            · intro x hx
              simp only [setFreelist, World.modify, World.record, storeLink,
                Function.update_noteq hx, hsp, World.withStore]

theorem sweptOut_spans (env : Env) (sg : Nat) (Q : mspan → Prop)
    (hstamp : ∀ sp v, Q sp → Q { sp with sweepgen := v })
    (hsweep : ∀ st s x, Q (st.spans x) → Q ((env.mSpan_Sweep st s).spans x))
    (w : World) (s x : Nat) (h : Q (w.spans x)) : Q ((sweptOut env sg w s).spans x) := by
  apply hsweep
  change Q ((atomicstore_sweepgen w s (uint32 (sg - 1))).spans x)
  unfold atomicstore_sweepgen World.modify
  by_cases hx : x = s
  · subst hx
    simp only [Function.update_same]
    exact hstamp _ _ h
  · simp only [Function.update_noteq hx]
    exact h

theorem scanLists_spans (env : Env) (sg : Nat) (Q : mspan → Prop)
    (hstamp : ∀ sp v, Q sp → Q { sp with sweepgen := v })
    (hsweep : ∀ st s x, Q (st.spans x) → Q ((env.mSpan_Sweep st s).spans x)) :
    ∀ (fuel : Nat) (w : World),
      (∀ s w2, scanLists env sg fuel w = .found s w2 → ∀ x, Q (w.spans x) → Q (w2.spans x)) ∧
      (∀ w2, scanLists env sg fuel w = .nothing w2 → ∀ x, Q (w.spans x) → Q (w2.spans x)) := by
  intro fuel
  induction fuel with
  | zero =>
    intro w
    constructor
    · intro s w2 h
      simp [scanLists] at h
    · intro w2 h
      simp [scanLists] at h
  | succ fuel ih =>
    intro w
    unfold scanLists
    split
    · rename_i s1 w1 hn
      constructor
      · intro s w2 h x hx
        injection h with hs hw2
        subst hs
        subst hw2
        obtain ⟨-, -, ⟨-, rfl⟩ | ⟨-, rfl⟩⟩ := scanNonempty_some env sg w _ _ _ hn
        · exact sweptOut_spans env sg Q hstamp hsweep w s1 x hx
        · exact hx
      · intro w2 h
        cases h
    · split
      · rename_i s1 w1 he
        constructor
        · intro s w2 h x hx
          injection h with hs hw2
          subst hs
          subst hw2
          obtain ⟨-, -, rfl, -⟩ := scanEmpty_havespan env sg w _ _ _ he
          exact sweptOut_spans env sg Q hstamp hsweep w s1 x hx
        · intro w2 h
          cases h
      · rename_i w1 he
        obtain ⟨s1, -, -, rfl⟩ := scanEmpty_retry env sg w _ _ he
        constructor
        · intro s w2 h x hx
          exact (ih _).1 s w2 h x (sweptOut_spans env sg Q hstamp hsweep w s1 x hx)
        · intro w2 h x hx
          exact (ih _).2 w2 h x (sweptOut_spans env sg Q hstamp hsweep w s1 x hx)
      · constructor
        · intro s w2 h
          cases h
        · intro w2 h x hx
          injection h with h
          subst h
          exact hx

theorem freeInv_congr (env : Env) (sp1 sp2 : mspan) (h1 : sp1.freelist = sp2.freelist)
    (h2 : sp1.ref = sp2.ref) (h3 : sp1.npages = sp2.npages) (h4 : sp1.elemsize = sp2.elemsize) :
    FreeInv env sp1 ↔ FreeInv env sp2 := by
  unfold FreeInv capacity
  rw [h1, h2, h3, h4]

theorem grow_establishes (env : Env) (hk : KeepsFreeInv env) (w : World) (s : Nat)
    (w1 : World) (h : mCentral_Grow env w = .ok (some s) w1) : FreeInv env (w1.spans s) := by
  obtain ⟨ha, hfl, ⟨hr, hn, he⟩, -⟩ := grow_spans env w s w1 h
  obtain ⟨h0, hc⟩ := hk.2.2.2 w.toStore s ha
  have hcap : capacity env (w1.spans s) = capacity env
      ((env.mHeap_Alloc w.toStore (uintptr (env.class_to_allocnpages w.sizeclass))
        w.sizeclass).2.spans s) := by
    unfold capacity
    rw [hn, he]
  unfold FreeInv
  rw [hcap, hr, h0]
  constructor
  · intro h1
    exact absurd h1 hfl
  · intro h1
    exact absurd h1.symm hc

theorem ref_after_ne (c : Int) (r : Nat) (n : Int) (h1 : 1 ≤ n) (h2 : n ≤ r)
    (hr : r < 2 ^ 16) (hle : (r : Int) ≤ c) :
    ((uint16 ((r : Int) - (uint16 n : Nat)) : Nat) : Int) ≠ c := by
  have := uint16_sub r n (by omega) h2 hr
  omega

theorem selectSpan_freeInv (env : Env) (hk : KeepsFreeInv env) (fuel : Nat) (w : World)
    (r : Option Nat) (w1 : World) (h : selectSpan env fuel w = .ok r w1) (x : Nat)
    (hx : FreeInv env (w.spans x)) : FreeInv env (w1.spans x) := by
  have hent : FreeInv env ((entered env w).spans x) := hk.1 _ _ x hx
  have hscan := scanLists_spans env (entered env w).sweepgen (FreeInv env)
    (fun _ _ h => h) hk.2.1 fuel (entered env w)
  rw [selectSpan_eq] at h
  split at h
  · cases h
  · rename_i s w2 hs
    injection h with _ hw1
    subst hw1
    exact hscan.1 s w2 hs x hent
  · rename_i w2 hs
    have h2 := hscan.2 w2 hs x hent
    split at h
    · cases h
    · cases h
    · rename_i w3 hg
      injection h with _ hw1
      subst hw1
      obtain ⟨-, ha, he⟩ := (grow_nil_iff env w2 w3).1 hg
      rw [he]
      apply hk.2.2.1 w2.toStore x _ h2
      rw [ha]
      exact fun h => by cases h
    · rename_i s w3 hg
      injection h with _ hw1
      subst hw1
      change FreeInv env (w3.spans x)
      by_cases hxs : x = s
      · subst hxs
        exact grow_establishes env hk w2 x w3 hg
      · obtain ⟨ha, -, -, hoth⟩ := grow_spans env w2 s w3 hg
        rw [hoth x hxs]
        apply hk.2.2.1 w2.toStore x _ h2
        rw [ha]
        intro h
        injection h with h
        exact hxs h.symm

theorem cacheSpan_freeInv (env : Env) (hk : KeepsFreeInv env) (fuel : Nat) (w : World)
    (r : Option Nat) (w1 : World) (h : mCentral_CacheSpan env fuel w = .ok r w1) (x : Nat)
    (hx : FreeInv env (w.spans x)) : FreeInv env (w1.spans x) := by
  unfold mCentral_CacheSpan at h
  split at h
  · rename_i s w0 hsel
    obtain ⟨-, hw1, -⟩ := havespan_ok h
    subst hw1
    have h0 := selectSpan_freeInv env hk fuel w (some s) w0 hsel x hx
    unfold setIncache World.modify
    by_cases hxs : x = s
    · subst hxs
      simp only [Function.update_same]
      exact h0
    · simp only [Function.update_noteq hxs]
      exact h0
  · rename_i w0 hsel
    injection h with _ hw1
    subst hw1
    exact selectSpan_freeInv env hk fuel w none _ hsel x hx
  · cases h
  · cases h

theorem uncacheSpan_freeInv (env : Env) (w : World) (s : Nat) (w1 : World)
    (h : mCentral_UncacheSpan env w s = .ok () w1) (x : Nat)
    (hx : FreeInv env (w.spans x)) : FreeInv env (w1.spans x) := by
  have key : FreeInv env ((setIncache (lock w) s false).spans x) := by
    unfold setIncache World.modify
    by_cases hxs : x = s
    · subst hxs
      simp only [Function.update_same]
      exact hx
    · simp only [Function.update_noteq hxs]
      exact hx
  unfold mCentral_UncacheSpan at h
  dsimp only at h
  split at h
  · cases h
  · split at h
    · cases h
    · injection h with _ h2
      rw [← h2]
      split_ifs
      · exact key
      · exact key

theorem freeSpan_false_spans (env : Env) (w : World) (s : Nat) (n : Int) (start end_ : Nat)
    (preserve : Bool) (w1 : World)
    (h : mCentral_FreeSpan env w s n start end_ preserve = .ok false w1) :
    w1.spans s = { w.spans s with freelist := start,
                                  ref := uint16 (((w.spans s).ref : Int) - (uint16 n : Nat)),
                                  sweepgen := w.sweepgen } ∧
      ∀ x, x ≠ s → w1.spans x = w.spans x := by
  have hcache : (w.spans s).incache = false := by
    by_contra hc
    unfold mCentral_FreeSpan at h
    rw [if_pos (by simpa using hc)] at h
    cases h
  have hend : end_ ≠ 0 := by
    intro he
    unfold mCentral_FreeSpan at h
    rw [if_neg (by simp [hcache])] at h
    dsimp only at h
    rw [if_pos he] at h
    cases h
  rw [freeSpan_unfold env w s n start end_ preserve hcache hend] at h
  have hoth : ∀ x, x ≠ s → (restamped w s n start end_).spans x = w.spans x := by
    intro x hx
    unfold restamped atomicstore_sweepgen World.modify
    simp only [Function.update_noteq hx, (relinked_spans w s n start end_).1]
    exact spliced_spans_other w s n start end_ x hx
  split at h
  · split at h
    · cases h
    · injection h with _ h2
      subst h2
      refine ⟨preserved_spans_same w s n start end_, ?_⟩
      intro x hx
      unfold atomicstore_sweepgen World.modify
      simp only [Function.update_noteq hx]
      exact spliced_spans_other w s n start end_ x hx
  · split at h
    · injection h with _ h2
      subst h2
      exact ⟨restamped_spans_same w s n start end_, hoth⟩
    · injection h with h1 _
      cases h1

/-- C14 (as amended): with collaborators that leave the invariant alone and a
heap that hands out spans with `ref = 0` and a non-zero capacity, the invariant
"free list empty iff `ref` equals capacity" is established by `mCentral_Grow`
on the span it returns, is kept for every span by `mCentral_CacheSpan` and
`mCentral_UncacheSpan`, and is kept for every span by every
`mCentral_FreeSpan` call that returns false (either `preserve` setting) when
the batch is non-nil and holds between one and `ref` objects of a span whose
`ref` does not exceed its capacity. -/
theorem C14_freeInv_preserved (env : Env) (hk : KeepsFreeInv env) :
    (∀ w s w1, mCentral_Grow env w = .ok (some s) w1 → FreeInv env (w1.spans s)) ∧
    (∀ fuel w r w1, mCentral_CacheSpan env fuel w = .ok r w1 →
      ∀ x, FreeInv env (w.spans x) → FreeInv env (w1.spans x)) ∧
    (∀ w s w1, mCentral_UncacheSpan env w s = .ok () w1 →
      ∀ x, FreeInv env (w.spans x) → FreeInv env (w1.spans x)) ∧
    (∀ w s n start end_ preserve w1,
      mCentral_FreeSpan env w s n start end_ preserve = .ok false w1 →
      start ≠ 0 → 1 ≤ n → n ≤ (w.spans s).ref → (w.spans s).ref < 2 ^ 16 →
      ((w.spans s).ref : Int) ≤ capacity env (w.spans s) →
      ∀ x, FreeInv env (w.spans x) → FreeInv env (w1.spans x)) := by
  refine ⟨fun w s w1 h => grow_establishes env hk w s w1 h,
    fun fuel w r w1 h x hx => cacheSpan_freeInv env hk fuel w r w1 h x hx,
    fun w s w1 h x hx => uncacheSpan_freeInv env w s w1 h x hx, ?_⟩
  intro w s n start end_ preserve w1 h hstart hn1 hnref href16 hle x hx
  obtain ⟨hs, hoth⟩ := freeSpan_false_spans env w s n start end_ preserve w1 h
  by_cases hxs : x = s
  · subst hxs
    have hne := ref_after_ne (capacity env (w.spans x)) (w.spans x).ref n hn1 hnref href16 hle
    rw [hs]
    unfold FreeInv
    constructor
    · intro h0
      exact absurd h0 hstart
    · intro h0
      exact absurd h0 hne
  · rw [hoth x hxs]
    exact hx

theorem C14_witness :
    KeepsFreeInv (envOf 2048 1) ∧
    ∃ w1, mCentral_Grow (envOf 2048 1) (mCentral_Init world0 3) = .ok (some 7) w1 ∧
      FreeInv (envOf 2048 1) (w1.spans 7) := by
  have hk : KeepsFreeInv (envOf 2048 1) := by
    refine ⟨fun st n x h => h, fun st s x h => h, ?_, ?_⟩
    · intro st x hne h
      have hx : x ≠ 7 := fun hx => hne (by rw [hx]; rfl)
      change FreeInv _ (Function.update st.spans 7 _ x)
      rw [Function.update_noteq hx]
      exact h
    · intro st s hs
      have hs7 : s = 7 := by
        have h7 : some 7 = some s := hs
        injection h7 with h7
        exact h7.symm
      subst hs7
      refine ⟨rfl, ?_⟩
      change int32 ((uintptr (uintptr 1 * 2 ^ 12) / 2048 : Nat) : Int) ≠ 0
      decide
  have hg : ∃ w1, mCentral_Grow (envOf 2048 1) (mCentral_Init world0 3) = .ok (some 7) w1 :=
    ⟨_, rfl⟩
  obtain ⟨w1, hg⟩ := hg
  exact ⟨hk, w1, hg, (C14_freeInv_preserved (envOf 2048 1) hk).1 _ 7 w1 hg⟩

/-- C14 (as stated) fails on the heap-return path: span 7 satisfies the
invariant (empty free list, `ref = 1 =` capacity); freeing its one object
with `preserve = false` hands the span to the heap with `ref = 0` and an empty
free list, while its capacity is still 1. -/
theorem C14_counterexample :
    FreeInv (envOf 4096 1) (worldLast.spans 7) ∧
    ∃ w1, mCentral_FreeSpan (envOf 4096 1) worldLast 7 1 4096 4096 false = .ok true w1 ∧
      (w1.spans 7).freelist = 0 ∧ (w1.spans 7).ref = 0 ∧
      capacity (envOf 4096 1) (w1.spans 7) = 1 ∧
      ¬ FreeInv (envOf 4096 1) (w1.spans 7) :=
  ⟨by decide, _, rfl, rfl, rfl, by decide, by decide⟩

theorem out_inv {w w2 : World} {s : Nat} (h : ListInv w)
    (h1 : w2.nonempty = w.nonempty.filter (fun x => x != s))
    (h2 : w2.empty = w.empty.filter (fun x => x != s) ++ [s])
    (hs : ∀ x, x ≠ s → SameClass (w2.spans x) (w.spans x)) : ListInvBut w2 s := by
  constructor
  · intro x hx
    rw [h1, List.mem_filter] at hx
    have hxs : x ≠ s := by simpa using hx.2
    rw [(hs x hxs).1]
    exact h.1 x hx.1
  · intro x hx hxs
    rw [h2, List.mem_append, List.mem_filter] at hx
    rcases hx with hx | hx
    · rw [(hs x hxs).1, (hs x hxs).2]
      exact h.2 x hx.1
    · exact absurd (List.mem_singleton.1 hx) hxs

theorem sweptOut_class (env : Env) (hk : Tidy env) (sg : Nat) (w : World) (s x : Nat) :
    ((sweptOut env sg w s).spans x).incache = (w.spans x).incache ∧
    (x ≠ s → ((sweptOut env sg w s).spans x).freelist = (w.spans x).freelist) := by
  obtain ⟨h1, h2⟩ := hk.2.2.1 (handOut (atomicstore_sweepgen w s (uint32 (sg - 1))) s).toStore
    s x
  have hin : ((atomicstore_sweepgen w s (uint32 (sg - 1))).spans x).incache
      = (w.spans x).incache := by
    unfold atomicstore_sweepgen World.modify
    by_cases hxs : x = s
    · subst hxs
      simp only [Function.update_same]
    · simp only [Function.update_noteq hxs]
  constructor
  · exact h1.trans hin
  · intro hxs
    refine (h2 hxs).trans ?_
    change ((atomicstore_sweepgen w s (uint32 (sg - 1))).spans x).freelist = _
    unfold atomicstore_sweepgen World.modify
    simp only [Function.update_noteq hxs]

theorem sweptOut_inv (env : Env) (hk : Tidy env) (sg : Nat) (w : World) (s : Nat)
    (h : ListInv w) : ListInvBut (sweptOut env sg w s) s :=
  out_inv h (sweptOut_lists env hk.1 sg w s).1 (sweptOut_lists env hk.1 sg w s).2
    (fun x hxs => ⟨(sweptOut_class env hk sg w s x).2 hxs, (sweptOut_class env hk sg w s x).1⟩)

theorem scanEmpty_retry_freelist (env : Env) (sg : Nat) (w : World) :
    ∀ (l : List Nat) (w1 : World), scanEmpty env sg l w = .retry w1 →
      ∃ s, w1 = lock (sweptOut env sg w s) ∧ ((sweptOut env sg w s).spans s).freelist = 0 := by
  intro l
  induction l with
  | nil =>
    intro w1 h
    simp [scanEmpty] at h
  | cons a l ih =>
    intro w1 h
    rw [scanEmpty_cons] at h
    by_cases h2 : (w.spans a).sweepgen = uint32 (sg - 2)
    · rw [if_pos h2] at h
      by_cases h3 : ((sweptOut env sg w a).spans a).freelist ≠ 0
      · rw [if_pos h3] at h
        cases h
      · rw [if_neg h3] at h
        injection h with h
        exact ⟨a, h.symm, not_not.1 h3⟩
    · rw [if_neg h2] at h
      split_ifs at h
      exact ih w1 h

theorem scanLists_inv (env : Env) (hk : Tidy env) (sg : Nat) :
    ∀ (fuel : Nat) (w : World), ListInv w →
      (∀ s w2, scanLists env sg fuel w = .found s w2 → ListInvBut w2 s) ∧
      (∀ w2, scanLists env sg fuel w = .nothing w2 → ListInv w2) := by
  intro fuel
  induction fuel with
  | zero =>
    intro w _
    constructor
    · intro s w2 h
      simp [scanLists] at h
    · intro w2 h
      simp [scanLists] at h
  | succ fuel ih =>
    intro w hw
    unfold scanLists
    split
    · rename_i s1 w1 hn
      constructor
      · intro s w2 h
        injection h with hs hw2
        subst hs
        subst hw2
        obtain ⟨-, -, ⟨-, rfl⟩ | ⟨-, rfl⟩⟩ := scanNonempty_some env sg w _ _ _ hn
        · exact sweptOut_inv env hk sg w s1 hw
        · exact out_inv hw rfl rfl (fun x _ => ⟨rfl, rfl⟩)
      · intro w2 h
        cases h
    · rename_i hn
      split
      · rename_i s1 w1 he
        constructor
        · intro s w2 h
          injection h with hs hw2
          subst hs
          subst hw2
          obtain ⟨-, -, rfl, -⟩ := scanEmpty_havespan env sg w _ _ _ he
          exact sweptOut_inv env hk sg w s1 hw
        · intro w2 h
          cases h
      · rename_i w1 he
        obtain ⟨s1, rfl, hfl⟩ := scanEmpty_retry_freelist env sg w _ _ he
        have hb := sweptOut_inv env hk sg w s1 hw
        have hl : ListInv (lock (sweptOut env sg w s1)) := by
          refine ⟨hb.1, ?_⟩
          intro x hx
          by_cases hxs : x = s1
          · subst hxs
            exact Or.inr hfl
          · exact hb.2 x hx hxs
        exact ih _ hl
      · constructor
        · intro s w2 h
          cases h
        · intro w2 h
          injection h with h
          subst h
          exact hw

theorem grow_class (env : Env) (hk : Tidy env) (w : World) (r : Option Nat) (w1 : World)
    (h : mCentral_Grow env w = .ok r w1) (x : Nat) (hx : r ≠ some x) :
    SameClass (w1.spans x) (w.spans x) := by
  cases r with
  | none =>
    obtain ⟨-, ha, he⟩ := (grow_nil_iff env w w1).1 h
    rw [he]
    apply hk.2.2.2.1 w.toStore _ _ x
    rw [ha]
    exact fun h => by cases h
  | some s =>
    have hxs : x ≠ s := fun e => hx (by rw [e])
    obtain ⟨ha, -, -, hoth⟩ := grow_spans env w s w1 h
    rw [hoth x hxs]
    apply hk.2.2.2.1 w.toStore _ _ x
    rw [ha]
    exact hx

theorem selectSpan_inv (env : Env) (hk : Tidy env) (fuel : Nat) (w : World)
    (r : Option Nat) (w1 : World) (hw : ListInv w)
    (h : selectSpan env fuel w = .ok r w1) :
    (∀ s, r = some s → ListInvBut w1 s) ∧ (r = none → ListInv w1) := by
  have hent : ListInv (entered env w) := by
    obtain ⟨h1, h2⟩ := hk.1.1 w.toStore (uintptr (env.class_to_size w.sizeclass))
    have h3 := hk.2.1 w.toStore (uintptr (env.class_to_size w.sizeclass))
    constructor
    · intro x hx
      change x ∈ (env.deductSweepCredit w.toStore _).nonempty at hx
      rw [h1] at hx
      change ((env.deductSweepCredit w.toStore _).spans x).freelist ≠ 0
      rw [(h3 x).1]
      exact hw.1 x hx
    · intro x hx
      change x ∈ (env.deductSweepCredit w.toStore _).empty at hx
      rw [h2] at hx
      change ((env.deductSweepCredit w.toStore _).spans x).incache = true ∨
        ((env.deductSweepCredit w.toStore _).spans x).freelist = 0
      rw [(h3 x).1, (h3 x).2]
      exact hw.2 x hx
  rw [selectSpan_eq] at h
  split at h
  · cases h
  · rename_i s w2 hs
    injection h with hr hw1
    subst hr
    subst hw1
    refine ⟨?_, fun h => by cases h⟩
    intro s1 hs1
    injection hs1 with hs1
    subst hs1
    exact (scanLists_inv env hk _ fuel _ hent).1 s w2 hs
  · rename_i w2 hs
    have hl2 := (scanLists_inv env hk _ fuel _ hent).2 w2 hs
    split at h
    · cases h
    · cases h
    · rename_i w3 hg
      obtain ⟨g1, g2, -, -⟩ := grow_lists env hk.1 w2 none w3 hg
      have gc := grow_class env hk w2 none w3 hg
      injection h with hr hw1
      subst hr
      subst hw1
      refine ⟨fun s hs1 => (by cases hs1), fun _ => ?_⟩
      constructor
      · intro x hx
        rw [g1] at hx
        rw [(gc x (fun h => by cases h)).1]
        exact hl2.1 x hx
      · intro x hx
        rw [g2] at hx
        rw [(gc x (fun h => by cases h)).1, (gc x (fun h => by cases h)).2]
        exact hl2.2 x hx
    · rename_i s w3 hg
      obtain ⟨g1, g2, -, g4⟩ := grow_lists env hk.1 w2 (some s) w3 hg
      obtain ⟨n1, n2⟩ := g4 s rfl
      have gc := grow_class env hk w2 (some s) w3 hg
      injection h with hr hw1
      subst hr
      subst hw1
      refine ⟨?_, fun h => by cases h⟩
      intro s1 hs1
      injection hs1 with hs1
      subst hs1
      constructor
      · intro x hx
        change x ∈ w3.nonempty at hx
        rw [g1] at hx
        have hxs : x ≠ s := fun e => n1 (e ▸ hx)
        have hc := gc x (fun e => hxs (by injection e with e; exact e.symm))
        change (w3.spans x).freelist ≠ 0
        rw [hc.1]
        exact hl2.1 x hx
      · intro x hx hxs
        change x ∈ w3.empty ++ [s] at hx
        rw [g2, List.mem_append] at hx
        rcases hx with hx | hx
        · have hc := gc x (fun e => hxs (by injection e with e; exact e.symm))
          change (w3.spans x).incache = true ∨ (w3.spans x).freelist = 0
          rw [hc.1, hc.2]
          exact hl2.2 x hx
        · exact absurd (List.mem_singleton.1 hx) hxs

theorem setIncache_class (w : World) (s : Nat) (b : Bool) (x : Nat) :
    ((setIncache w s b).spans x).freelist = (w.spans x).freelist ∧
    (x ≠ s → ((setIncache w s b).spans x).incache = (w.spans x).incache) ∧
    ((setIncache w s b).spans s).incache = b := by
  unfold setIncache World.modify
  refine ⟨?_, ?_, ?_⟩
  · by_cases hxs : x = s
    · subst hxs
      simp only [Function.update_same]
    · simp only [Function.update_noteq hxs]
  · intro hxs
    simp only [Function.update_noteq hxs]
  · simp only [Function.update_same]

theorem cacheSpan_listInv (env : Env) (hk : Tidy env) (fuel : Nat) (w : World)
    (r : Option Nat) (w1 : World) (hw : ListInv w)
    (h : mCentral_CacheSpan env fuel w = .ok r w1) : ListInv w1 := by
  unfold mCentral_CacheSpan at h
  split at h
  · rename_i s w0 hsel
    obtain ⟨-, hw1, -⟩ := havespan_ok h
    subst hw1
    have hb := (selectSpan_inv env hk fuel w (some s) w0 hw hsel).1 s rfl
    constructor
    · intro x hx
      rw [(setIncache_class w0 s true x).1]
      exact hb.1 x hx
    · intro x hx
      by_cases hxs : x = s
      · subst hxs
        exact Or.inl (setIncache_class w0 x true x).2.2
      · rw [(setIncache_class w0 s true x).1, (setIncache_class w0 s true x).2.1 hxs]
        exact hb.2 x hx hxs
  · rename_i w0 hsel
    injection h with _ hw1
    subst hw1
    exact (selectSpan_inv env hk fuel w none _ hw hsel).2 rfl
  · cases h
  · cases h

theorem count_pos_iff (c : Int) (r : Nat) (hc : c < 2 ^ 31) (hle : (r : Int) ≤ c) :
    0 < int32 (c - int32 (r : Int)) ↔ (r : Int) ≠ c := by
  have hr : int32 (r : Int) = r := int32_of_range (by omega) (by omega)
  rw [hr, int32_of_range (by omega) (by omega)]
  omega

theorem freeCount_pos_iff (env : Env) (sp : mspan) (hle : (sp.ref : Int) ≤ capacity env sp) :
    0 < freeCount env sp ↔ (sp.ref : Int) ≠ capacity env sp :=
  count_pos_iff (capacity env sp) sp.ref (int32_bounds _).2 hle

theorem uncacheSpan_listInv (env : Env) (w : World) (s : Nat) (w1 : World)
    (h : mCentral_UncacheSpan env w s = .ok () w1) (hw : ListInv w)
    (hfi : FreeInv env (w.spans s)) (hle : ((w.spans s).ref : Int) ≤ capacity env (w.spans s)) :
    ListInv w1 := by
  have hpos := freeCount_pos_iff env (w.spans s) hle
  have hsp : freeCount env ((setIncache (lock w) s false).spans s)
      = freeCount env (w.spans s) := by
    have : (setIncache (lock w) s false).spans s = { w.spans s with incache := false } := by
      simp [lock]
    rw [this, freeCount_incache]
  have hc := setIncache_class (lock w) s false
  unfold mCentral_UncacheSpan at h
  dsimp only at h
  split at h
  · cases h
  · split at h
    · cases h
    · injection h with _ h2
      rw [← h2, hsp]
      by_cases hn : freeCount env (w.spans s) > 0
      · rw [if_pos hn]
        have hfl : (w.spans s).freelist ≠ 0 := fun h0 => (hpos.1 hn) (hfi.1 h0)
        constructor
        · intro x hx
          change x ∈ s :: w.nonempty.filter (fun y => y != s) at hx
          change ((setIncache (lock w) s false).spans x).freelist ≠ 0
          rw [(hc x).1]
          rcases List.mem_cons.1 hx with hx | hx
          · rw [hx]
            exact hfl
          · exact hw.1 x (List.mem_filter.1 hx).1
        · intro x hx
          change x ∈ w.empty.filter (fun y => y != s) at hx
          have hxs : x ≠ s := by simpa using (List.mem_filter.1 hx).2
          change ((setIncache (lock w) s false).spans x).incache = true ∨
            ((setIncache (lock w) s false).spans x).freelist = 0
          rw [(hc x).1, (hc x).2.1 hxs]
          exact hw.2 x (List.mem_filter.1 hx).1
      · rw [if_neg hn]
        have hfl : (w.spans s).freelist = 0 := hfi.2 (not_not.1 (fun hne => hn (hpos.2 hne)))
        constructor
        · intro x hx
          change ((setIncache (lock w) s false).spans x).freelist ≠ 0
          rw [(hc x).1]
          exact hw.1 x hx
        · intro x hx
          change ((setIncache (lock w) s false).spans x).incache = true ∨
            ((setIncache (lock w) s false).spans x).freelist = 0
          rw [(hc x).1]
          by_cases hxs : x = s
          · rw [hxs]
            exact Or.inr hfl
          · rw [(hc x).2.1 hxs]
            exact hw.2 x hx

theorem restamped_spans_other (w : World) (s : Nat) (n : Int) (start end_ : Nat) (x : Nat)
    (hx : x ≠ s) : (restamped w s n start end_).spans x = w.spans x := by
  unfold restamped atomicstore_sweepgen World.modify
  simp only [Function.update_noteq hx, (relinked_spans w s n start end_).1]
  exact spliced_spans_other w s n start end_ x hx

theorem restamped_listInv (w : World) (s : Nat) (n : Int) (start end_ : Nat)
    (hcache : (w.spans s).incache = false) (hstart : start ≠ 0) (hw : ListInv w) :
    ListInv (restamped w s n start end_) := by
  have hl := restamped_lists w s n start end_
  have hs : ((restamped w s n start end_).spans s).freelist = start := by
    rw [restamped_spans_same]
  have ho := restamped_spans_other w s n start end_
  by_cases hfl : (w.spans s).freelist = 0
  · constructor
    · intro x hx
      rw [(hl.1 hfl).1] at hx
      rcases List.mem_cons.1 hx with hx | hx
      · rw [hx, hs]
        exact hstart
      · have hxs : x ≠ s := by simpa using (List.mem_filter.1 hx).2
        rw [ho x hxs]
        exact hw.1 x (List.mem_filter.1 hx).1
    · intro x hx
      rw [(hl.1 hfl).2] at hx
      have hxs : x ≠ s := by simpa using (List.mem_filter.1 hx).2
      rw [ho x hxs]
      exact hw.2 x (List.mem_filter.1 hx).1
  · constructor
    · intro x hx
      rw [(hl.2 hfl).1] at hx
      by_cases hxs : x = s
      · rw [hxs, hs]
        exact hstart
      · rw [ho x hxs]
        exact hw.1 x hx
    · intro x hx
      rw [(hl.2 hfl).2] at hx
      by_cases hxs : x = s
      · subst hxs
        rcases hw.2 x hx with h1 | h1
        · rw [hcache] at h1
          cases h1
        · exact absurd h1 hfl
      · rw [ho x hxs]
        exact hw.2 x hx

theorem handedToHeap_listInv (env : Env) (hk : Tidy env) (w : World) (s : Nat)
    (hw : ListInv w) : ListInv (handedToHeap env (unlinkedForHeap w s) s) := by
  have hsp : ∀ x, x ≠ s → (unlinkedForHeap w s).spans x = w.spans x := by
    intro x hxs
    unfold unlinkedForHeap unlock setFreelist World.record World.modify mSpanList_Remove
    simp only [Function.update_noteq hxs]
  obtain ⟨f1, f2⟩ := hk.1.2.2.2
    ({ unlinkedForHeap w s with
       heapBits := env.initSpan (unlinkedForHeap w s).heapBits
         ((unlinkedForHeap w s).spans s) } : World).toStore s
  have f3 := hk.2.2.2.2
    ({ unlinkedForHeap w s with
       heapBits := env.initSpan (unlinkedForHeap w s).heapBits
         ((unlinkedForHeap w s).spans s) } : World).toStore s
  constructor
  · intro x hx
    change x ∈ (env.mHeap_Free _ s).nonempty at hx
    rw [f1] at hx
    change x ∈ w.nonempty.filter (fun y => y != s) at hx
    have hxs : x ≠ s := by simpa using (List.mem_filter.1 hx).2
    change ((env.mHeap_Free _ s).spans x).freelist ≠ 0
    rw [(f3 x hxs).1]
    change ((unlinkedForHeap w s).spans x).freelist ≠ 0
    rw [hsp x hxs]
    exact hw.1 x (List.mem_filter.1 hx).1
  · intro x hx
    change x ∈ (env.mHeap_Free _ s).empty at hx
    rw [f2] at hx
    change x ∈ w.empty.filter (fun y => y != s) at hx
    have hxs : x ≠ s := by simpa using (List.mem_filter.1 hx).2
    change ((env.mHeap_Free _ s).spans x).incache = true ∨
      ((env.mHeap_Free _ s).spans x).freelist = 0
    rw [(f3 x hxs).1, (f3 x hxs).2]
    change ((unlinkedForHeap w s).spans x).incache = true ∨
      ((unlinkedForHeap w s).spans x).freelist = 0
    rw [hsp x hxs]
    exact hw.2 x (List.mem_filter.1 hx).1

theorem freeSpan_listInv (env : Env) (hk : Tidy env) (w : World) (s : Nat) (n : Int)
    (start end_ : Nat) (r : Bool) (w1 : World)
    (h : mCentral_FreeSpan env w s n start end_ false = .ok r w1)
    (hstart : start ≠ 0) (hw : ListInv w) : ListInv w1 := by
  obtain ⟨hcache, hend⟩ := freeSpan_ok_pre env w s n start end_ false r w1 h
  have hre := restamped_listInv w s n start end_ hcache hstart hw
  rw [freeSpan_unfold env w s n start end_ false hcache hend] at h
  simp only [Bool.false_eq_true, if_false] at h
  split at h
  · injection h with _ h2
    rw [← h2]
    exact hre
  · injection h with _ h2
    rw [← h2]
    exact handedToHeap_listInv env hk _ s hre

theorem freeSpan_preserve_listInv (env : Env) (w : World) (s : Nat) (n : Int)
    (start end_ : Nat) (r : Bool) (w1 : World)
    (h : mCentral_FreeSpan env w s n start end_ true = .ok r w1)
    (hstart : start ≠ 0) (hw : ListInv w) : ListInvBut w1 s := by
  obtain ⟨hcache, hend⟩ := freeSpan_ok_pre env w s n start end_ true r w1 h
  rw [freeSpan_unfold env w s n start end_ true hcache hend] at h
  simp only [if_true] at h
  split at h
  · cases h
  · injection h with _ h2
    subst h2
    have ho : ∀ x, x ≠ s →
        (atomicstore_sweepgen (spliced w s n start end_) s w.sweepgen).spans x = w.spans x := by
      intro x hx
      unfold atomicstore_sweepgen World.modify
      simp only [Function.update_noteq hx]
      exact spliced_spans_other w s n start end_ x hx
    constructor
    · intro x hx
      by_cases hxs : x = s
      · rw [hxs, preserved_spans_same]
        exact hstart
      · rw [ho x hxs]
        exact hw.1 x hx
    · intro x hx hxs
      rw [ho x hxs]
      exact hw.2 x hx

theorem envOnce_tidy (size npages : Nat) : Tidy (envOnce size npages) := by
  refine ⟨envOnce_listsKept size npages, fun _ _ _ => ⟨rfl, rfl⟩,
    fun _ _ _ => ⟨rfl, fun _ => rfl⟩, ?_, fun _ _ _ _ => ⟨rfl, rfl⟩⟩
  intro st np sc x hx
  by_cases h : 7 ∈ st.nonempty ∨ 7 ∈ st.empty
  · have e : (envOnce size npages).mHeap_Alloc st np sc = (none, st) := if_pos h
    rw [e]
    exact ⟨rfl, rfl⟩
  · have e : (envOnce size npages).mHeap_Alloc st np sc
        = (envOf size npages).mHeap_Alloc st np 0 := if_neg h
    rw [e] at hx ⊢
    have hx7 : x ≠ 7 := fun h7 => hx (by rw [h7]; rfl)
    change SameClass (Function.update st.spans 7 _ x) (st.spans x)
    rw [Function.update_noteq hx7]
    exact ⟨rfl, rfl⟩

/-- C18 (as amended): with collaborators that leave the lists and the other
spans alone, the list classification (spans in `nonempty` have a non-empty
free list, spans in `empty` are cached or have an empty free list) holds
after `mCentral_Init`; it is kept by every completed `mCentral_CacheSpan`; by
every completed `mCentral_UncacheSpan` of a span that satisfies the free-list
invariant with `ref` not above its capacity; and by every completed
`mCentral_FreeSpan` with `preserve = false` and a non-nil batch.  After a
completed `mCentral_FreeSpan` with `preserve = true` it is kept for every
linked span other than the one freed into. -/
theorem C18_list_classification (env : Env) (hk : Tidy env) :
    (∀ w sizeclass, ListInv (mCentral_Init w sizeclass)) ∧
    (∀ fuel w r w1, mCentral_CacheSpan env fuel w = .ok r w1 → ListInv w → ListInv w1) ∧
    (∀ w s w1, mCentral_UncacheSpan env w s = .ok () w1 → ListInv w →
      FreeInv env (w.spans s) → ((w.spans s).ref : Int) ≤ capacity env (w.spans s) →
      ListInv w1) ∧
    (∀ w s n start end_ r w1, mCentral_FreeSpan env w s n start end_ false = .ok r w1 →
      start ≠ 0 → ListInv w → ListInv w1) ∧
    (∀ w s n start end_ r w1, mCentral_FreeSpan env w s n start end_ true = .ok r w1 →
      start ≠ 0 → ListInv w → ListInvBut w1 s) := by
  refine ⟨?_, fun fuel w r w1 h hw => cacheSpan_listInv env hk fuel w r w1 hw h,
    fun w s w1 h hw hfi hle => uncacheSpan_listInv env w s w1 h hw hfi hle,
    fun w s n start end_ r w1 h hstart hw =>
      freeSpan_listInv env hk w s n start end_ r w1 h hstart hw,
    fun w s n start end_ r w1 h hstart hw =>
      freeSpan_preserve_listInv env w s n start end_ r w1 h hstart hw⟩
  intro w sizeclass
  constructor
  · intro x hx
    exact absurd hx (List.not_mem_nil x)
  · intro x hx
    exact absurd hx (List.not_mem_nil x)

theorem C18_witness :
    Tidy (envOnce 2048 1) ∧ ListInv (mCentral_Init world0 3) ∧
    ∃ w1, mCentral_CacheSpan (envOnce 2048 1) 1 (mCentral_Init world0 3) = .ok (some 7) w1 ∧
      ListInv w1 := by
  have hk := envOnce_tidy 2048 1
  have h0 := (C18_list_classification (envOnce 2048 1) hk).1 world0 3
  have hc : ∃ w1, mCentral_CacheSpan (envOnce 2048 1) 1 (mCentral_Init world0 3)
      = .ok (some 7) w1 := ⟨_, rfl⟩
  obtain ⟨w1, hc⟩ := hc
  exact ⟨hk, h0, w1, hc,
    (C18_list_classification (envOnce 2048 1) hk).2.1 1 _ (some 7) w1 hc h0⟩

/-- C18 (as stated) fails for `preserve = true`: span 7 is linked in `empty`,
not cached, with an empty free list, so the classification holds; freeing its
one object with `preserve = true` completes and leaves the span linked in
`empty`, not cached, with a non-empty free list. -/
theorem C18_counterexample :
    ListInv worldLast ∧
    ∃ w1, mCentral_FreeSpan (envOf 4096 1) worldLast 7 1 4096 4096 true = .ok false w1 ∧
      7 ∈ w1.empty ∧ (w1.spans 7).incache = false ∧ (w1.spans 7).freelist = 4096 ∧
      ¬ ListInv w1 :=
  ⟨by decide, _, rfl, by decide, rfl, rfl, by decide⟩

/-! ## The order of `empty` within one sweep generation -/

theorem gen_ne_stale (sg : Nat) : (sg : Nat) ≠ uint32 (sg - 2) := by
  unfold uint32
  omega

theorem gen_ne_claimed (sg : Nat) : (sg : Nat) ≠ uint32 (sg - 1) := by
  unfold uint32
  omega

theorem scanEmpty_stops (env : Env) (sg : Nat) (w : World) (a : Nat) (post : List Nat)
    (h2 : (w.spans a).sweepgen ≠ uint32 (sg - 2)) (h1 : (w.spans a).sweepgen ≠ uint32 (sg - 1)) :
    ∀ pre : List Nat, (∀ x ∈ pre, (w.spans x).sweepgen = uint32 (sg - 1)) →
      scanEmpty env sg (pre ++ a :: post) w = .done := by
  intro pre
  induction pre with
  | nil =>
    intro _
    rw [List.nil_append, scanEmpty_cons, if_neg h2, if_neg h1]
  | cons p pre ih =>
    intro hp
    have hp1 := hp p (List.mem_cons_self p pre)
    have hp2 : (w.spans p).sweepgen ≠ uint32 (sg - 2) := by
      rw [hp1]
      exact fun h => uint32_pred_ne sg h.symm
    rw [List.cons_append, scanEmpty_cons, if_neg hp2, if_pos hp1]
    exact ih (fun x hx => hp x (List.mem_cons_of_mem p hx))

theorem carve_gen (size : Nat) :
    ∀ (k p tail : Nat) (w : World) (t : Nat) (w3 : World),
      carve size k p tail w = some (t, w3) → w3.sweepgen = w.sweepgen := by
  intro k
  induction k with
  | zero =>
    intro p tail w t w3 h
    simp only [carve, Option.some.injEq, Prod.mk.injEq] at h
    rw [← h.2]
  | succ k ih =>
    intro p tail w t w3 h
    simp only [carve] at h
    split_ifs at h
    have h1 := ih _ _ _ _ _ h
    exact h1

theorem grow_gen (env : Env) (w : World) (r : Option Nat) (w1 : World)
    (h : mCentral_Grow env w = .ok r w1) :
    w1.sweepgen = (env.mHeap_Alloc w.toStore (uintptr (env.class_to_allocnpages w.sizeclass))
      w.sizeclass).2.sweepgen ∧
    r = (env.mHeap_Alloc w.toStore (uintptr (env.class_to_allocnpages w.sizeclass))
      w.sizeclass).1 ∧
    ∀ x, (w1.spans x).sweepgen =
      ((env.mHeap_Alloc w.toStore (uintptr (env.class_to_allocnpages w.sizeclass))
        w.sizeclass).2.spans x).sweepgen := by
  unfold mCentral_Grow at h
  dsimp only at h
  split at h
  · cases h
  · split at h
    · rename_i st halloc
      rw [halloc]
      injection h with hr hw
      subst hr
      subst hw
      exact ⟨rfl, rfl, fun _ => rfl⟩
    · rename_i s0 st halloc
      rw [halloc]
      split at h
      · cases h
      · rename_i t w3 hc
        obtain ⟨-, -, -, -, hsp⟩ := carve_frame _ _ _ _ _ _ _ hc
        have hg := carve_gen _ _ _ _ _ _ _ hc
        split at h
        · cases h
        · split at h
          · cases h
          · injection h with hr hw
            subst hr
            subst hw
            refine ⟨hg, rfl, ?_⟩
            intro x
            by_cases hx : x = s0
            · subst hx
              simp only [setFreelist, World.modify, World.record, storeLink,
                Function.update_same, hsp, World.withStore]
            · simp only [setFreelist, World.modify, World.record, storeLink,
                Function.update_noteq hx, hsp, World.withStore]

theorem setIncache_stamp (w : World) (s : Nat) (b : Bool) (x : Nat) :
    ((setIncache w s b).spans x).sweepgen = (w.spans x).sweepgen := by
  unfold setIncache World.modify
  by_cases hxs : x = s
  · subst hxs
    simp only [Function.update_same]
  · simp only [Function.update_noteq hxs]


theorem sweptFirst_sub {w w2 : World} (h : SweptFirst w) (hgen : w2.sweepgen = w.sweepgen)
    (hsub : w2.empty.Sublist w.empty)
    (ho : ∀ x ∈ w2.empty, (w2.spans x).sweepgen = (w.spans x).sweepgen) : SweptFirst w2 := by
  unfold SweptFirst at h ⊢
  refine (h.sublist hsub).imp_of_mem ?_
  intro a b ha hb hR
  rw [hgen, ho a ha, ho b hb]
  exact hR

theorem sweptFirst_out {w w2 : World} {s : Nat} {l : List Nat} (h : SweptFirst w)
    (hgen : w2.sweepgen = w.sweepgen) (hl : w2.empty = l ++ [s]) (hsub : l.Sublist w.empty)
    (hs : (w2.spans s).sweepgen ≠ uint32 (w.sweepgen - 2))
    (ho : ∀ x ∈ l, (w2.spans x).sweepgen = (w.spans x).sweepgen) : SweptFirst w2 := by
  unfold SweptFirst at h ⊢
  rw [hl, List.pairwise_append]
  refine ⟨?_, List.pairwise_singleton _ _, ?_⟩
  · refine (h.sublist hsub).imp_of_mem ?_
    intro a b ha hb hR
    rw [hgen, ho a ha, ho b hb]
    exact hR
  · intro a _ b hb _
    rw [List.mem_singleton.1 hb, hgen]
    exact hs

theorem sweptFirst_stamp {w w2 : World} {s : Nat} (h : SweptFirst w)
    (hgen : w2.sweepgen = w.sweepgen) (hl : w2.empty = w.empty)
    (hs : (w2.spans s).sweepgen = w.sweepgen)
    (ho : ∀ x, x ≠ s → (w2.spans x).sweepgen = (w.spans x).sweepgen)
    (ha : NoStaleAfter w s) : SweptFirst w2 := by
  unfold SweptFirst at h ⊢
  unfold NoStaleAfter at ha
  rw [hl]
  refine (h.and ha).imp ?_
  intro a b hR hswept
  rw [hgen] at hswept ⊢
  by_cases hb : b = s
  · rw [hb, hs]
    exact gen_ne_stale w.sweepgen
  · rw [ho b hb]
    by_cases has : a = s
    · exact hR.2 has
    · rw [ho a has] at hswept
      exact hR.1 hswept

theorem sweptOut_order (env : Env) (hk : StampsKept env) (w : World) (s : Nat)
    (h : SweptFirst w) :
    SweptFirst (sweptOut env w.sweepgen w s) ∧
      (sweptOut env w.sweepgen w s).sweepgen = w.sweepgen := by
  obtain ⟨g1, g2, g3⟩ := hk.2.2.1
    (handOut (atomicstore_sweepgen w s (uint32 (w.sweepgen - 1))) s).toStore s
  have hgen : (sweptOut env w.sweepgen w s).sweepgen = w.sweepgen := g1
  refine ⟨sweptFirst_out h hgen (sweptOut_lists env hk.1 w.sweepgen w s).2
    (List.filter_sublist _) ?_ ?_, hgen⟩
  · intro h1
    have h2 := g3 h1
    change ((atomicstore_sweepgen w s (uint32 (w.sweepgen - 1))).spans s).sweepgen = _ at h2
    unfold atomicstore_sweepgen World.modify at h2
    simp only [Function.update_same] at h2
    exact uint32_pred_ne w.sweepgen h2.symm
  · intro x hx
    have hxs : x ≠ s := by simpa using (List.mem_filter.1 hx).2
    refine (g2 x hxs).trans ?_
    change ((atomicstore_sweepgen w s (uint32 (w.sweepgen - 1))).spans x).sweepgen = _
    unfold atomicstore_sweepgen World.modify
    simp only [Function.update_noteq hxs]

theorem scanLists_order (env : Env) (hk : StampsKept env) (sg : Nat) :
    ∀ (fuel : Nat) (w : World), w.sweepgen = sg → SweptFirst w →
      (∀ s w2, scanLists env sg fuel w = .found s w2 → SweptFirst w2 ∧ w2.sweepgen = sg) ∧
      (∀ w2, scanLists env sg fuel w = .nothing w2 → SweptFirst w2 ∧ w2.sweepgen = sg) := by
  intro fuel
  induction fuel with
  | zero =>
    intro w _ _
    constructor
    · intro s w2 h
      simp [scanLists] at h
    · intro w2 h
      simp [scanLists] at h
  | succ fuel ih =>
    intro w hg hw
    subst hg
    unfold scanLists
    split
    · rename_i s1 w1 hn
      constructor
      · intro s w2 h
        injection h with hs hw2
        subst hs
        subst hw2
        obtain ⟨-, -, ⟨-, rfl⟩ | ⟨hst, rfl⟩⟩ := scanNonempty_some env _ w _ _ _ hn
        · exact sweptOut_order env hk w s1 hw
        · exact ⟨sweptFirst_out hw rfl rfl (List.filter_sublist _) hst (fun x _ => rfl), rfl⟩
      · intro w2 h
        cases h
    · rename_i hn
      split
      · rename_i s1 w1 he
        constructor
        · intro s w2 h
          injection h with hs hw2
          subst hs
          subst hw2
          obtain ⟨-, -, rfl, -⟩ := scanEmpty_havespan env _ w _ _ _ he
          exact sweptOut_order env hk w s1 hw
        · intro w2 h
          cases h
      · rename_i w1 he
        obtain ⟨s1, rfl, -⟩ := scanEmpty_retry_freelist env _ w _ _ he
        obtain ⟨hb, hg⟩ := sweptOut_order env hk w s1 hw
        have hl : SweptFirst (lock (sweptOut env w.sweepgen w s1)) := hb
        exact ih _ hg hl
      · constructor
        · intro s w2 h
          cases h
        · intro w2 h
          injection h with h
          subst h
          exact ⟨hw, rfl⟩

theorem grow_order (env : Env) (hk : StampsKept env) (w : World) (r : Option Nat)
    (w1 : World) (h : mCentral_Grow env w = .ok r w1) :
    w1.sweepgen = w.sweepgen ∧ w1.empty = w.empty ∧
      (∀ x ∈ w.empty, (w1.spans x).sweepgen = (w.spans x).sweepgen) ∧
      (∀ s, r = some s → s ∉ w.empty ∧ (w1.spans s).sweepgen ≠ uint32 (w.sweepgen - 2)) := by
  obtain ⟨g1, g2, g3⟩ := grow_gen env w r w1 h
  obtain ⟨a1, a2, a3⟩ := hk.2.2.2.1 w.toStore
    (uintptr (env.class_to_allocnpages w.sizeclass)) w.sizeclass
  obtain ⟨-, l2, -, l4⟩ := grow_lists env hk.1 w r w1 h
  refine ⟨g1.trans a1, l2, ?_, ?_⟩
  · intro x hx
    rw [g3 x]
    apply a2 x
    intro hsome
    exact (l4 x (g2.trans hsome)).2 hx
  · intro s hs
    refine ⟨(l4 s hs).2, ?_⟩
    rw [g3 s]
    exact a3 s (g2.symm.trans hs)

theorem entered_order (env : Env) (hk : StampsKept env) (w : World) (hw : SweptFirst w) :
    SweptFirst (entered env w) ∧ (entered env w).sweepgen = w.sweepgen := by
  obtain ⟨d1, d2⟩ := hk.2.1 w.toStore (uintptr (env.class_to_size w.sizeclass))
  obtain ⟨-, e2⟩ := hk.1.1 w.toStore (uintptr (env.class_to_size w.sizeclass))
  have hegen : (entered env w).sweepgen = w.sweepgen := d1
  have hl : (entered env w).empty = w.empty := e2
  exact ⟨sweptFirst_sub hw hegen (by rw [hl]) (fun x _ => d2 x), hegen⟩

theorem selectSpan_order (env : Env) (hk : StampsKept env) (fuel : Nat) (w : World)
    (r : Option Nat) (w1 : World) (hw : SweptFirst w)
    (h : selectSpan env fuel w = .ok r w1) :
    SweptFirst w1 ∧ w1.sweepgen = w.sweepgen := by
  obtain ⟨hent, hegen⟩ := entered_order env hk w hw
  rw [selectSpan_eq] at h
  split at h
  · cases h
  · rename_i s w2 hs
    injection h with hr hw1
    subst hr
    subst hw1
    obtain ⟨h1, h2⟩ := (scanLists_order env hk _ fuel _ rfl hent).1 s w2 hs
    exact ⟨h1, h2.trans hegen⟩
  · rename_i w2 hs
    obtain ⟨hl2, hg2⟩ := (scanLists_order env hk _ fuel _ rfl hent).2 w2 hs
    split at h
    · cases h
    · cases h
    · rename_i w3 hg
      obtain ⟨f1, f2, f3, -⟩ := grow_order env hk w2 none w3 hg
      injection h with hr hw1
      subst hr
      subst hw1
      refine ⟨sweptFirst_sub hl2 f1 (by rw [f2]) ?_, f1.trans (hg2.trans hegen)⟩
      intro x hx
      rw [f2] at hx
      exact f3 x hx
    · rename_i s w3 hg
      obtain ⟨f1, f2, f3, f4⟩ := grow_order env hk w2 (some s) w3 hg
      injection h with hr hw1
      subst hr
      subst hw1
      have hl : (unlock (mSpanList_InsertBack (lock w3) .empty s)).empty = w2.empty ++ [s] := by
        change w3.empty ++ [s] = _
        rw [f2]
      exact ⟨sweptFirst_out hl2 f1 hl (List.Sublist.refl _) (f4 s rfl).2 f3,
        f1.trans (hg2.trans hegen)⟩

theorem cacheSpan_order (env : Env) (hk : StampsKept env) (fuel : Nat) (w : World)
    (r : Option Nat) (w1 : World) (hw : SweptFirst w)
    (h : mCentral_CacheSpan env fuel w = .ok r w1) :
    SweptFirst w1 ∧ w1.sweepgen = w.sweepgen := by
  unfold mCentral_CacheSpan at h
  split at h
  · rename_i s w0 hsel
    obtain ⟨-, hw1, -⟩ := havespan_ok h
    subst hw1
    obtain ⟨hb, hg⟩ := selectSpan_order env hk fuel w (some s) w0 hw hsel
    exact ⟨sweptFirst_sub hb rfl (List.Sublist.refl _) (fun x _ => setIncache_stamp w0 s true x),
      hg⟩
  · rename_i w0 hsel
    injection h with _ hw1
    subst hw1
    exact selectSpan_order env hk fuel w none _ hw hsel
  · cases h
  · cases h

theorem uncacheSpan_order (env : Env) (w : World) (s : Nat) (w1 : World)
    (h : mCentral_UncacheSpan env w s = .ok () w1) (hw : SweptFirst w) :
    SweptFirst w1 ∧ w1.sweepgen = w.sweepgen := by
  unfold mCentral_UncacheSpan at h
  dsimp only at h
  split at h
  · cases h
  · split at h
    · cases h
    · injection h with _ h2
      rw [← h2]
      split_ifs
      · exact ⟨sweptFirst_sub hw rfl (List.filter_sublist _)
          (fun x _ => setIncache_stamp (lock w) s false x), rfl⟩
      · exact ⟨sweptFirst_sub hw rfl (List.Sublist.refl _)
          (fun x _ => setIncache_stamp (lock w) s false x), rfl⟩

theorem restamped_order (w : World) (s : Nat) (n : Int) (start end_ : Nat)
    (hw : SweptFirst w) (hs : s ∈ w.empty → (w.spans s).freelist = 0) :
    SweptFirst (restamped w s n start end_) ∧
      (restamped w s n start end_).sweepgen = w.sweepgen := by
  have hgen : (restamped w s n start end_).sweepgen = w.sweepgen :=
    (relinked_spans w s n start end_).2.1
  have hl := restamped_lists w s n start end_
  have ho := restamped_spans_other w s n start end_
  refine ⟨?_, hgen⟩
  by_cases hfl : (w.spans s).freelist = 0
  · refine sweptFirst_sub hw hgen (by rw [(hl.1 hfl).2]; exact List.filter_sublist _) ?_
    intro x hx
    rw [(hl.1 hfl).2] at hx
    have hxs : x ≠ s := by simpa using (List.mem_filter.1 hx).2
    rw [ho x hxs]
  · refine sweptFirst_sub hw hgen (by rw [(hl.2 hfl).2]) ?_
    intro x hx
    rw [(hl.2 hfl).2] at hx
    have hxs : x ≠ s := fun e => hfl (hs (e ▸ hx))
    rw [ho x hxs]

theorem handedToHeap_order (env : Env) (hk : StampsKept env) (w : World) (s : Nat)
    (hw : SweptFirst w) :
    SweptFirst (handedToHeap env (unlinkedForHeap w s) s) ∧
      (handedToHeap env (unlinkedForHeap w s) s).sweepgen = w.sweepgen := by
  obtain ⟨-, f2⟩ := hk.1.2.2.2
    ({ unlinkedForHeap w s with
       heapBits := env.initSpan (unlinkedForHeap w s).heapBits
         ((unlinkedForHeap w s).spans s) } : World).toStore s
  obtain ⟨g1, g2⟩ := hk.2.2.2.2
    ({ unlinkedForHeap w s with
       heapBits := env.initSpan (unlinkedForHeap w s).heapBits
         ((unlinkedForHeap w s).spans s) } : World).toStore s
  have hsp : ∀ x, x ≠ s → (unlinkedForHeap w s).spans x = w.spans x := by
    intro x hxs
    unfold unlinkedForHeap unlock setFreelist World.record World.modify mSpanList_Remove
    simp only [Function.update_noteq hxs]
  have hgen : (handedToHeap env (unlinkedForHeap w s) s).sweepgen = w.sweepgen := g1
  have hl : (handedToHeap env (unlinkedForHeap w s) s).empty
      = w.empty.filter (fun y => y != s) := f2
  refine ⟨sweptFirst_sub hw hgen (by rw [hl]; exact List.filter_sublist _) ?_, hgen⟩
  intro x hx
  rw [hl] at hx
  have hxs : x ≠ s := by simpa using (List.mem_filter.1 hx).2
  refine (g2 x hxs).trans ?_
  change ((unlinkedForHeap w s).spans x).sweepgen = _
  rw [hsp x hxs]

theorem freeSpan_order (env : Env) (hk : StampsKept env) (w : World) (s : Nat) (n : Int)
    (start end_ : Nat) (r : Bool) (w1 : World)
    (h : mCentral_FreeSpan env w s n start end_ false = .ok r w1) (hw : SweptFirst w)
    (hs : s ∈ w.empty → (w.spans s).freelist = 0) :
    SweptFirst w1 ∧ w1.sweepgen = w.sweepgen := by
  obtain ⟨hcache, hend⟩ := freeSpan_ok_pre env w s n start end_ false r w1 h
  obtain ⟨hre, hregen⟩ := restamped_order w s n start end_ hw hs
  rw [freeSpan_unfold env w s n start end_ false hcache hend] at h
  simp only [Bool.false_eq_true, if_false] at h
  split at h
  · injection h with _ h2
    rw [← h2]
    exact ⟨hre, hregen⟩
  · injection h with _ h2
    rw [← h2]
    obtain ⟨h3, h4⟩ := handedToHeap_order env hk _ s hre
    exact ⟨h3, h4.trans hregen⟩

theorem freeSpan_preserve_order (env : Env) (w : World) (s : Nat) (n : Int)
    (start end_ : Nat) (r : Bool) (w1 : World)
    (h : mCentral_FreeSpan env w s n start end_ true = .ok r w1) (hw : SweptFirst w)
    (hs : NoStaleAfter w s) : SweptFirst w1 ∧ w1.sweepgen = w.sweepgen := by
  obtain ⟨hcache, hend⟩ := freeSpan_ok_pre env w s n start end_ true r w1 h
  rw [freeSpan_unfold env w s n start end_ true hcache hend] at h
  simp only [if_true] at h
  split at h
  · cases h
  · injection h with _ h2
    subst h2
    refine ⟨sweptFirst_stamp hw rfl rfl ?_ ?_ hs, rfl⟩
    · rw [preserved_spans_same]
    · intro x hx
      unfold atomicstore_sweepgen World.modify
      simp only [Function.update_noteq hx]
      rw [spliced_spans_other w s n start end_ x hx]

theorem within_order (env : Env) (hk : StampsKept env) (w0 w : World) (h0 : SweptFirst w0)
    (h : Within env w0 w) : SweptFirst w ∧ w.sweepgen = w0.sweepgen := by
  induction h with
  | start => exact ⟨h0, rfl⟩
  | cacheSpan fuel r w1 _ hc ih =>
    obtain ⟨h1, h2⟩ := cacheSpan_order env hk fuel _ r w1 ih.1 hc
    exact ⟨h1, h2.trans ih.2⟩
  | uncacheSpan s w1 _ hc ih =>
    obtain ⟨h1, h2⟩ := uncacheSpan_order env _ s w1 hc ih.1
    exact ⟨h1, h2.trans ih.2⟩
  | grow r w1 _ hc ih =>
    obtain ⟨f1, f2, f3, -⟩ := grow_order env hk _ r w1 hc
    refine ⟨sweptFirst_sub ih.1 f1 (by rw [f2]) ?_, f1.trans ih.2⟩
    intro x hx
    rw [f2] at hx
    exact f3 x hx
  | freeSpan s n start end_ r w1 _ hc hs ih =>
    obtain ⟨h1, h2⟩ := freeSpan_order env hk _ s n start end_ r w1 hc ih.1 hs
    exact ⟨h1, h2.trans ih.2⟩
  | freeSpanPreserve s n start end_ r w1 _ hc hs ih =>
    obtain ⟨h1, h2⟩ := freeSpan_preserve_order env _ s n start end_ r w1 hc ih.1 hs
    exact ⟨h1, h2.trans ih.2⟩

theorem envOnceSweeping_stampsKept (size npages : Nat) :
    StampsKept (envOnceSweeping size npages) := by
  have hl : ListsKept (envOnceSweeping size npages) := by
    refine ⟨fun _ _ => ⟨rfl, rfl⟩, fun _ _ => ⟨rfl, rfl⟩, ?_, fun _ _ => ⟨rfl, rfl⟩⟩
    intro st np sc
    exact (envOnce_listsKept size npages).2.2.1 st np sc
  refine ⟨hl, fun _ _ => ⟨rfl, fun _ => rfl⟩, ?_, ?_, fun _ _ => ⟨rfl, fun _ _ => rfl⟩⟩
  · intro st s
    refine ⟨rfl, ?_, ?_⟩
    · intro x hx
      change (Function.update st.spans s { st.spans s with sweepgen := st.sweepgen } x).sweepgen
        = _
      rw [Function.update_noteq hx]
    · intro h
      change (Function.update st.spans s { st.spans s with sweepgen := st.sweepgen } s).sweepgen
        = _ at h
      rw [Function.update_same] at h
      exact absurd h (gen_ne_stale st.sweepgen)
  · intro st np sc
    by_cases h : 7 ∈ st.nonempty ∨ 7 ∈ st.empty
    · have e : (envOnceSweeping size npages).mHeap_Alloc st np sc = (none, st) := if_pos h
      rw [e]
      exact ⟨rfl, fun _ _ => rfl, fun s hs => by cases hs⟩
    · have e : (envOnceSweeping size npages).mHeap_Alloc st np sc
          = (envOf size npages).mHeap_Alloc st np 0 := if_neg h
      rw [e]
      have h7 : (((envOf size npages).mHeap_Alloc st np 0).2.spans 7).sweepgen = st.sweepgen :=
        rfl
      refine ⟨rfl, ?_, ?_⟩
      · intro x hx
        have hx7 : x ≠ 7 := fun h7 => hx (by rw [h7]; rfl)
        change (Function.update st.spans 7 (mspan.mk 1 np size 0 0 st.sweepgen false 0 0)
          x).sweepgen = _
        rw [Function.update_noteq hx7]
      · intro s hs
        have hs7 : some 7 = some s := hs
        injection hs7 with hs7
        subst hs7
        rw [h7]
        exact gen_ne_stale st.sweepgen

/-- C17 (as amended): within one sweep generation (the collaborators leave
the global generation, the lists and the stamps of the other spans alone, and
neither the sweep routine nor the heap stamps a span generation-2), the order
"no span stamped generation-2 comes after, in `empty`, a span stamped with
the current generation" holds after `mCentral_Init`, and is kept, with the
global generation, along every run of completed `mCentral_CacheSpan`,
`mCentral_UncacheSpan`, `mCentral_Grow` and `mCentral_FreeSpan` calls in which
`mCentral_FreeSpan` is called with `preserve = false` on a span that, if
linked in `empty`, has an empty free list, and with `preserve = true` on a span
that no generation-2 span follows in `empty`.  Hence in a state in that order,
when the scan of `empty` of `mCentral_CacheSpan` has skipped spans being swept
and reaches an already-swept span, it stops there without claiming a span, and
no later span of `empty` needs sweeping. -/
theorem C17_order_within_generation (env : Env) (hk : StampsKept env) :
    (∀ w sizeclass, SweptFirst (mCentral_Init w sizeclass)) ∧
    (∀ w0 w, SweptFirst w0 → Within env w0 w → SweptFirst w ∧ w.sweepgen = w0.sweepgen) ∧
    (∀ w, SweptFirst w → ∀ pre a post, (entered env w).empty = pre ++ a :: post →
      (∀ x ∈ pre, ((entered env w).spans x).sweepgen = uint32 ((entered env w).sweepgen - 1)) →
      ((entered env w).spans a).sweepgen = (entered env w).sweepgen →
      scanEmpty env (entered env w).sweepgen (entered env w).empty (entered env w) = .done ∧
      ∀ b ∈ post, ((entered env w).spans b).sweepgen
        ≠ uint32 ((entered env w).sweepgen - 2)) := by
  refine ⟨?_, fun w0 w h0 h => within_order env hk w0 w h0 h, ?_⟩
  · intro w sizeclass
    exact List.Pairwise.nil
  · intro w hw pre a post he hpre ha
    constructor
    · rw [he]
      apply scanEmpty_stops env _ _ a post _ _ pre hpre
      · rw [ha]
        exact gen_ne_stale _
      · rw [ha]
        exact gen_ne_claimed _
    · intro b hb
      have h1 := (entered_order env hk w hw).1
      unfold SweptFirst at h1
      rw [he, List.pairwise_append] at h1
      exact List.rel_of_pairwise_cons h1.2.1 hb ha

theorem C17_witness :
    StampsKept (envOnceSweeping 4096 1) ∧ SweptFirst worldTwoStale ∧
    ∃ w1, mCentral_FreeSpan (envOnceSweeping 4096 1) worldTwoStale 7 1 8192 8192 true
        = .ok false w1 ∧
      w1.empty = [5, 7] ∧ (w1.spans 5).sweepgen = uint32 (w1.sweepgen - 2) ∧
      (w1.spans 7).sweepgen = w1.sweepgen ∧ SweptFirst w1 :=
  ⟨envOnceSweeping_stampsKept 4096 1, by decide, _, rfl, rfl, by decide, rfl,
    ((C17_order_within_generation (envOnceSweeping 4096 1)
      (envOnceSweeping_stampsKept 4096 1)).2.1 worldTwoStale _ (by decide)
      (Within.freeSpanPreserve 7 1 8192 8192 false _ Within.start rfl (by decide))).1⟩

/-- C17 (as stated) fails: at the start of a sweep generation the spans 5 and
7 of `empty` are both stamped generation-2, so the order holds;
`mCentral_FreeSpan` with `preserve = true` on span 5 completes and stamps it
with the current generation where it is linked, in front of span 7, which is
still stamped generation-2.  The next `mCentral_CacheSpan` stops its scan of
`empty` at span 5 and returns without having swept span 7. -/
theorem C17_counterexample :
    SweptFirst worldTwoStale ∧
    ∃ w1, mCentral_FreeSpan (envOnceSweeping 4096 1) worldTwoStale 5 1 4096 4096 true
        = .ok false w1 ∧
      w1.empty = [5, 7] ∧ (w1.spans 5).sweepgen = w1.sweepgen ∧
      (w1.spans 7).sweepgen = uint32 (w1.sweepgen - 2) ∧ ¬ SweptFirst w1 ∧
      scanEmpty (envOnceSweeping 4096 1) (entered (envOnceSweeping 4096 1) w1).sweepgen
        (entered (envOnceSweeping 4096 1) w1).empty (entered (envOnceSweeping 4096 1) w1)
        = .done ∧
      ∃ w2, mCentral_CacheSpan (envOnceSweeping 4096 1) 1 w1 = .ok none w2 ∧
        w2.empty = [5, 7] ∧ (w2.spans 7).sweepgen = uint32 (w2.sweepgen - 2) :=
  ⟨by decide, _, rfl, rfl, rfl, by decide, by decide, rfl, _, rfl, rfl, by decide⟩

end MCentral
